import Mathlib

/-!
# Dungeon crawler: entity, ability, combat and map model

A shallow embedding of `src/main.cpp`.  In the model of the game C++ `int` values
are unbounded `Int` (the game's values stay far below `2^31`).  The functions
whose contract ranges over every `int` argument (`takeDamage`, `heal`,
`restoreMana`, `gainExperience`) are given a second time in the namespace
`Machine`, with every sum, difference and product reduced to 32 bits by
`wrap32`; where nothing overflows the two agree.  Console output (`std::cout`)
is not part of the state; the one printed value that is computed by the code,
the Cleave hit counter, is returned as part of the outcome of `Game.useAbility`.
-/

namespace Dungeon

/-- `std::abs` on `int`. -/
def stdAbs (a : Int) : Int := if a < 0 then -a else a

/-! ## Entity (main.cpp 17-56) -/

/-- Fields of `class Entity`. -/
structure Entity where
  name : String
  health : Int
  maxHealth : Int
  attack : Int
  defense : Int
  x : Int
  y : Int
  symbol : Char
  deriving DecidableEq

namespace Entity

/-- Constructor `Entity(n, h, a, d, s)`: health and maxHealth both `h`, position `(0,0)`. -/
def mk0 (n : String) (h a d : Int) (s : Char) : Entity :=
  { name := n, health := h, maxHealth := h, attack := a, defense := d, x := 0, y := 0, symbol := s }

/-- `Entity::takeDamage`: `actualDamage = max(1, damage - defense)`, subtract, clamp at 0. -/
def takeDamage (e : Entity) (damage : Int) : Entity :=
  let actualDamage := max 1 (damage - e.defense)
  let health := e.health - actualDamage
  { e with health := if health < 0 then 0 else health }

/-- `Entity::dealDamage`: returns `attack`. -/
def dealDamage (e : Entity) : Int := e.attack

/-- `Entity::isAlive`: `health > 0`. -/
def isAlive (e : Entity) : Bool := decide (e.health > 0)

/-- `Entity::setPosition`. -/
def setPosition (e : Entity) (px py : Int) : Entity := { e with x := px, y := py }

/-- `Entity::heal`: `health = min(maxHealth, health + amount)`. -/
def heal (e : Entity) (amount : Int) : Entity :=
  { e with health := min e.maxHealth (e.health + amount) }

end Entity

/-! ## Ability (main.cpp 62-77) -/

/-- The enumeration `AbilityType`. -/
inductive AbilityType where
  | NONE
  | CLEAVE
  | HEAL
  | FIRE_BLAST
  | SHIELD_BASH
  deriving DecidableEq

/-- Fields of `struct Ability`. -/
structure Ability where
  name : String
  type : AbilityType
  cooldown : Int
  currentCooldown : Int
  manaCost : Int
  deriving DecidableEq

namespace Ability

/-- Constructor `Ability(n, t, cd, cost)`: `currentCooldown` starts at 0. -/
def mk0 (n : String) (t : AbilityType) (cd cost : Int) : Ability :=
  { name := n, type := t, cooldown := cd, currentCooldown := 0, manaCost := cost }

/-- `Ability::isReady`: `currentCooldown == 0`. -/
def isReady (a : Ability) : Bool := decide (a.currentCooldown = 0)

/-- `Ability::use`: `currentCooldown = cooldown`. -/
def use (a : Ability) : Ability := { a with currentCooldown := a.cooldown }

/-- `Ability::tick`: decrement `currentCooldown` when it is positive. -/
def tick (a : Ability) : Ability :=
  if a.currentCooldown > 0 then { a with currentCooldown := a.currentCooldown - 1 } else a

/-- The effect of `k` successive calls of `tick`. -/
def tickN : Nat → Ability → Ability
  | 0, a => a
  | k + 1, a => tickN k a.tick

end Ability

/-! ## Player (main.cpp 83-141) -/

/-- Fields of `class Player : public Entity`. -/
structure Player extends Entity where
  mana : Int
  maxMana : Int
  experience : Int
  level : Int
  abilities : List Ability
  deriving DecidableEq

namespace Player

/-- Constructor `Player()`: Hero, 100 health, 15 attack, 5 defense, 50 mana, level 1,
with the three abilities Cleave, Heal and Fire Blast. -/
def new : Player :=
  { toEntity := Entity.mk0 "Hero" 100 15 5 '@'
    mana := 50, maxMana := 50, experience := 0, level := 1
    abilities :=
      [ Ability.mk0 "Cleave" AbilityType.CLEAVE 3 15,
        Ability.mk0 "Heal" AbilityType.HEAL 5 20,
        Ability.mk0 "Fire Blast" AbilityType.FIRE_BLAST 4 25 ] }

/-- `Player::levelUp`. -/
def levelUp (p : Player) : Player :=
  let maxHealth := p.maxHealth + 20
  let maxMana := p.maxMana + 10
  { p with
    level := p.level + 1
    maxHealth := maxHealth
    health := maxHealth
    attack := p.attack + 3
    defense := p.defense + 2
    maxMana := maxMana
    mana := maxMana }

/-- The `while (experience >= level * 100)` loop of `Player::gainExperience`.
It terminates for every state: a non-positive level only rises, and from level 1 on
each round removes at least 100 experience. -/
def levelLoop (p : Player) : Player :=
  if p.experience ≥ p.level * 100 then
    levelLoop (levelUp { p with experience := p.experience - p.level * 100 })
  else p
termination_by ((1 - p.level).toNat, p.experience.toNat)
decreasing_by
  simp only [levelUp]
  by_cases hl : p.level ≤ 0
  · apply Prod.Lex.left
    omega
  · have h1 : (1 - (p.level + 1)).toNat = (1 - p.level).toNat := by omega
    rw [h1]
    apply Prod.Lex.right
    have : p.level * 100 ≥ 100 := by omega
    omega

/-- `Player::gainExperience`. -/
def gainExperience (p : Player) (exp : Int) : Player :=
  levelLoop { p with experience := p.experience + exp }

/-- `Player::useMana`: the updated player and the returned flag. -/
def useMana (p : Player) (amount : Int) : Player × Bool :=
  if p.mana ≥ amount then ({ p with mana := p.mana - amount }, true) else (p, false)

/-- `Player::restoreMana`: `mana = min(maxMana, mana + amount)`. -/
def restoreMana (p : Player) (amount : Int) : Player :=
  { p with mana := min p.maxMana (p.mana + amount) }

/-- `Player::update`: tick every ability. -/
def update (p : Player) : Player := { p with abilities := p.abilities.map Ability.tick }

/-- The inherited `Entity::takeDamage` on a player. -/
def takeDamage (p : Player) (damage : Int) : Player :=
  { p with toEntity := p.toEntity.takeDamage damage }

/-- The inherited `Entity::heal` on a player. -/
def heal (p : Player) (amount : Int) : Player :=
  { p with toEntity := p.toEntity.heal amount }

/-- The inherited `Entity::setPosition` on a player. -/
def setPosition (p : Player) (px py : Int) : Player :=
  { p with toEntity := p.toEntity.setPosition px py }

end Player

/-- Relation between a player `p` and a later state `q` of the same player reached by
experience gains only: abilities and position are kept, the level did not drop, with the
level unchanged only `experience` may differ, and with a higher level mana and health are
at their maxima. -/
def Player.GainedFrom (p q : Player) : Prop :=
  q.abilities = p.abilities ∧ q.x = p.x ∧ q.y = p.y ∧ p.level ≤ q.level ∧
  (q.level = p.level → q = { p with experience := q.experience }) ∧
  (p.level < q.level → q.mana = q.maxMana ∧ q.health = q.maxHealth)

/-! ## Enemies (main.cpp 147-208) -/

/-- The three subclasses of `Enemy`; a Dragon carries its private `breathCooldown`. -/
inductive EnemyKind where
  | Goblin
  | Orc
  | Dragon (breathCooldown : Int)
  deriving DecidableEq

/-- Fields of `class Enemy : public Entity`, with the dynamic type as `kind`. -/
structure Enemy extends Entity where
  expValue : Int
  kind : EnemyKind
  deriving DecidableEq

namespace Enemy

/-- Constructor `Goblin()`: `Enemy("Goblin", 30, 8, 2, 'g', 25)`. -/
def goblin : Enemy :=
  { toEntity := Entity.mk0 "Goblin" 30 8 2 'g', expValue := 25, kind := EnemyKind.Goblin }

/-- Constructor `Orc()`: `Enemy("Orc", 50, 12, 4, 'O', 40)`. -/
def orc : Enemy :=
  { toEntity := Entity.mk0 "Orc" 50 12 4 'O', expValue := 40, kind := EnemyKind.Orc }

/-- Constructor `Dragon()`: `Enemy("Dragon", 120, 20, 8, 'D', 100)`, `breathCooldown(0)`. -/
def dragon : Enemy :=
  { toEntity := Entity.mk0 "Dragon" 120 20 8 'D', expValue := 100, kind := EnemyKind.Dragon 0 }

/-- The inherited `Entity::takeDamage` on an enemy. -/
def takeDamage (e : Enemy) (damage : Int) : Enemy :=
  { e with toEntity := e.toEntity.takeDamage damage }

/-- The inherited `Entity::setPosition` on an enemy. -/
def setPosition (e : Enemy) (px py : Int) : Enemy :=
  { e with toEntity := e.toEntity.setPosition px py }

end Enemy

/-! ## Dungeon map (main.cpp 214-317) -/

/-- `DungeonMap::WIDTH`. -/
def WIDTH : Int := 40

/-- `DungeonMap::HEIGHT`. -/
def HEIGHT : Int := 20

/-- The nested `struct Room`. -/
structure Room where
  x : Int
  y : Int
  width : Int
  height : Int
  deriving DecidableEq

/-- Fields of `class DungeonMap`: `tiles row col` is `tiles[row][col]`; only rows below
`HEIGHT` and columns below `WIDTH` exist in the source array. -/
structure DungeonMap where
  tiles : Nat → Nat → Char
  rooms : List Room

namespace DungeonMap

/-- `DungeonMap::isWalkable`: the bounds test returns before any tile is read. -/
def isWalkable (m : DungeonMap) (x y : Int) : Bool :=
  if x < 0 ∨ x ≥ WIDTH ∨ y < 0 ∨ y ≥ HEIGHT then false
  else m.tiles y.toNat x.toNat == '.'

end DungeonMap

/-! ## Game (main.cpp 323-572) -/

/-- Fields of `class Game`. -/
structure Game where
  player : Player
  enemies : List Enemy
  dungeon : DungeonMap
  floor : Int
  running : Bool

/-- What `Game::useAbility` reports: which branch ended the call, with the number it prints. -/
inductive AbilityOutcome where
  | invalid
  | onCooldown (turns : Int)
  | notEnoughMana
  | cleaved (count : Int)
  | healed
  | fireBlast
  | noEffect
  deriving DecidableEq

namespace Game

/-- A range-based `for (auto& enemy : enemies)` loop whose body updates the player, a local
accumulator and the current enemy in place. -/
def forEnemies {σ : Type} (body : σ → Enemy → σ × Enemy) : σ → List Enemy → σ × List Enemy
  | s, [] => (s, [])
  | s, enemy :: rest =>
    let r := body s enemy
    let t := forEnemies body r.1 rest
    (t.1, r.2 :: t.2)

/-- Body of the loop in `Game::playerAttack`; `none` is the fall-through to the next
enemy, `some` is the state at the `return`. -/
def playerAttackBody (player : Player) (enemy : Enemy) : Option (Player × Enemy) :=
  if !enemy.isAlive then none
  else
    let dx := stdAbs (player.x - enemy.x)
    let dy := stdAbs (player.y - enemy.y)
    if dx ≤ 1 ∧ dy ≤ 1 then
      let enemy1 := enemy.takeDamage player.dealDamage
      if !enemy1.isAlive then some (player.gainExperience enemy1.expValue, enemy1)
      else some (player, enemy1)
    else none

/-- The loop of `Game::playerAttack`, left at the first enemy that is hit; `none` when the
loop runs to its end ("No enemy in range!"). -/
def playerAttackLoop (player : Player) : List Enemy → Option (Player × List Enemy)
  | [] => none
  | enemy :: rest =>
    match playerAttackBody player enemy with
    | some (player1, enemy1) => some (player1, enemy1 :: rest)
    | none =>
      match playerAttackLoop player rest with
      | some (player1, rest1) => some (player1, enemy :: rest1)
      | none => none

/-- `Game::playerAttack`. -/
def playerAttack (g : Game) : Game :=
  match playerAttackLoop g.player g.enemies with
  | some (player1, enemies1) => { g with player := player1, enemies := enemies1 }
  | none => g

/-- Body of the Cleave loop: the state is the player and the local `count`. -/
def cleaveBody (s : Player × Int) (enemy : Enemy) : (Player × Int) × Enemy :=
  if !enemy.isAlive then (s, enemy)
  else
    let dx := stdAbs (s.1.x - enemy.x)
    let dy := stdAbs (s.1.y - enemy.y)
    if dx ≤ 2 ∧ dy ≤ 2 then
      let enemy1 := enemy.takeDamage (s.1.attack * 2)
      let count := s.2 + 1
      if !enemy1.isAlive then ((s.1.gainExperience enemy1.expValue, count), enemy1)
      else ((s.1, count), enemy1)
    else (s, enemy)

/-- Body of the Fire Blast loop. -/
def fireBlastBody (player : Player) (enemy : Enemy) : Player × Enemy :=
  if !enemy.isAlive then (player, enemy)
  else
    let dx := stdAbs (player.x - enemy.x)
    let dy := stdAbs (player.y - enemy.y)
    if dx ≤ 3 ∧ dy ≤ 3 then
      let enemy1 := enemy.takeDamage 30
      if !enemy1.isAlive then (player.gainExperience enemy1.expValue, enemy1)
      else (player, enemy1)
    else (player, enemy)

/-- `Game::useAbility`.  The comparison `index >= abilities.size()` is made on unsigned
values in the source; a negative `index` is already rejected by `index < 0`.  After the
bounds test the lookup `abilities[index]` always succeeds, so its `none` branch is never
taken. -/
def useAbility (g : Game) (index : Int) : Game × AbilityOutcome :=
  if index < 0 ∨ index ≥ g.player.abilities.length then (g, AbilityOutcome.invalid)
  else
    match g.player.abilities[index.toNat]? with
    | none => (g, AbilityOutcome.invalid)
    | some ability =>
      if !ability.isReady then (g, AbilityOutcome.onCooldown ability.currentCooldown)
      else
        let m := g.player.useMana ability.manaCost
        if !m.2 then ({ g with player := m.1 }, AbilityOutcome.notEnoughMana)
        else
          let player1 : Player :=
            { m.1 with abilities := m.1.abilities.set index.toNat ability.use }
          match ability.type with
          | AbilityType.CLEAVE =>
            let r := forEnemies cleaveBody (player1, 0) g.enemies
            ({ g with player := r.1.1, enemies := r.2 }, AbilityOutcome.cleaved r.1.2)
          | AbilityType.HEAL =>
            ({ g with player := player1.heal 40 }, AbilityOutcome.healed)
          | AbilityType.FIRE_BLAST =>
            let r := forEnemies fireBlastBody player1 g.enemies
            ({ g with player := r.1, enemies := r.2 }, AbilityOutcome.fireBlast)
          | _ => ({ g with player := player1 }, AbilityOutcome.noEffect)

end Game

/-! ## Vocabulary of the statements and concrete states -/

/-- The enemies an area effect of radius `r` around `(px, py)` is meant to reach: alive and
at Chebyshev distance at most `r`, i.e. `|px - ex| ≤ r` and `|py - ey| ≤ r`. -/
def Enemy.aliveWithin (r px py : Int) (e : Enemy) : Prop :=
  e.isAlive = true ∧ |px - e.x| ≤ r ∧ |py - e.y| ≤ r

instance Enemy.aliveWithin.instDecidable (r px py : Int) (e : Enemy) :
    Decidable (Enemy.aliveWithin r px py e) := by
  unfold Enemy.aliveWithin
  exact inferInstance

namespace Scenario

/-- A map without any floor tile; the abilities and the melee attack never read the map. -/
def walls : DungeonMap := { tiles := fun _ _ => '#', rooms := [] }

/-- The fresh hero at (10,10) with alive goblins at (11,11), (12,12) and (8,10). -/
def cleaveGame : Game :=
  { player := Player.new.setPosition 10 10
    enemies := [Enemy.goblin.setPosition 11 11, Enemy.goblin.setPosition 12 12,
      Enemy.goblin.setPosition 8 10]
    dungeon := walls, floor := 1, running := true }

/-- The hero at (10,10) with 80 experience next to a goblin that two melee hits left at
4 health. -/
def levelUpGame : Game :=
  { player := { Player.new.setPosition 10 10 with experience := 80 }
    enemies := [{ Enemy.goblin.setPosition 11 10 with health := 4 }]
    dungeon := walls, floor := 1, running := true }

/-- The fresh hero with only 10 mana left, next to a goblin. -/
def lowManaGame : Game :=
  { player := { Player.new.setPosition 10 10 with mana := 10 }
    enemies := [Enemy.goblin.setPosition 11 10]
    dungeon := walls, floor := 1, running := true }

/-- The fresh hero (attack 15) at (10,10) next to a fresh goblin at (11,10), preceded in
the collection by a dead goblin on the same cell and a goblin out of reach. -/
def meleeGame : Game :=
  { player := Player.new.setPosition 10 10
    enemies := [{ Enemy.goblin.setPosition 11 10 with health := 0 },
      Enemy.goblin.setPosition 12 10, Enemy.goblin.setPosition 11 10,
      Enemy.goblin.setPosition 10 11]
    dungeon := walls, floor := 1, running := true }

end Scenario

/-! ## Random numbers -/

/-- The values the coming calls of `rand()` return, in order; each is non-negative. -/
def Rand : Type := Nat → Nat

namespace Rand

/-- One call of `rand()`: the value returned and the values left for later calls. -/
def next (r : Rand) : Int × Rand := ((r 0 : Nat), fun i => r (i + 1))

end Rand

/-! ## Enemy AI (main.cpp 163-207) -/

/-- What an `aiAction` call did to the player, with the number it prints. -/
inductive AiEvent where
  | idle
  | attack (damage : Int)
  | smash (damage : Int)
  | breath (damage : Int)
  | claw (damage : Int)
  deriving DecidableEq

/-- State after an `aiAction` call: the enemy itself (a Dragon updates its cooldown), the
player, the random values left, and what happened. -/
structure AiResult where
  enemy : Enemy
  player : Player
  rng : Rand
  event : AiEvent

/-- The virtual `Enemy::aiAction(player, distance)` of Goblin, Orc and Dragon.  `rand()` is
called only where the short-circuit `&&` reaches it. -/
def Enemy.aiAction (e : Enemy) (player : Player) (distance : Int) (rng : Rand) : AiResult :=
  match e.kind with
  | EnemyKind.Goblin =>
    if distance ≤ 1 then
      let r := rng.next
      if r.1 % 100 < 70 then
        { enemy := e, player := player.takeDamage e.dealDamage, rng := r.2,
          event := AiEvent.attack e.attack }
      else { enemy := e, player := player, rng := r.2, event := AiEvent.idle }
    else { enemy := e, player := player, rng := rng, event := AiEvent.idle }
  | EnemyKind.Orc =>
    if distance ≤ 1 then
      let r := rng.next
      if r.1 % 100 < 60 then
        let damage := e.dealDamage + 5
        { enemy := e, player := player.takeDamage damage, rng := r.2,
          event := AiEvent.smash damage }
      else { enemy := e, player := player, rng := r.2, event := AiEvent.idle }
    else { enemy := e, player := player, rng := rng, event := AiEvent.idle }
  | EnemyKind.Dragon breathCooldown =>
    let cd := if breathCooldown > 0 then breathCooldown - 1 else breathCooldown
    if distance ≤ 3 ∧ cd = 0 then
      let r := rng.next
      if r.1 % 100 < 40 then
        let damage := 25
        { enemy := { e with kind := EnemyKind.Dragon 3 }, player := player.takeDamage damage,
          rng := r.2, event := AiEvent.breath damage }
      else if distance ≤ 1 then
        { enemy := { e with kind := EnemyKind.Dragon cd },
          player := player.takeDamage e.dealDamage, rng := r.2, event := AiEvent.claw e.attack }
      else
        { enemy := { e with kind := EnemyKind.Dragon cd }, player := player, rng := r.2,
          event := AiEvent.idle }
    else if distance ≤ 1 then
      { enemy := { e with kind := EnemyKind.Dragon cd },
        player := player.takeDamage e.dealDamage, rng := rng, event := AiEvent.claw e.attack }
    else
      { enemy := { e with kind := EnemyKind.Dragon cd }, player := player, rng := rng,
        event := AiEvent.idle }

/-! ## Dungeon generation (main.cpp 227-274, 305-313) -/

/-- A counted loop `for (int i = start; ...; i++)` that runs `n` rounds; a round that fails
(an access outside an array) makes the whole loop fail. -/
def forLoop {σ : Type} (body : Int → σ → Option σ) : Nat → Int → σ → Option σ
  | 0, _, s => some s
  | n + 1, i, s =>
    match body i s with
    | none => none
    | some s1 => forLoop body n (i + 1) s1

/-- The loop `for (int i = lo; i < hi; i++)`. -/
def forRange {σ : Type} (lo hi : Int) (body : Int → σ → Option σ) (s : σ) : Option σ :=
  forLoop body (hi - lo).toNat lo s

/-- The assignment `tiles[row][col] = c`; `none` when an index is outside the array
`char tiles[HEIGHT][WIDTH]`. -/
def setTile (tiles : Nat → Nat → Char) (row col : Int) (c : Char) : Option (Nat → Nat → Char) :=
  if 0 ≤ row ∧ row < HEIGHT ∧ 0 ≤ col ∧ col < WIDTH then
    some fun i j => if i = row.toNat ∧ j = col.toNat then c else tiles i j
  else none

/-- State of `generateDungeon` between two statements. -/
structure GenState where
  tiles : Nat → Nat → Char
  rooms : List Room
  rng : Rand

namespace DungeonMap

/-- The "Fill with walls" loops. -/
def fillWalls (tiles : Nat → Nat → Char) : Option (Nat → Nat → Char) :=
  forRange 0 HEIGHT (fun i t => forRange 0 WIDTH (fun j t1 => setTile t1 i j '#') t) tiles

/-- The "Carve room" loops. -/
def carveRoom (roomX roomY roomWidth roomHeight : Int) (tiles : Nat → Nat → Char) :
    Option (Nat → Nat → Char) :=
  forRange roomY (roomY + roomHeight)
    (fun y t => forRange roomX (roomX + roomWidth) (fun x t1 => setTile t1 y x '.') t) tiles

/-- Body of the room loop of `generateDungeon` for loop counter `i`. -/
def genRoom (i : Int) (s : GenState) : Option GenState :=
  let r1 := s.rng.next
  let roomWidth := 5 + r1.1 % 8
  let r2 := r1.2.next
  let roomHeight := 4 + r2.1 % 6
  let r3 := r2.2.next
  let roomX := 1 + r3.1 % (WIDTH - roomWidth - 2)
  let r4 := r3.2.next
  let roomY := 1 + r4.1 % (HEIGHT - roomHeight - 2)
  match carveRoom roomX roomY roomWidth roomHeight s.tiles with
  | none => none
  | some tiles1 =>
    let rooms := s.rooms ++ [{ x := roomX, y := roomY, width := roomWidth, height := roomHeight }]
    if i > 0 then
      match rooms[(i - 1).toNat]? with
      | none => none
      | some prev =>
        let prevCenterX := prev.x + prev.width / 2
        let prevCenterY := prev.y + prev.height / 2
        let currCenterX := roomX + roomWidth / 2
        let currCenterY := roomY + roomHeight / 2
        match forRange (min prevCenterX currCenterX) (max prevCenterX currCenterX + 1)
            (fun x t => setTile t prevCenterY x '.') tiles1 with
        | none => none
        | some tiles2 =>
          match forRange (min prevCenterY currCenterY) (max prevCenterY currCenterY + 1)
              (fun y t => setTile t y currCenterX '.') tiles2 with
          | none => none
          | some tiles3 => some { tiles := tiles3, rooms := rooms, rng := r4.2 }
    else some { tiles := tiles1, rooms := rooms, rng := r4.2 }

/-- `DungeonMap::generateDungeon` on a map object `m`; the result is the map and the random
values left, or `none` if some array access were out of bounds. -/
def generateDungeon (m : DungeonMap) (rng : Rand) : Option (DungeonMap × Rand) :=
  match fillWalls m.tiles with
  | none => none
  | some tiles0 =>
    let r0 := rng.next
    let numRooms := 5 + r0.1 % 4
    match forRange 0 numRooms genRoom { tiles := tiles0, rooms := m.rooms, rng := r0.2 } with
    | none => none
    | some s => some ({ tiles := s.tiles, rooms := s.rooms }, s.rng)

/-- Constructor `DungeonMap()`: `rooms` is empty and `tiles` is not initialised before
`generateDungeon` runs; the fill overwrites every cell of the array, so the content chosen
here for the fresh array does not matter. -/
def new (rng : Rand) : Option (DungeonMap × Rand) :=
  generateDungeon { tiles := fun _ _ => ' ', rooms := [] } rng

/-- `DungeonMap::getRandomFloor`, giving up after `fuel` rounds of its `while (true)`
loop: the cell found and the random values left, or `none` when none of the first `fuel`
samples is a floor tile. -/
def getRandomFloor (m : DungeonMap) : Nat → Rand → Option ((Int × Int) × Rand)
  | 0, _ => none
  | fuel + 1, rng =>
    let r1 := rng.next
    let x := r1.1 % WIDTH
    let r2 := r1.2.next
    let y := r2.1 % HEIGHT
    if m.tiles y.toNat x.toNat == '.' then some ((x, y), r2.2)
    else getRandomFloor m fuel r2.2

end DungeonMap

namespace Game

/-! ## Spawning, enemy pass and the turn loop (main.cpp 331-397, 483-571) -/

/-- Body of the loop in `Game::spawnEnemies`: sample a floor cell, roll the variant, place
the new enemy at the end of the collection. -/
def spawnBody (fuel : Nat) (dungeon : DungeonMap) (floor : Int) (s : List Enemy × Rand) :
    Option (List Enemy × Rand) :=
  match dungeon.getRandomFloor fuel s.2 with
  | none => none
  | some (pos, rng1) =>
    let r := rng1.next
    let roll := r.1 % 100
    let enemy :=
      if floor ≥ 3 ∧ roll < 15 then Enemy.dragon
      else if roll < 50 then Enemy.orc
      else Enemy.goblin
    some (s.1 ++ [enemy.setPosition pos.1 pos.2], r.2)

/-- `Game::spawnEnemies`: `3 + floor` rounds of the loop. -/
def spawnEnemies (fuel : Nat) (g : Game) (rng : Rand) : Option (Game × Rand) :=
  let numEnemies := 3 + g.floor
  match forRange 0 numEnemies (fun _ s => spawnBody fuel g.dungeon g.floor s)
      (g.enemies, rng) with
  | none => none
  | some s => some ({ g with enemies := s.1 }, s.2)

/-- The tentative destination computed in `handleCombat` for an enemy at `(x, y)` with
offsets `dx`, `dy` to the player. -/
def stepToward (dx dy x y : Int) : Int × Int :=
  if stdAbs dx > stdAbs dy then (x + (if dx > 0 then 1 else -1), y)
  else (x, y + (if dy > 0 then 1 else -1))

/-- The test `other->isAlive() && other->getX() == newX && other->getY() == newY` run over
the whole collection. -/
def occupied (enemies : List Enemy) (newX newY : Int) : Bool :=
  enemies.any fun other => other.isAlive && decide (other.x = newX) && decide (other.y = newY)

/-- State of `handleCombat` between two enemies. -/
structure CombatState where
  player : Player
  enemies : List Enemy
  rng : Rand

/-- Body of the loop in `Game::handleCombat` for the enemy at index `i`. -/
def handleCombatBody (dungeon : DungeonMap) (s : CombatState) (i : Nat) : CombatState :=
  match s.enemies[i]? with
  | none => s
  | some enemy =>
    if !enemy.isAlive then s
    else
      let dx := s.player.x - enemy.x
      let dy := s.player.y - enemy.y
      let distance := stdAbs dx + stdAbs dy
      let a := enemy.aiAction s.player distance s.rng
      let enemies1 := s.enemies.set i a.enemy
      if distance > 1 then
        let r := a.rng.next
        if r.1 % 100 < 70 then
          let dest := stepToward dx dy a.enemy.x a.enemy.y
          if dungeon.isWalkable dest.1 dest.2 then
            let blocked := occupied enemies1 dest.1 dest.2
            if !blocked ∧ ¬ (dest.1 = a.player.x ∧ dest.2 = a.player.y) then
              { player := a.player,
                enemies := s.enemies.set i (a.enemy.setPosition dest.1 dest.2), rng := r.2 }
            else { player := a.player, enemies := enemies1, rng := r.2 }
          else { player := a.player, enemies := enemies1, rng := r.2 }
        else { player := a.player, enemies := enemies1, rng := r.2 }
      else { player := a.player, enemies := enemies1, rng := a.rng }

/-- `Game::handleCombat`: the loop over the collection, in order. -/
def handleCombat (g : Game) (rng : Rand) : Game × Rand :=
  let s := (List.range g.enemies.length).foldl (handleCombatBody g.dungeon)
    { player := g.player, enemies := g.enemies, rng := rng }
  ({ g with player := s.player, enemies := s.enemies }, s.rng)

/-- The `if (playerMoved)` block of `Game::run` for the tentative cell `(newX, newY)`. -/
def movePlayer (g : Game) (newX newY : Int) : Game :=
  if g.dungeon.isWalkable newX newY then
    let blocked := occupied g.enemies newX newY
    if !blocked then { g with player := g.player.setPosition newX newY }
    else g
  else g

/-- The end of a turn in `Game::run`: `player.update()`, `handleCombat()`,
`player.restoreMana(2)` and the death check. -/
def endOfTurn (g : Game) (rng : Rand) : Game × Rand :=
  let g1 : Game := { g with player := g.player.update }
  let c := g1.handleCombat rng
  let g2 : Game := { c.1 with player := c.1.player.restoreMana 2 }
  if !g2.player.isAlive then ({ g2 with running := false }, c.2) else (g2, c.2)

/-- The `if (allDead)` branch of `Game::run`. -/
def floorClear (fuel : Nat) (g : Game) (rng : Rand) : Option (Game × Rand) :=
  match DungeonMap.new rng with
  | none => none
  | some (dungeon, rng1) =>
    match dungeon.getRandomFloor fuel rng1 with
    | none => none
    | some (pos, rng2) =>
      let g1 : Game :=
        { g with floor := g.floor + 1, enemies := [], dungeon := dungeon,
                 player := g.player.setPosition pos.1 pos.2 }
      match g1.spawnEnemies fuel rng2 with
      | none => none
      | some (g2, rng3) =>
        some ({ g2 with player := (g2.player.heal 30).restoreMana 20 }, rng3)

/-- One round of the `while (running)` loop of `Game::run` (entered with `running` true).
`input` holds the characters `std::cin >> input` will deliver; the result carries the
characters not yet read.  `none`: no character left to read, or a sampling loop gave up. -/
def iteration (fuel : Nat) (g : Game) (input : List Char) (rng : Rand) :
    Option (Game × List Char × Rand) :=
  if g.enemies.all (fun enemy => !enemy.isAlive) then
    match g.floorClear fuel rng with
    | none => none
    | some (g1, rng1) => some (g1, input, rng1)
  else
    match input with
    | [] => none
    | c :: rest =>
      if c = 'w' then
        let t := (g.movePlayer g.player.x (g.player.y - 1)).endOfTurn rng
        some (t.1, rest, t.2)
      else if c = 's' then
        let t := (g.movePlayer g.player.x (g.player.y + 1)).endOfTurn rng
        some (t.1, rest, t.2)
      else if c = 'a' then
        let t := (g.movePlayer (g.player.x - 1) g.player.y).endOfTurn rng
        some (t.1, rest, t.2)
      else if c = 'd' then
        let t := (g.movePlayer (g.player.x + 1) g.player.y).endOfTurn rng
        some (t.1, rest, t.2)
      else if c = 'f' then
        let t := g.playerAttack.endOfTurn rng
        some (t.1, rest, t.2)
      else if c = '1' then
        let t := (g.useAbility 0).1.endOfTurn rng
        some (t.1, rest, t.2)
      else if c = '2' then
        let t := (g.useAbility 1).1.endOfTurn rng
        some (t.1, rest, t.2)
      else if c = '3' then
        let t := (g.useAbility 2).1.endOfTurn rng
        some (t.1, rest, t.2)
      else if c = 'q' then some ({ g with running := false }, rest, rng)
      else some (g, rest, rng)

/-- Constructor `Game()`: the members are built first, so the first map is generated from
the values `rand()` gives before `srand`; `seeded` holds the values it gives after
`srand(time(nullptr))`. -/
def new (fuel : Nat) (rng seeded : Rand) : Option (Game × Rand) :=
  match DungeonMap.new rng with
  | none => none
  | some (dungeon, _) =>
    match dungeon.getRandomFloor fuel seeded with
    | none => none
    | some (pos, rng1) =>
      let g : Game :=
        { player := Player.new.setPosition pos.1 pos.2, enemies := [], dungeon := dungeon,
          floor := 1, running := true }
      g.spawnEnemies fuel rng1

end Game

/-! ## Further vocabulary of the statements -/

/-- The results of successive `aiAction` calls of one enemy, each call with its own
player state, distance and random values; the enemy is carried from call to call. -/
def Enemy.aiTrace : Enemy → List (Player × Int × Rand) → List AiResult
  | _, [] => []
  | e, call :: rest =>
    (e.aiAction call.1 call.2.1 call.2.2) ::
      Enemy.aiTrace (e.aiAction call.1 call.2.1 call.2.2).enemy rest

/-- No two alive enemies of the collection share a cell, and no alive enemy stands on the
player's cell. -/
def Game.NoOverlap (player : Player) (enemies : List Enemy) : Prop :=
  (∀ (i j : Nat) (a b : Enemy), i ≠ j → enemies[i]? = some a → enemies[j]? = some b →
    a.isAlive = true → b.isAlive = true → ¬ (a.x = b.x ∧ a.y = b.y)) ∧
  (∀ (i : Nat) (a : Enemy), enemies[i]? = some a → a.isAlive = true →
    ¬ (a.x = player.x ∧ a.y = player.y))

namespace Scenario

/-- A map whose cells are all floor. -/
def openFloor : DungeonMap := { tiles := fun _ _ => '.', rooms := [] }

/-- The fresh hero at (10,10) on the open map with a goblin three cells to the east, a dead
goblin on the cell between, and a goblin adjacent to the west. -/
def chaseGame : Game :=
  { player := Player.new.setPosition 10 10
    enemies := [Enemy.goblin.setPosition 13 10,
      { Enemy.goblin.setPosition 12 10 with health := 0 },
      Enemy.goblin.setPosition 9 10]
    dungeon := openFloor, floor := 1, running := true }

/-- The hero at (10,10) with 80 experience, a goblin at 4 health to the east and a fresh
goblin to the south. -/
def cleaveLevelGame : Game :=
  { player := { Player.new.setPosition 10 10 with experience := 80 }
    enemies := [{ Enemy.goblin.setPosition 11 10 with health := 4 },
      Enemy.goblin.setPosition 10 11]
    dungeon := walls, floor := 1, running := true }

end Scenario

/-! ## Vocabulary for the generated map -/

/-- The tiles `t1` are the tiles `t` with the cells `(row, col)` satisfying `P` set to `c`. -/
def Painted (P : Int → Int → Prop) (c : Char) (t t1 : Nat → Nat → Char) : Prop :=
  ∀ i j : Nat, (P i j → t1 i j = c) ∧ (¬ P i j → t1 i j = t i j)

namespace Room

/-- Column of the room centre, `x + width / 2`, as computed in `generateDungeon`. -/
def centerX (r : Room) : Int := r.x + r.width / 2

/-- Row of the room centre, `y + height / 2`, as computed in `generateDungeon`. -/
def centerY (r : Room) : Int := r.y + r.height / 2

/-- Cell `(x, y)` lies in the rectangle of the room. -/
def Contains (r : Room) (x y : Int) : Prop :=
  r.x ≤ x ∧ x < r.x + r.width ∧ r.y ≤ y ∧ y < r.y + r.height

/-- Cell `(x, y)` lies on the L-shaped corridor from room `p` to room `c`: the horizontal
run on the centre row of `p` between the two centre columns, or the vertical run on the
centre column of `c` between the two centre rows. -/
def OnCorridor (p c : Room) (x y : Int) : Prop :=
  (y = p.centerY ∧ min p.centerX c.centerX ≤ x ∧ x ≤ max p.centerX c.centerX) ∨
  (x = c.centerX ∧ min p.centerY c.centerY ≤ y ∧ y ≤ max p.centerY c.centerY)

/-- Size and placement of a generated room: width in `[5,12]`, height in `[4,9]`, and the
rectangle inside the columns `1..37` and the rows `1..17`. -/
def Valid (r : Room) : Prop :=
  5 ≤ r.width ∧ r.width ≤ 12 ∧ 4 ≤ r.height ∧ r.height ≤ 9 ∧
  1 ≤ r.x ∧ r.x + r.width ≤ WIDTH - 2 ∧ 1 ≤ r.y ∧ r.y + r.height ≤ HEIGHT - 2

end Room

/-- Cell `(x, y)` lies in one of the rooms or on the corridor between two rooms that
follow each other in the list. -/
def Carved (rooms : List Room) (x y : Int) : Prop :=
  (∃ r ∈ rooms, r.Contains x y) ∨
  (∃ (k : Nat) (p c : Room), rooms[k]? = some p ∧ rooms[k + 1]? = some c ∧
    Room.OnCorridor p c x y)

/-- Cells `a` and `b` are joined by a path of cells satisfying `S` in which consecutive
cells are horizontally or vertically adjacent (they differ by 1 in exactly one
coordinate). -/
def PathIn (S : Int → Int → Prop) (a b : Int × Int) : Prop :=
  Relation.ReflTransGen
    (fun p q : Int × Int => S p.1 p.2 ∧ S q.1 q.2 ∧ |p.1 - q.1| + |p.2 - q.2| = 1) a b

/-- Cells `a` and `b` are joined by a path of floor cells of the map in which consecutive
cells are horizontally or vertically adjacent. -/
def DungeonMap.Joined (m : DungeonMap) (a b : Int × Int) : Prop :=
  PathIn (fun x y => m.isWalkable x y = true) a b

/-- A hero at 50 health and 20 mana on floor 1 whose two opponents are dead. -/
def Scenario.clearedGame : Game :=
  { player := { Player.new.setPosition 10 10 with health := 50, mana := 20 }
    enemies := [{ Enemy.goblin.setPosition 11 10 with health := 0 },
      { Enemy.orc.setPosition 12 10 with health := 0 }]
    dungeon := Scenario.openFloor, floor := 1, running := true }

/-- Random values that are 0 for the first 21 calls (five rooms at the top left corner)
and 1 afterwards (every sample is the cell (1,1), every roll is 1). -/
def Scenario.lowRand : Rand := fun i => if i < 21 then 0 else 1

/-! ## The session (main.cpp 490-581) -/

namespace Game

/-- The `while (running)` loop of `Game::run`, cut off after `n` rounds: the state, the
characters not yet read and the random values left when `running` became false or the
`n` rounds were used up; `none` when a round gave `none`. -/
def rounds (fuel : Nat) : Nat → Game → List Char → Rand → Option (Game × List Char × Rand)
  | 0, g, input, rng => some (g, input, rng)
  | n + 1, g, input, rng =>
    if g.running then
      match g.iteration fuel input rng with
      | none => none
      | some (g1, input1, rng1) => rounds fuel n g1 input1 rng1
    else some (g, input, rng)

/-- The program `main`: `Game game; game.run();`, with the loop cut off after `n` rounds. -/
def session (fuel n : Nat) (rng seeded : Rand) (input : List Char) :
    Option (Game × List Char × Rand) :=
  match Game.new fuel rng seeded with
  | none => none
  | some (g, rng1) => g.rounds fuel n input rng1

/-- The player and every enemy of the collection, alive or dead, stand on floor cells of
the current map. -/
def OnFloor (g : Game) : Prop :=
  g.dungeon.isWalkable g.player.x g.player.y = true ∧
  ∀ e ∈ g.enemies, g.dungeon.isWalkable e.x e.y = true

end Game

/-- The states a session can be in: the state built by the constructor, and the state
after a round of the loop entered from a reachable state with `running` true, for any
command characters, random values and bounds on the sampling rounds. -/
inductive Game.Reachable : Game → Prop where
  | start (fuel : Nat) (rng seeded : Rand) (g : Game) (rng1 : Rand) :
      Game.new fuel rng seeded = some (g, rng1) → Game.Reachable g
  | round (fuel : Nat) (g : Game) (input : List Char) (rng : Rand) (g1 : Game)
      (input1 : List Char) (rng1 : Rand) :
      Game.Reachable g → g.running = true →
      g.iteration fuel input rng = some (g1, input1, rng1) → Game.Reachable g1

/-! ## Arithmetic on `int` (main.cpp 33-37, 53-55, 98-115, 130-132)

The functions whose contract speaks about every argument of type `int`, with the
additions, subtractions and products they perform reduced to 32 bits. -/

/-- The values of the type `int`: 32 bits, two's complement. -/
def IsInt (v : Int) : Prop := -2147483648 ≤ v ∧ v ≤ 2147483647

instance IsInt.instDecidable (v : Int) : Decidable (IsInt v) := by
  unfold IsInt
  exact inferInstance

/-- The `int` in which the result `v` of an addition, subtraction or product of `int`
values is stored: `v` reduced modulo `2^32` into `[-2^31, 2^31)`. -/
def wrap32 (v : Int) : Int := (v + 2147483648) % 4294967296 - 2147483648

/-- Neither subtraction of `takeDamage(d)` leaves the `int` range. -/
def Entity.DamageFits (e : Entity) (d : Int) : Prop :=
  IsInt (d - e.defense) ∧ IsInt (e.health - max 1 (d - e.defense))

namespace Machine

/-- `Entity::takeDamage` on `int`: `actualDamage = max(1, damage - defense)`,
`health -= actualDamage`, clamp at 0. -/
def Entity.takeDamage (e : Entity) (damage : Int) : Entity :=
  let actualDamage := max 1 (wrap32 (damage - e.defense))
  let health := wrap32 (e.health - actualDamage)
  { e with health := if health < 0 then 0 else health }

/-- The inherited `Entity::takeDamage` on a player. -/
def Player.takeDamage (p : Player) (damage : Int) : Player :=
  { p with toEntity := Entity.takeDamage p.toEntity damage }

/-- The inherited `Entity::takeDamage` on an enemy. -/
def Enemy.takeDamage (e : Enemy) (damage : Int) : Enemy :=
  { e with toEntity := Entity.takeDamage e.toEntity damage }

/-- `Entity::heal` on `int`: `health = min(maxHealth, health + amount)`. -/
def Entity.heal (e : Entity) (amount : Int) : Entity :=
  { e with health := min e.maxHealth (wrap32 (e.health + amount)) }

/-- `Player::restoreMana` on `int`: `mana = min(maxMana, mana + amount)`. -/
def Player.restoreMana (p : Player) (amount : Int) : Player :=
  { p with mana := min p.maxMana (wrap32 (p.mana + amount)) }

/-- `Player::levelUp` on `int`. -/
def Player.levelUp (p : Player) : Player :=
  let maxHealth := wrap32 (p.maxHealth + 20)
  let maxMana := wrap32 (p.maxMana + 10)
  { p with
    level := wrap32 (p.level + 1)
    maxHealth := maxHealth
    health := maxHealth
    attack := wrap32 (p.attack + 3)
    defense := wrap32 (p.defense + 2)
    maxMana := maxMana
    mana := maxMana }

/-- The `while (experience >= level * 100)` loop of `Player::gainExperience` on `int`, cut
off after `fuel` tests of its condition; `none`: the loop has not ended by then. -/
def Player.levelLoop : Nat → Player → Option Player
  | 0, _ => none
  | fuel + 1, p =>
    if p.experience ≥ wrap32 (p.level * 100) then
      Player.levelLoop fuel
        (Player.levelUp { p with experience := wrap32 (p.experience - wrap32 (p.level * 100)) })
    else some p

/-- `Player::gainExperience` on `int`: `experience += exp`, then the loop. -/
def Player.gainExperience (fuel : Nat) (p : Player) (exp : Int) : Option Player :=
  Player.levelLoop fuel { p with experience := wrap32 (p.experience + exp) }

end Machine

/-- The stream keeps naming floor cells of `m`: from every position `k` on, some pair of
consecutive values an even number of places later is, reduced modulo `WIDTH` and `HEIGHT`,
a floor cell.  The sampling loop of `getRandomFloor`, started anywhere in such a stream,
returns. -/
def Rand.Hits (rng : Rand) (m : DungeonMap) : Prop :=
  ∀ k : Nat, ∃ j : Nat,
    m.tiles ((rng (k + 2 * j + 1) : Int) % HEIGHT).toNat
      ((rng (k + 2 * j) : Int) % WIDTH).toNat = '.'

/-- Health, maximal health and defense are not negative. -/
def Entity.NonNeg (e : Entity) : Prop := 0 ≤ e.health ∧ 0 ≤ e.maxHealth ∧ 0 ≤ e.defense

/-- Health, maximal health and defense of the player and of every enemy of the collection
are not negative. -/
def Game.NonNeg (g : Game) : Prop :=
  g.player.toEntity.NonNeg ∧ ∀ e ∈ g.enemies, e.toEntity.NonNeg

/-! ## Basic facts -/

theorem stdAbs_eq_abs (a : Int) : stdAbs a = |a| := by
  unfold stdAbs
  split
  · rw [abs_of_neg (by assumption)]
  · rw [abs_of_nonneg (by omega)]

theorem Entity.takeDamage_health (e : Entity) (d : Int) :
    (e.takeDamage d).health = max 0 (e.health - max 1 (d - e.defense)) := by
  simp only [Entity.takeDamage]
  split <;> omega

/-! ## The 32-bit functions -/

theorem wrap32_eq (v : Int) (h : IsInt v) : wrap32 v = v := by
  unfold IsInt at h
  unfold wrap32
  omega

/-- Without overflow the 32-bit `takeDamage` is the exact one. -/
theorem Entity.takeDamage_machine (e : Entity) (d : Int) (h : e.DamageFits d) :
    Machine.Entity.takeDamage e d = e.takeDamage d := by
  obtain ⟨h1, h2⟩ := h
  unfold Machine.Entity.takeDamage Entity.takeDamage
  simp only [wrap32_eq _ h1, wrap32_eq _ h2]

/-- Outside the range of `takeDamage_spec` the subtraction wraps: the fresh hero hit by
`-2^31` loses all health, and an entity with defense -1 hit by `2^31 - 1` loses 1 health
where `max(0, h - max(1, d - def))` is 0. -/
theorem Entity.takeDamage_overflow :
    (Machine.Player.takeDamage Player.new (-2147483648)).health = 0 ∧
    (Player.new.takeDamage (-2147483648)).health = 99 ∧
    (Machine.Entity.takeDamage (Entity.mk0 "e" 100 15 (-1) 'e') 2147483647).health = 99 ∧
    (max 0 (100 - max 1 (2147483647 - (-1))) : Int) = 0 := by
  decide

/-- C7 (as amended): from `0 ≤ health ≤ maxHealth`, `heal(amount)`, computed on `int`, never
exceeds `maxHealth` for any amount and leaves `maxHealth` alone; the result is
non-negative exactly when the 32-bit sum `health + amount` is, so it is non-negative, and
equal to `min(maxHealth, health + amount)`, whenever `0 ≤ health + amount ≤ 2^31 - 1`, in
particular for `0 ≤ amount ≤ 2^31 - 1 - health`.  The same holds for `restoreMana` with
mana and `maxMana`. -/
theorem heal_restoreMana_bounds (e : Entity) (p : Player) (amount : Int)
    (he : 0 ≤ e.health ∧ e.health ≤ e.maxHealth)
    (hp : 0 ≤ p.mana ∧ p.mana ≤ p.maxMana) :
    ((Machine.Entity.heal e amount).health ≤ e.maxHealth ∧
      (Machine.Entity.heal e amount).maxHealth = e.maxHealth ∧
      (0 ≤ (Machine.Entity.heal e amount).health ↔ 0 ≤ wrap32 (e.health + amount)) ∧
      (0 ≤ e.health + amount → e.health + amount ≤ 2147483647 →
        0 ≤ (Machine.Entity.heal e amount).health ∧
        (Machine.Entity.heal e amount).health = min e.maxHealth (e.health + amount)) ∧
      (0 ≤ amount → amount ≤ 2147483647 - e.health →
        0 ≤ (Machine.Entity.heal e amount).health)) ∧
    ((Machine.Player.restoreMana p amount).mana ≤ p.maxMana ∧
      (Machine.Player.restoreMana p amount).maxMana = p.maxMana ∧
      (0 ≤ (Machine.Player.restoreMana p amount).mana ↔ 0 ≤ wrap32 (p.mana + amount)) ∧
      (0 ≤ p.mana + amount → p.mana + amount ≤ 2147483647 →
        0 ≤ (Machine.Player.restoreMana p amount).mana ∧
        (Machine.Player.restoreMana p amount).mana = min p.maxMana (p.mana + amount)) ∧
      (0 ≤ amount → amount ≤ 2147483647 - p.mana →
        0 ≤ (Machine.Player.restoreMana p amount).mana)) := by
  obtain ⟨he0, he1⟩ := he
  obtain ⟨hp0, hp1⟩ := hp
  have key : ∀ (cur top : Int), 0 ≤ cur → cur ≤ top →
      min top (wrap32 (cur + amount)) ≤ top ∧
      (0 ≤ min top (wrap32 (cur + amount)) ↔ 0 ≤ wrap32 (cur + amount)) ∧
      (0 ≤ cur + amount → cur + amount ≤ 2147483647 →
        0 ≤ min top (wrap32 (cur + amount)) ∧
        min top (wrap32 (cur + amount)) = min top (cur + amount)) ∧
      (0 ≤ amount → amount ≤ 2147483647 - cur → 0 ≤ min top (wrap32 (cur + amount))) := by
    intro cur top h0 h1
    refine ⟨by omega, by omega, ?_, ?_⟩
    · intro a b
      rw [wrap32_eq _ ⟨by omega, b⟩]
      omega
    · intro a b
      rw [wrap32_eq _ ⟨by omega, by omega⟩]
      omega
  obtain ⟨a1, a2, a3, a4⟩ := key e.health e.maxHealth he0 he1
  obtain ⟨b1, b2, b3, b4⟩ := key p.mana p.maxMana hp0 hp1
  exact ⟨⟨a1, rfl, a2, a3, a4⟩, ⟨b1, rfl, b2, b3, b4⟩⟩

/-- Witness for `heal_restoreMana_bounds`: the fresh hero healed by 40 and restored by 40
keeps 100 health and 50 mana. -/
theorem heal_restoreMana_bounds_witness :
    (0 ≤ Player.new.health ∧ Player.new.health ≤ Player.new.maxHealth) ∧
    (0 ≤ Player.new.mana ∧ Player.new.mana ≤ Player.new.maxMana) ∧
    (Machine.Entity.heal Player.new.toEntity 40).health ≤ Player.new.maxHealth ∧
    0 ≤ (Machine.Entity.heal Player.new.toEntity 40).health ∧
    (Machine.Player.restoreMana Player.new 40).mana ≤ Player.new.maxMana ∧
    0 ≤ (Machine.Player.restoreMana Player.new 40).mana :=
  have h := heal_restoreMana_bounds Player.new.toEntity Player.new 40
    ⟨by decide, by decide⟩ ⟨by decide, by decide⟩
  ⟨⟨by decide, by decide⟩, ⟨by decide, by decide⟩, h.1.1, h.1.2.2.2.2 (by decide) (by decide),
    h.2.1, h.2.2.2.2.2 (by decide) (by decide)⟩

/-- C7 fails as stated: the fresh hero (health 100 of 100, mana 50 of 50) is left with
health -50 by `heal(-150)` and with mana -10 by `restoreMana(-60)`; and also for a
non-negative amount when the sum overflows: `heal(2147483647)` leaves health -2147483549,
`restoreMana(2147483647)` leaves mana -2147483599. -/
theorem heal_restoreMana_counterexample :
    (0 ≤ Player.new.health ∧ Player.new.health ≤ Player.new.maxHealth) ∧
    (Machine.Entity.heal Player.new.toEntity (-150)).health = -50 ∧
    ¬ (0 ≤ (Machine.Entity.heal Player.new.toEntity (-150)).health) ∧
    (Machine.Entity.heal Player.new.toEntity 2147483647).health = -2147483549 ∧
    (0 ≤ Player.new.mana ∧ Player.new.mana ≤ Player.new.maxMana) ∧
    (Machine.Player.restoreMana Player.new (-60)).mana = -10 ∧
    ¬ (0 ≤ (Machine.Player.restoreMana Player.new (-60)).mana) ∧
    (Machine.Player.restoreMana Player.new 2147483647).mana = -2147483599 := by
  decide

/-- C10: `isWalkable(x,y)` holds exactly for in-bounds coordinates whose tile is a floor
tile; it is false for `x = -1`, `y = -1`, `x ≥ 40`, `y ≥ 20` whatever the tiles hold, and
false for every cell whose tile is not `'.'` (a wall `'#'` in particular). -/
theorem isWalkable_iff (m : DungeonMap) (x y : Int) :
    (m.isWalkable x y = true ↔
      (0 ≤ x ∧ x < 40 ∧ 0 ≤ y ∧ y < 20 ∧ m.tiles y.toNat x.toNat = '.')) ∧
    (m.isWalkable x y = false ↔
      (x < 0 ∨ 40 ≤ x ∨ y < 0 ∨ 20 ≤ y ∨ m.tiles y.toNat x.toNat ≠ '.')) ∧
    m.isWalkable (-1) y = false ∧ m.isWalkable x (-1) = false ∧
    m.isWalkable (40 + stdAbs x) y = false ∧ m.isWalkable x (20 + stdAbs y) = false ∧
    (∀ t : Nat → Nat → Char, t y.toNat x.toNat = '#' →
      DungeonMap.isWalkable { m with tiles := t } x y = false) := by
  have hx : 0 ≤ stdAbs x := by unfold stdAbs; split <;> omega
  have hy : 0 ≤ stdAbs y := by unfold stdAbs; split <;> omega
  refine ⟨?_, ?_, ?_, ?_, ?_, ?_, ?_⟩
  · unfold DungeonMap.isWalkable WIDTH HEIGHT
    split
    · constructor
      · intro h; cases h
      · intro h; omega
    · constructor
      · intro h
        refine ⟨by omega, by omega, by omega, by omega, ?_⟩
        simpa using h
      · intro h
        simpa using h.2.2.2.2
  · unfold DungeonMap.isWalkable WIDTH HEIGHT
    split
    · constructor
      · intro _; omega
      · intro _; rfl
    · constructor
      · intro h
        right; right; right; right
        simpa using h
      · intro h
        rcases h with h | h | h | h | h
        · omega
        · omega
        · omega
        · omega
        · simpa using h
  · simp [DungeonMap.isWalkable]
  · simp [DungeonMap.isWalkable]
  · unfold DungeonMap.isWalkable WIDTH HEIGHT
    rw [if_pos (by omega)]
  · unfold DungeonMap.isWalkable WIDTH HEIGHT
    rw [if_pos (by omega)]
  · intro t ht
    unfold DungeonMap.isWalkable
    split
    · rfl
    · simp [ht]

/-- C8: with a non-negative `cooldown` c, `use()` sets `currentCooldown` to c and touches
nothing else; after `k` further ticks it is `max(0, c - k)`; so the ability is not ready
after fewer than c ticks (when c > 0, also right after `use()`), it is ready after exactly
c ticks, and a tick never produces a negative value (a tick at 0 changes nothing). -/
theorem cooldown_spec (a : Ability) (hc : 0 ≤ a.cooldown) (k : Nat) :
    a.use = { a with currentCooldown := a.cooldown } ∧
    Ability.tickN k a.use = { a with currentCooldown := max 0 (a.cooldown - k) } ∧
    ((k : Int) < a.cooldown → (Ability.tickN k a.use).isReady = false) ∧
    (0 < a.cooldown → a.use.isReady = false) ∧
    (Ability.tickN a.cooldown.toNat a.use).isReady = true ∧
    (∀ b : Ability, 0 ≤ b.currentCooldown → 0 ≤ b.tick.currentCooldown) ∧
    (∀ b : Ability, b.currentCooldown = 0 → b.tick = b) := by
  have hN : ∀ (n : Nat) (b : Ability), 0 ≤ b.currentCooldown →
      Ability.tickN n b = { b with currentCooldown := max 0 (b.currentCooldown - n) } := by
    intro n
    induction n with
    | zero =>
      intro b hb
      simp only [Ability.tickN]
      have : max 0 (b.currentCooldown - ((0 : Nat) : Int)) = b.currentCooldown := by omega
      rw [this]
    | succ n ih =>
      intro b hb
      simp only [Ability.tickN]
      by_cases hpos : b.currentCooldown > 0
      · have ht : b.tick = { b with currentCooldown := b.currentCooldown - 1 } := by
          simp only [Ability.tick, if_pos hpos]
        rw [ht, ih _ (by show 0 ≤ b.currentCooldown - 1; omega)]
        have : max 0 (b.currentCooldown - 1 - (n : Int)) =
            max 0 (b.currentCooldown - ((n + 1 : Nat) : Int)) := by omega
        simp only [this]
      · have ht : b.tick = b := by simp only [Ability.tick, if_neg hpos]
        rw [ht, ih b hb]
        have : max 0 (b.currentCooldown - (n : Int)) =
            max 0 (b.currentCooldown - ((n + 1 : Nat) : Int)) := by omega
        simp only [this]
  have hk : ∀ n : Nat, Ability.tickN n a.use =
      { a with currentCooldown := max 0 (a.cooldown - n) } := by
    intro n
    rw [hN n a.use (by simpa [Ability.use] using hc)]
    simp [Ability.use]
  refine ⟨rfl, hk k, ?_, ?_, ?_, ?_, ?_⟩
  · intro hlt
    rw [hk k]
    simp only [Ability.isReady, decide_eq_false_iff_not]
    omega
  · intro hpos
    simp only [Ability.isReady, Ability.use, decide_eq_false_iff_not]
    omega
  · rw [hk]
    simp only [Ability.isReady, decide_eq_true_eq]
    omega
  · intro b hb
    unfold Ability.tick
    split
    · show 0 ≤ b.currentCooldown - 1
      omega
    · exact hb
  · intro b hb
    unfold Ability.tick
    rw [if_neg (by omega)]

/-- Witness for `cooldown_spec`: Cleave (cooldown 3) is at 1 after two ticks, not ready,
and ready after the third. -/
theorem cooldown_spec_witness :
    (0 : Int) ≤ (Ability.mk0 "Cleave" AbilityType.CLEAVE 3 15).cooldown ∧
    (Ability.tickN 2 (Ability.mk0 "Cleave" AbilityType.CLEAVE 3 15).use).currentCooldown = 1 ∧
    (Ability.tickN 2 (Ability.mk0 "Cleave" AbilityType.CLEAVE 3 15).use).isReady = false ∧
    (Ability.tickN 3 (Ability.mk0 "Cleave" AbilityType.CLEAVE 3 15).use).isReady = true := by
  have h := cooldown_spec (Ability.mk0 "Cleave" AbilityType.CLEAVE 3 15) (by decide) 2
  refine ⟨by decide, ?_, h.2.2.1 (by decide), h.2.2.2.2.1⟩
  rw [h.2.1]
  decide

/-! ## Levelling -/

theorem threshold_sum_shift (L : Int) (n : Nat) :
    ∑ k ∈ Finset.range (n + 1), 100 * (L + (k : Int)) =
      100 * L + ∑ k ∈ Finset.range n, 100 * (L + 1 + (k : Int)) := by
  rw [Finset.sum_range_succ']
  simp only [Nat.cast_zero, add_zero, Nat.cast_add, Nat.cast_one]
  rw [add_comm]
  congr 1
  apply Finset.sum_congr rfl
  intro k _
  ring

/-- The level loop, described by the number `n` of rounds it runs. -/
theorem Player.levelLoop_rounds (p : Player) :
    ∃ n : Nat,
      (p.levelLoop).level = p.level + n ∧
      (p.levelLoop).experience =
        p.experience - ∑ k ∈ Finset.range n, 100 * (p.level + (k : Int)) ∧
      (p.levelLoop).experience < (p.levelLoop).level * 100 ∧
      (∀ m : Nat, m < n →
        100 * (p.level + (m : Int)) ≤
          p.experience - ∑ k ∈ Finset.range m, 100 * (p.level + (k : Int))) ∧
      (p.levelLoop).maxHealth = p.maxHealth + 20 * n ∧
      (p.levelLoop).attack = p.attack + 3 * n ∧
      (p.levelLoop).defense = p.defense + 2 * n ∧
      (p.levelLoop).maxMana = p.maxMana + 10 * n ∧
      (n = 0 → p.levelLoop = p) ∧
      (0 < n → (p.levelLoop).health = (p.levelLoop).maxHealth ∧
        (p.levelLoop).mana = (p.levelLoop).maxMana) ∧
      (p.levelLoop).name = p.name ∧ (p.levelLoop).x = p.x ∧ (p.levelLoop).y = p.y ∧
      (p.levelLoop).symbol = p.symbol ∧ (p.levelLoop).abilities = p.abilities := by
  induction p using Player.levelLoop.induct with
  | case1 p hc ih =>
    obtain ⟨n, h1, h2, h3, h4, h5, h6, h7, h8, h9, h10, h11, h12, h13, h14, h15⟩ := ih
    rw [Player.levelLoop, if_pos hc]
    simp only [Player.levelUp] at *
    refine ⟨n + 1, ?_, ?_, h3, ?_, ?_, ?_, ?_, ?_, ?_, ?_, h11, h12, h13, h14, h15⟩
    · rw [h1]; push_cast; ring
    · rw [h2, threshold_sum_shift]; ring
    · intro m hm
      cases m with
      | zero => simp; omega
      | succ m =>
        have := h4 m (by omega)
        rw [threshold_sum_shift]
        push_cast
        linarith
    · rw [h5]; push_cast; ring
    · rw [h6]; push_cast; ring
    · rw [h7]; push_cast; ring
    · rw [h8]; push_cast; ring
    · intro h; omega
    · intro _
      rcases Nat.eq_zero_or_pos n with hn | hn
      · have := h9 hn
        rw [this]
        exact ⟨rfl, rfl⟩
      · exact h10 hn
  | case2 p hc =>
    rw [Player.levelLoop, if_neg hc]
    refine ⟨0, by simp, by simp, by omega, ?_, by simp, by simp, by simp, by simp,
      fun _ => rfl, ?_, rfl, rfl, rfl, rfl, rfl⟩
    · intro m hm; omega
    · intro h; omega

/-- Without overflow the 32-bit `levelUp` is the exact one. -/
theorem Player.levelUp_machine (p : Player) (h1 : IsInt (p.level + 1))
    (h2 : IsInt (p.maxHealth + 20)) (h3 : IsInt (p.attack + 3)) (h4 : IsInt (p.defense + 2))
    (h5 : IsInt (p.maxMana + 10)) : Machine.Player.levelUp p = p.levelUp := by
  unfold Machine.Player.levelUp Player.levelUp
  simp only [wrap32_eq _ h1, wrap32_eq _ h2, wrap32_eq _ h3, wrap32_eq _ h4, wrap32_eq _ h5]

/-- When the values the exact level loop ends with fit into `int`, the 32-bit loop returns
them, after one test of the condition more than the number of levels gained. -/
theorem Player.levelLoop_machine (p : Player) :
    1 ≤ p.level → IsInt p.experience → IsInt p.maxHealth → IsInt p.attack →
    IsInt p.defense → IsInt p.maxMana →
    p.levelLoop.level * 100 ≤ 2147483647 → p.levelLoop.maxHealth ≤ 2147483647 →
    p.levelLoop.attack ≤ 2147483647 → p.levelLoop.defense ≤ 2147483647 →
    p.levelLoop.maxMana ≤ 2147483647 →
    ∀ fuel : Nat, (p.levelLoop.level - p.level).toNat < fuel →
      Machine.Player.levelLoop fuel p = some p.levelLoop := by
  induction p using Player.levelLoop.induct with
  | case1 p hc ih =>
    intro hL hexp hmh hat hdf hmm
    have hstep : p.levelLoop =
        (Player.levelUp { p with experience := p.experience - p.level * 100 }).levelLoop := by
      rw [Player.levelLoop, if_pos hc]
    rw [hstep]
    have hup0 : IsInt (p.level + 1) → IsInt (p.maxHealth + 20) → IsInt (p.attack + 3) →
        IsInt (p.defense + 2) → IsInt (p.maxMana + 10) →
        Machine.Player.levelUp { p with experience := p.experience - p.level * 100 } =
          Player.levelUp { p with experience := p.experience - p.level * 100 } :=
      fun a1 a2 a3 a4 a5 => Player.levelUp_machine _ a1 a2 a3 a4 a5
    have e0 : (Player.levelUp { p with experience := p.experience - p.level * 100 }).experience =
        p.experience - p.level * 100 := rfl
    have e1 : (Player.levelUp { p with experience := p.experience - p.level * 100 }).level =
        p.level + 1 := rfl
    have e5 : (Player.levelUp { p with experience := p.experience - p.level * 100 }).maxHealth =
        p.maxHealth + 20 := rfl
    have e6 : (Player.levelUp { p with experience := p.experience - p.level * 100 }).attack =
        p.attack + 3 := rfl
    have e7 : (Player.levelUp { p with experience := p.experience - p.level * 100 }).defense =
        p.defense + 2 := rfl
    have e8 : (Player.levelUp { p with experience := p.experience - p.level * 100 }).maxMana =
        p.maxMana + 10 := rfl
    obtain ⟨n, r1, -, -, -, r5, r6, r7, r8, -⟩ := Player.levelLoop_rounds
      (Player.levelUp { p with experience := p.experience - p.level * 100 })
    generalize Player.levelUp { p with experience := p.experience - p.level * 100 } = q
      at ih hup0 e0 e1 e5 e6 e7 e8 r1 r5 r6 r7 r8 ⊢
    intro f1 f2 f3 f4 f5 fuel hfuel
    unfold IsInt at hexp hmh hat hdf hmm
    have hn : (0 : Int) ≤ n := Int.ofNat_nonneg n
    have g1 : (p.level + 1 + n) * 100 ≤ 2147483647 := by rw [← e1, ← r1]; exact f1
    have g5 : p.maxHealth + 20 + 20 * n ≤ 2147483647 := by rw [← e5, ← r5]; exact f2
    have g6 : p.attack + 3 + 3 * n ≤ 2147483647 := by rw [← e6, ← r6]; exact f3
    have g7 : p.defense + 2 + 2 * n ≤ 2147483647 := by rw [← e7, ← r7]; exact f4
    have g8 : p.maxMana + 10 + 10 * n ≤ 2147483647 := by rw [← e8, ← r8]; exact f5
    have hfuel1 : 0 < fuel := by omega
    obtain ⟨f, rfl⟩ : ∃ f, fuel = f + 1 := ⟨fuel - 1, by omega⟩
    have hw1 : wrap32 (p.level * 100) = p.level * 100 := wrap32_eq _ ⟨by omega, by omega⟩
    have hw2 : wrap32 (p.experience - p.level * 100) = p.experience - p.level * 100 :=
      wrap32_eq _ ⟨by omega, by omega⟩
    have hup := hup0 ⟨by omega, by omega⟩ ⟨by omega, by omega⟩ ⟨by omega, by omega⟩
      ⟨by omega, by omega⟩ ⟨by omega, by omega⟩
    simp only [Machine.Player.levelLoop]
    rw [hw1, if_pos hc, hw2, hup]
    have hf : (q.levelLoop.level - q.level).toNat < f := by
      rw [r1, e1] at hfuel
      rw [r1]
      omega
    exact ih (by rw [e1]; omega) (by rw [e0]; unfold IsInt; omega)
      (by rw [e5]; unfold IsInt; omega) (by rw [e6]; unfold IsInt; omega)
      (by rw [e7]; unfold IsInt; omega) (by rw [e8]; unfold IsInt; omega)
      f1 f2 f3 f4 f5 f hf
  | case2 p hc =>
    intro hL hexp hmh hat hdf hmm
    have hstep : p.levelLoop = p := by rw [Player.levelLoop, if_neg hc]
    rw [hstep]
    intro f1 _ _ _ _ fuel hfuel
    obtain ⟨f, rfl⟩ : ∃ f, fuel = f + 1 := ⟨fuel - 1, by omega⟩
    have hw1 : wrap32 (p.level * 100) = p.level * 100 := wrap32_eq _ ⟨by omega, by omega⟩
    simp only [Machine.Player.levelLoop]
    rw [hw1, if_neg hc]

/-- C6 fails as stated: the hero at level 1 with 50 experience gains 2147483647.  The sum
overflows to -2147483599, so the loop does not run and the call ends at level 1, although
`50 + 2147483647` is not below the threshold 100 of level 1. -/
theorem gainExperience_counterexample :
    (1 : Int) ≤ ({ Player.new with experience := 50 } : Player).level ∧
    (0 : Int) ≤ 2147483647 ∧
    (∀ fuel : Nat, Machine.Player.gainExperience (fuel + 1)
        { Player.new with experience := 50 } 2147483647 =
      some { Player.new with experience := -2147483599 }) ∧
    ({ Player.new with experience := -2147483599 } : Player).level = 1 ∧
    ¬ ((50 : Int) + 2147483647 - ∑ k ∈ Finset.range 0, 100 * (1 + (k : Int)) < 100 * 1) := by
  refine ⟨by decide, by decide, fun fuel => ?_, rfl, by decide⟩
  rfl

/-- C6 (as amended): for a player with level `L ≥ 1` whose values are `int` values and a
gain `e ≥ 0` with `experience + e ≤ 2^31 - 1`, let `n` be the number of thresholds crossed:
the least number for which `experience + e` minus the thresholds `100*L, 100*(L+1), ...`
already paid falls below the next threshold.  When `100 * (L + n)` and the stats after `n`
levels fit into `int`, `gainExperience(e)`, computed on `int`, returns (after `n + 1` tests
of the loop condition) with level `L + n`, `experience'` that difference,
`experience' < level' * 100`, 20 maxHealth, 3 attack, 2 defense and 10 maxMana more per
level, health and mana at their maxima after at least one level, and nothing else changed.
From level 1 with 0 experience, gaining 300 ends at level 3 with 0 experience. -/
theorem gainExperience_spec (p : Player) (e : Int) (hL : 1 ≤ p.level) (he : 0 ≤ e)
    (hp : IsInt p.experience ∧ IsInt p.maxHealth ∧ IsInt p.attack ∧ IsInt p.defense ∧
      IsInt p.maxMana)
    (hsum : p.experience + e ≤ 2147483647) :
    (∃ n : Nat,
      p.experience + e - ∑ k ∈ Finset.range n, 100 * (p.level + (k : Int)) <
        100 * (p.level + n) ∧
      (∀ m : Nat, m < n →
        100 * (p.level + (m : Int)) ≤
          p.experience + e - ∑ k ∈ Finset.range m, 100 * (p.level + (k : Int))) ∧
      (100 * (p.level + n) ≤ 2147483647 ∧ p.maxHealth + 20 * n ≤ 2147483647 ∧
          p.attack + 3 * n ≤ 2147483647 ∧ p.defense + 2 * n ≤ 2147483647 ∧
          p.maxMana + 10 * n ≤ 2147483647 →
        ∃ q : Player,
          (∀ fuel : Nat, n < fuel → Machine.Player.gainExperience fuel p e = some q) ∧
          q.level = p.level + n ∧
          q.experience =
            p.experience + e - ∑ k ∈ Finset.range n, 100 * (p.level + (k : Int)) ∧
          q.experience < q.level * 100 ∧
          q.maxHealth = p.maxHealth + 20 * n ∧
          q.attack = p.attack + 3 * n ∧
          q.defense = p.defense + 2 * n ∧
          q.maxMana = p.maxMana + 10 * n ∧
          (n = 0 → q = { p with experience := p.experience + e }) ∧
          (0 < n → q.health = q.maxHealth ∧ q.mana = q.maxMana) ∧
          q.name = p.name ∧ q.x = p.x ∧ q.y = p.y ∧ q.symbol = p.symbol ∧
          q.abilities = p.abilities)) ∧
    (Machine.Player.gainExperience 3 Player.new 300).map
      (fun q => (q.level, q.experience)) = some (3, 0) := by
  refine ⟨?_, by decide⟩
  obtain ⟨he1, hmh, hat, hdf, hmm⟩ := hp
  obtain ⟨n, r1, r2, r3, r4, r5, r6, r7, r8, r9, r10, r11, r12, r13, r14, r15⟩ :=
    Player.levelLoop_rounds { p with experience := p.experience + e }
  have hw : wrap32 (p.experience + e) = p.experience + e := by
    unfold IsInt at he1
    exact wrap32_eq _ ⟨by omega, hsum⟩
  refine ⟨n, ?_, r4, ?_⟩
  · have h3 := r3
    rw [r1, r2] at h3
    have : (p.level + (n : Int)) * 100 = 100 * (p.level + n) := by ring
    show p.experience + e - ∑ k ∈ Finset.range n, 100 * (p.level + (k : Int)) <
        100 * (p.level + n)
    rw [← this]
    exact h3
  · intro ⟨f1, f2, f3, f4, f5⟩
    refine ⟨Player.levelLoop { p with experience := p.experience + e }, ?_, r1, r2, r3, r5,
      r6, r7, r8, r9, r10, r11, r12, r13, r14, r15⟩
    intro fuel hfuel
    unfold Machine.Player.gainExperience
    rw [hw]
    apply Player.levelLoop_machine { p with experience := p.experience + e } hL
      (by show IsInt (p.experience + e); unfold IsInt at he1 ⊢; omega) hmh hat hdf hmm
    · rw [r1]
      show (p.level + (n : Int)) * 100 ≤ 2147483647
      omega
    · rw [r5]; exact f2
    · rw [r6]; exact f3
    · rw [r7]; exact f4
    · rw [r8]; exact f5
    · rw [r1]
      show (p.level + (n : Int) - p.level).toNat < fuel
      omega

/-- Witness for `gainExperience_spec`: for the fresh hero gaining 300 the number of
thresholds crossed is 2, the stats after two levels fit, and the call returns (after three
tests of the loop condition) at level 3 with 0 experience, 140 health of 140, attack 21,
defense 9 and 70 mana of 70. -/
theorem gainExperience_spec_witness :
    (1 : Int) ≤ Player.new.level ∧ (0 : Int) ≤ 300 ∧
    Player.new.experience + 300 ≤ 2147483647 ∧
    ∃ q : Player,
      (∀ fuel : Nat, 2 < fuel → Machine.Player.gainExperience fuel Player.new 300 = some q) ∧
      q.level = 3 ∧ q.experience = 0 ∧ q.maxHealth = 140 ∧ q.health = 140 ∧
      q.attack = 21 ∧ q.defense = 9 ∧ q.maxMana = 70 ∧ q.mana = 70 := by
  obtain ⟨⟨n, hn1, hn2, hq⟩, -⟩ := gainExperience_spec Player.new 300 (by decide) (by decide)
    ⟨by decide, by decide, by decide, by decide, by decide⟩ (by decide)
  have hL : Player.new.level = 1 := rfl
  have hE : Player.new.experience = 0 := rfl
  have hn : n = 2 := by
    rw [hL, hE] at hn1 hn2
    rcases n with _ | _ | _ | n
    · simp at hn1
    · simp [Finset.sum_range_succ] at hn1
    · rfl
    · have := hn2 2 (by omega)
      simp [Finset.sum_range_succ] at this
  subst hn
  obtain ⟨q, q0, q1, q2, -, q4, q5, q6, q7, -, q9, -⟩ :=
    hq ⟨by decide, by decide, by decide, by decide, by decide⟩
  obtain ⟨q9a, q9b⟩ := q9 (by decide)
  refine ⟨by decide, by decide, by decide, q, q0, q1.trans (by decide), ?_,
    q4.trans (by decide), ?_, q5.trans (by decide), q6.trans (by decide),
    q7.trans (by decide), ?_⟩
  · rw [q2, hL, hE]
    simp [Finset.sum_range_succ]
  · rw [q9a, q4]; decide
  · rw [q9b, q7]; decide

/-- What an experience gain can do to a player, as far as abilities are concerned. -/
theorem Player.gainExperience_gainedFrom (p : Player) (e : Int) :
    Player.GainedFrom p (p.gainExperience e) := by
  obtain ⟨n, h1, -, -, -, h5, h6, h7, h8, h9, h10, -, h12, h13, -, h15⟩ :=
    Player.levelLoop_rounds { p with experience := p.experience + e }
  refine ⟨h15, h12, h13, ?_, ?_, ?_⟩
  · show p.level ≤ (p.gainExperience e).level
    show p.level ≤ (Player.levelLoop _).level
    rw [h1]; show p.level ≤ p.level + n; omega
  · intro hl
    have hn : n = 0 := by
      have : (Player.levelLoop { p with experience := p.experience + e }).level = p.level := hl
      rw [h1] at this
      have : p.level + (n : Int) = p.level := this
      omega
    have := h9 hn
    unfold Player.gainExperience
    rw [this]
  · intro hl
    have hn : 0 < n := by
      have : p.level < (Player.levelLoop { p with experience := p.experience + e }).level := hl
      rw [h1] at this
      have : p.level < p.level + (n : Int) := this
      omega
    exact ⟨(h10 hn).2, (h10 hn).1⟩

theorem Player.GainedFrom.refl (p : Player) : Player.GainedFrom p p :=
  ⟨rfl, rfl, rfl, le_refl _, fun _ => rfl, fun h => absurd h (lt_irrefl _)⟩

theorem Player.GainedFrom.trans {p q r : Player} (h1 : Player.GainedFrom p q)
    (h2 : Player.GainedFrom q r) : Player.GainedFrom p r := by
  obtain ⟨a1, b1, c1, d1, e1, f1⟩ := h1
  obtain ⟨a2, b2, c2, d2, e2, f2⟩ := h2
  refine ⟨a2.trans a1, b2.trans b1, c2.trans c1, le_trans d1 d2, ?_, ?_⟩
  · intro hl
    have hq : q.level = p.level := by omega
    have hr : r.level = q.level := by omega
    have hq2 := e1 hq
    have hr2 := e2 hr
    rw [hr2, hq2]
  · intro hl
    by_cases hr : r.level = q.level
    · have hr2 := e2 hr
      have hq : p.level < q.level := by omega
      have := f1 hq
      rw [hr2]
      exact this
    · exact f2 (by omega)

/-! ## Abilities -/

/-- C2: with the player's three abilities, `useAbility(index)` returns the game state
unchanged (player, abilities and their cooldowns, enemies, map, floor) when `index < 0` or
`index ≥ 3`, when the selected ability has `currentCooldown > 0`, and when the player's
mana is below the ability's `manaCost`. -/
theorem useAbility_failure_unchanged (g : Game) (index : Int)
    (hlen : g.player.abilities.length = 3)
    (hfail : index < 0 ∨ 3 ≤ index ∨
      ∃ a, g.player.abilities[index.toNat]? = some a ∧
        (0 < a.currentCooldown ∨ g.player.mana < a.manaCost)) :
    (g.useAbility index).1 = g ∧
    ((g.useAbility index).2 = AbilityOutcome.invalid ∨
      (∃ t, (g.useAbility index).2 = AbilityOutcome.onCooldown t) ∨
      (g.useAbility index).2 = AbilityOutcome.notEnoughMana) := by
  unfold Game.useAbility
  by_cases hidx : index < 0 ∨ index ≥ (g.player.abilities.length : Int)
  · rw [if_pos hidx]
    exact ⟨rfl, Or.inl rfl⟩
  · rw [if_neg hidx]
    rw [hlen] at hidx
    rcases hfail with h | h | ⟨a, ha, h⟩
    · exact absurd (Or.inl h) hidx
    · exact absurd (Or.inr h) hidx
    · simp only [ha]
      by_cases hr : a.isReady = true
      · have hcd : a.currentCooldown = 0 := by simpa [Ability.isReady] using hr
        have hm : g.player.mana < a.manaCost := by
          rcases h with h | h
          · omega
          · exact h
        have hum : g.player.useMana a.manaCost = (g.player, false) := by
          unfold Player.useMana
          rw [if_neg (by omega)]
        simp [hr, hum]
      · simp [hr]

/-- Witness for `useAbility_failure_unchanged`: Cleave (cost 15) with 10 mana. -/
theorem useAbility_failure_unchanged_witness :
    Scenario.lowManaGame.player.abilities.length = 3 ∧
    (Scenario.lowManaGame.useAbility 0).1 = Scenario.lowManaGame ∧
    (Scenario.lowManaGame.useAbility 0).1.player.mana = 10 :=
  have h := useAbility_failure_unchanged Scenario.lowManaGame 0 (by decide)
    (Or.inr (Or.inr ⟨Ability.mk0 "Cleave" AbilityType.CLEAVE 3 15, rfl, Or.inr (by decide)⟩))
  ⟨by decide, h.1, by rw [h.1]; decide⟩

theorem Enemy.takeDamage_health_lt (e : Enemy) (d : Int) (h : e.isAlive = true) :
    (e.takeDamage d).health < e.health ∧
    (e.takeDamage d).health = max 0 (e.health - max 1 (d - e.defense)) := by
  have h0 : 0 < e.health := by simpa [Entity.isAlive] using h
  have h1 : (e.takeDamage d).health = max 0 (e.health - max 1 (d - e.defense)) :=
    Entity.takeDamage_health e.toEntity d
  refine ⟨?_, h1⟩
  rw [h1]
  omega

theorem Enemy.takeDamage_frame (e : Enemy) (d : Int) :
    e.takeDamage d = { e with health := (e.takeDamage d).health } := rfl

/-- One round of the Cleave loop, seen from the player at `(px, py)`. -/
theorem Game.cleaveBody_step (s : Player × Int) (e : Enemy) :
    Player.GainedFrom s.1 (Game.cleaveBody s e).1.1 ∧
    (Game.cleaveBody s e).1.2 =
      s.2 + (if Enemy.aliveWithin 2 s.1.x s.1.y e then 1 else 0) ∧
    (Game.cleaveBody s e).2 = { e with health := (Game.cleaveBody s e).2.health } ∧
    (Enemy.aliveWithin 2 s.1.x s.1.y e →
      (Game.cleaveBody s e).2 = e.takeDamage (s.1.attack * 2)) ∧
    (¬ Enemy.aliveWithin 2 s.1.x s.1.y e → (Game.cleaveBody s e).2 = e) := by
  unfold Game.cleaveBody Enemy.aliveWithin
  simp only [stdAbs_eq_abs]
  by_cases ha : e.isAlive = true
  · by_cases hr : |s.1.x - e.x| ≤ 2 ∧ |s.1.y - e.y| ≤ 2
    · by_cases hd : (e.takeDamage (s.1.attack * 2)).isAlive = true
      · simp [ha, hr, hd, Player.GainedFrom.refl]
        rfl
      · simp [ha, hr, hd, Player.gainExperience_gainedFrom]
        rfl
    · simp [ha, hr, Player.GainedFrom.refl]
  · simp [ha, Player.GainedFrom.refl]

/-- The whole Cleave loop started in state `s`, for a player that was `p0` before any
experience gain: the player only gains, the counter grows by the number of enemies alive
and within reach, and enemy by enemy only the health of those changes (it drops). -/
theorem Game.cleave_loop (p0 : Player) :
    ∀ (es : List Enemy) (s : Player × Int), Player.GainedFrom p0 s.1 →
      Player.GainedFrom p0 (Game.forEnemies Game.cleaveBody s es).1.1 ∧
      (Game.forEnemies Game.cleaveBody s es).1.2 =
        s.2 + ((es.filter fun e => decide (Enemy.aliveWithin 2 p0.x p0.y e)).length : Int) ∧
      List.Forall₂
        (fun e e1 : Enemy => e1 = { e with health := e1.health } ∧
          (Enemy.aliveWithin 2 p0.x p0.y e → e1.health < e.health) ∧
          (¬ Enemy.aliveWithin 2 p0.x p0.y e → e1 = e))
        es (Game.forEnemies Game.cleaveBody s es).2 := by
  intro es
  induction es with
  | nil =>
    intro s hs
    simp [Game.forEnemies, hs]
  | cons e rest ih =>
    intro s hs
    obtain ⟨b1, b2, b3, b4, b5⟩ := Game.cleaveBody_step s e
    rw [hs.2.1, hs.2.2.1] at b2 b4 b5
    obtain ⟨i1, i2, i3⟩ := ih (Game.cleaveBody s e).1 (hs.trans b1)
    simp only [Game.forEnemies]
    refine ⟨i1, ?_, List.Forall₂.cons ⟨b3, ?_, b5⟩ i3⟩
    · rw [i2, b2, List.filter_cons]
      by_cases hw : Enemy.aliveWithin 2 p0.x p0.y e
      · simp [hw]; ring
      · simp [hw]
    · intro hw
      rw [b4 hw]
      exact (Enemy.takeDamage_health_lt e _ hw.1).1

/-- One round of the Fire Blast loop only lets the player gain. -/
theorem Game.fireBlastBody_step (p : Player) (e : Enemy) :
    Player.GainedFrom p (Game.fireBlastBody p e).1 := by
  simp only [Game.fireBlastBody]
  split
  · exact Player.GainedFrom.refl p
  · split
    · split
      · exact Player.gainExperience_gainedFrom p _
      · exact Player.GainedFrom.refl p
    · exact Player.GainedFrom.refl p

theorem Game.fireBlast_loop (p0 : Player) :
    ∀ (es : List Enemy) (p : Player), Player.GainedFrom p0 p →
      Player.GainedFrom p0 (Game.forEnemies Game.fireBlastBody p es).1 := by
  intro es
  induction es with
  | nil => intro p hp; simpa [Game.forEnemies] using hp
  | cons e rest ih =>
    intro p hp
    simp only [Game.forEnemies]
    exact ih _ (hp.trans (Game.fireBlastBody_step p e))

/-- The successful path of `useAbility`: mana is paid, the cooldown is started, then the
effect selected by the ability type runs. -/
theorem Game.useAbility_ready (g : Game) (i : Nat) (a : Ability)
    (hget : g.player.abilities[i]? = some a) (hready : a.currentCooldown = 0)
    (hmana : a.manaCost ≤ g.player.mana) :
    g.useAbility i =
      match a.type with
      | AbilityType.CLEAVE =>
        ({ g with
            player := (Game.forEnemies Game.cleaveBody
              ({ g.player with mana := g.player.mana - a.manaCost,
                               abilities := g.player.abilities.set i a.use }, 0)
              g.enemies).1.1
            enemies := (Game.forEnemies Game.cleaveBody
              ({ g.player with mana := g.player.mana - a.manaCost,
                               abilities := g.player.abilities.set i a.use }, 0)
              g.enemies).2 },
          AbilityOutcome.cleaved (Game.forEnemies Game.cleaveBody
              ({ g.player with mana := g.player.mana - a.manaCost,
                               abilities := g.player.abilities.set i a.use }, 0)
              g.enemies).1.2)
      | AbilityType.HEAL =>
        ({ g with player := (Player.heal
            { g.player with mana := g.player.mana - a.manaCost,
                            abilities := g.player.abilities.set i a.use } 40) },
          AbilityOutcome.healed)
      | AbilityType.FIRE_BLAST =>
        ({ g with
            player := (Game.forEnemies Game.fireBlastBody
              { g.player with mana := g.player.mana - a.manaCost,
                              abilities := g.player.abilities.set i a.use }
              g.enemies).1
            enemies := (Game.forEnemies Game.fireBlastBody
              { g.player with mana := g.player.mana - a.manaCost,
                              abilities := g.player.abilities.set i a.use }
              g.enemies).2 },
          AbilityOutcome.fireBlast)
      | _ =>
        ({ g with player :=
            ({ g.player with mana := g.player.mana - a.manaCost,
                             abilities := g.player.abilities.set i a.use } : Player) },
          AbilityOutcome.noEffect) := by
  have hlt : i < g.player.abilities.length := by
    rcases Nat.lt_or_ge i g.player.abilities.length with h | h
    · exact h
    · rw [List.getElem?_eq_none h] at hget
      cases hget
  have hidx : ¬ ((i : Int) < 0 ∨ (i : Int) ≥ (g.player.abilities.length : Int)) := by omega
  have hr : a.isReady = true := by simp [Ability.isReady, hready]
  have hum : g.player.useMana a.manaCost =
      ({ g.player with mana := g.player.mana - a.manaCost }, true) := by
    unfold Player.useMana
    rw [if_pos (by omega)]
  unfold Game.useAbility
  rw [if_neg hidx]
  simp only [Int.toNat_ofNat, hget, hr, hum]
  cases a.type <;> rfl

/-- C3 fails as stated: with 80 experience, Cleave (ready, cost 15, mana 50) kills the
goblin at 4 health, the 25 experience pays for level 2, and `levelUp` refills mana to the
new maximum 60 instead of leaving `50 - 15 = 35`. -/
theorem useAbility_mana_counterexample :
    Scenario.levelUpGame.player.abilities[0]? =
      some (Ability.mk0 "Cleave" AbilityType.CLEAVE 3 15) ∧
    (Ability.mk0 "Cleave" AbilityType.CLEAVE 3 15).isReady = true ∧
    Scenario.levelUpGame.player.mana = 50 ∧
    (Scenario.levelUpGame.useAbility 0).1.player.mana = 60 ∧
    (Scenario.levelUpGame.useAbility 0).1.player.mana ≠ 50 - 15 ∧
    (Scenario.levelUpGame.useAbility 0).1.player.level = 2 := by
  have h : (Scenario.levelUpGame.useAbility 0).1.player.mana = 60 ∧
      (Scenario.levelUpGame.useAbility 0).1.player.level = 2 := by
    simp [Game.useAbility, Scenario.levelUpGame, Player.new, Player.setPosition,
      Entity.setPosition, Entity.mk0, Ability.mk0, Ability.isReady, Ability.use,
      Player.useMana, Game.forEnemies, Game.cleaveBody, Enemy.goblin, Enemy.setPosition,
      Enemy.takeDamage, Entity.takeDamage, Entity.isAlive, stdAbs, Player.gainExperience,
      Player.levelLoop, Player.levelUp]
  refine ⟨rfl, rfl, rfl, h.1, ?_, h.2⟩
  rw [h.1]
  decide

/-- C3 (as amended): when the ability at `index` is ready and affordable, `useAbility`
starts its cooldown at the full value (3, 5, 4 for the hero's Cleave, Heal, Fire Blast) and
leaves the other abilities alone; the player's mana is exactly `m - c` whenever the call
did not raise the player's level (always so for Heal), and equals `maxMana` when kills made
by the effect raised the level; for Heal health becomes `min(maxHealth, health + 40)` and
nothing else changes. -/
theorem useAbility_success (g : Game) (i : Nat) (a : Ability)
    (hget : g.player.abilities[i]? = some a) (hready : a.currentCooldown = 0)
    (hmana : a.manaCost ≤ g.player.mana) :
    (g.useAbility i).1.player.abilities =
      g.player.abilities.set i { a with currentCooldown := a.cooldown } ∧
    (g.useAbility i).1.player.abilities[i]? = some { a with currentCooldown := a.cooldown } ∧
    g.player.level ≤ (g.useAbility i).1.player.level ∧
    ((g.useAbility i).1.player.level = g.player.level →
      (g.useAbility i).1.player.mana = g.player.mana - a.manaCost) ∧
    (g.player.level < (g.useAbility i).1.player.level →
      (g.useAbility i).1.player.mana = (g.useAbility i).1.player.maxMana) ∧
    (a.type = AbilityType.HEAL →
      (g.useAbility i).1 =
        { g with player :=
          ({ g.player with
              mana := g.player.mana - a.manaCost
              health := min g.player.maxHealth (g.player.health + 40)
              abilities := g.player.abilities.set i { a with currentCooldown := a.cooldown } }
            : Player) }) ∧
    (Player.new.abilities.map fun b => (b.type, b.cooldown, b.manaCost)) =
      [(AbilityType.CLEAVE, 3, 15), (AbilityType.HEAL, 5, 20), (AbilityType.FIRE_BLAST, 4, 25)]
    := by
  have hlt : i < g.player.abilities.length := by
    rcases Nat.lt_or_ge i g.player.abilities.length with h | h
    · exact h
    · rw [List.getElem?_eq_none h] at hget
      cases hget
  have hset : (g.player.abilities.set i { a with currentCooldown := a.cooldown })[i]? =
      some { a with currentCooldown := a.cooldown } := by
    simp [hlt]
  -- the player after a damaging effect only gained experience since the payment
  have gained : ∀ P : Player,
      Player.GainedFrom
        { g.player with mana := g.player.mana - a.manaCost,
                        abilities := g.player.abilities.set i a.use } P →
      P.abilities = g.player.abilities.set i { a with currentCooldown := a.cooldown } ∧
      P.abilities[i]? = some { a with currentCooldown := a.cooldown } ∧
      g.player.level ≤ P.level ∧
      (P.level = g.player.level → P.mana = g.player.mana - a.manaCost) ∧
      (g.player.level < P.level → P.mana = P.maxMana) := by
    intro P hP
    obtain ⟨h1, -, -, h4, h5, h6⟩ := hP
    have h1a : P.abilities = g.player.abilities.set i { a with currentCooldown := a.cooldown } :=
      h1
    refine ⟨h1a, by rw [h1a]; exact hset, h4, ?_, fun h => (h6 h).1⟩
    intro hl
    have := h5 hl
    rw [this]
  have hu := Game.useAbility_ready g i a hget hready hmana
  have hheal : a.type = AbilityType.HEAL →
      (g.useAbility i).1 =
        { g with player := (Player.heal
            { g.player with mana := g.player.mana - a.manaCost,
                            abilities := g.player.abilities.set i a.use } 40) } := by
    intro ht
    rw [hu]
    simp only [ht]
  have hgain : a.type ≠ AbilityType.HEAL →
      Player.GainedFrom
        { g.player with mana := g.player.mana - a.manaCost,
                        abilities := g.player.abilities.set i a.use }
        (g.useAbility i).1.player := by
    intro hne
    rw [hu]
    split
    · exact (Game.cleave_loop _ g.enemies (_, 0) (Player.GainedFrom.refl _)).1
    · exact absurd (by assumption) hne
    · exact Game.fireBlast_loop _ g.enemies _ (Player.GainedFrom.refl _)
    · exact Player.GainedFrom.refl _
  by_cases ht : a.type = AbilityType.HEAL
  · have h := hheal ht
    refine ⟨?_, ?_, ?_, ?_, ?_, fun _ => ?_, by decide⟩
    · rw [h]; rfl
    · rw [h]; exact hset
    · rw [h]; exact le_refl _
    · rw [h]; intro _; rfl
    · rw [h]; intro hl; exact absurd hl (lt_irrefl _)
    · rw [h]; rfl
  · obtain ⟨g1, g2, g3, g4, g5⟩ := gained _ (hgain ht)
    exact ⟨g1, g2, g3, g4, g5, fun h => absurd h ht, by decide⟩

/-- A successful Cleave at game level: the reported count and, enemy by enemy, what
became of the collection. -/
theorem Game.cleave_result (g : Game) (i : Nat) (a : Ability)
    (hget : g.player.abilities[i]? = some a) (htype : a.type = AbilityType.CLEAVE)
    (hready : a.currentCooldown = 0) (hmana : a.manaCost ≤ g.player.mana) :
    (g.useAbility i).2 = AbilityOutcome.cleaved
      ((g.enemies.filter fun e =>
        decide (Enemy.aliveWithin 2 g.player.x g.player.y e)).length) ∧
    List.Forall₂
      (fun e e1 : Enemy => e1 = { e with health := e1.health } ∧
        (Enemy.aliveWithin 2 g.player.x g.player.y e → e1.health < e.health) ∧
        (¬ Enemy.aliveWithin 2 g.player.x g.player.y e → e1 = e))
      g.enemies (g.useAbility i).1.enemies := by
  have hu := Game.useAbility_ready g i a hget hready hmana
  simp only [htype] at hu
  obtain ⟨-, c2, c3⟩ := Game.cleave_loop
    { g.player with mana := g.player.mana - a.manaCost,
                    abilities := g.player.abilities.set i a.use }
    g.enemies
    ({ g.player with mana := g.player.mana - a.manaCost,
                     abilities := g.player.abilities.set i a.use }, 0)
    (Player.GainedFrom.refl _)
  rw [hu]
  refine ⟨?_, c3⟩
  show AbilityOutcome.cleaved _ = _
  rw [c2]
  simp only [zero_add]

/-- Witness for `useAbility_success`: the fresh hero casts Heal (index 1, cost 20,
cooldown 5) and is left with 30 mana, 100 health and Heal at cooldown 5. -/
theorem useAbility_success_witness :
    Scenario.cleaveGame.player.abilities[1]? =
      some (Ability.mk0 "Heal" AbilityType.HEAL 5 20) ∧
    (Scenario.cleaveGame.useAbility 1).1.player.mana = 50 - 20 ∧
    (Scenario.cleaveGame.useAbility 1).1.player.abilities[1]? =
      some { Ability.mk0 "Heal" AbilityType.HEAL 5 20 with currentCooldown := 5 } :=
  have h := useAbility_success Scenario.cleaveGame 1
    (Ability.mk0 "Heal" AbilityType.HEAL 5 20) rfl rfl (by decide)
  ⟨rfl, h.2.2.2.1 (by decide), h.2.1⟩

/-- C4: a successful Cleave changes the health of exactly the enemies that were alive and
within Chebyshev distance 2 of the player when it was invoked (their health drops); the
count it reports is the number of those enemies; every other enemy is returned as it was,
and no enemy changes anything but its health, so positions are kept. -/
theorem cleave_hits_exactly (g : Game) (i : Nat) (a : Ability)
    (hget : g.player.abilities[i]? = some a) (htype : a.type = AbilityType.CLEAVE)
    (hready : a.currentCooldown = 0) (hmana : a.manaCost ≤ g.player.mana) :
    List.Forall₂
      (fun e e1 : Enemy =>
        (e1.health ≠ e.health ↔
          (e.isAlive = true ∧ |g.player.x - e.x| ≤ 2 ∧ |g.player.y - e.y| ≤ 2)) ∧
        (¬ (e.isAlive = true ∧ |g.player.x - e.x| ≤ 2 ∧ |g.player.y - e.y| ≤ 2) → e1 = e) ∧
        e1.x = e.x ∧ e1.y = e.y ∧ e1 = { e with health := e1.health })
      g.enemies (g.useAbility i).1.enemies ∧
    (g.useAbility i).1.enemies.length = g.enemies.length ∧
    (g.useAbility i).2 = AbilityOutcome.cleaved
      ((g.enemies.filter fun e =>
        decide (e.isAlive = true ∧ |g.player.x - e.x| ≤ 2 ∧ |g.player.y - e.y| ≤ 2)).length) := by
  obtain ⟨hc, hF0⟩ := Game.cleave_result g i a hget htype hready hmana
  have hF : List.Forall₂
      (fun e e1 : Enemy =>
        (e1.health ≠ e.health ↔
          (e.isAlive = true ∧ |g.player.x - e.x| ≤ 2 ∧ |g.player.y - e.y| ≤ 2)) ∧
        (¬ (e.isAlive = true ∧ |g.player.x - e.x| ≤ 2 ∧ |g.player.y - e.y| ≤ 2) → e1 = e) ∧
        e1.x = e.x ∧ e1.y = e.y ∧ e1 = { e with health := e1.health })
      g.enemies (g.useAbility i).1.enemies := by
    refine List.Forall₂.imp ?_ hF0
    intro e e1 ⟨r1, r2, r3⟩
    refine ⟨⟨?_, ?_⟩, r3, by rw [r1], by rw [r1], r1⟩
    · intro hne
      by_contra hw
      exact hne (by rw [r3 hw])
    · intro hw
      exact ne_of_lt (r2 hw)
  exact ⟨hF, hF.length_eq.symm, hc⟩

/-- Witness for `cleave_hits_exactly`: the hero at (10,10) with 80 experience cleaves the
goblin at (11,10); one enemy is counted and it keeps its position. -/
theorem cleave_hits_exactly_witness :
    Scenario.levelUpGame.player.abilities[0]? =
      some (Ability.mk0 "Cleave" AbilityType.CLEAVE 3 15) ∧
    (Scenario.levelUpGame.useAbility 0).2 = AbilityOutcome.cleaved 1 ∧
    (Scenario.levelUpGame.useAbility 0).1.enemies.length = 1 := by
  have h := cleave_hits_exactly Scenario.levelUpGame 0
    (Ability.mk0 "Cleave" AbilityType.CLEAVE 3 15) rfl rfl rfl (by decide)
  exact ⟨rfl, h.2.2.trans (by decide), h.2.1⟩

/-- C5 fails as stated: with the hero at (10,10) and alive goblins at (11,11), (12,12) and
(8,10), Cleave reports 3 enemies, not 1; the goblins at (12,12) and (8,10) lie at
Chebyshev distance exactly 2 and drop from 30 to 2 health like the one at (11,11). -/
theorem cleave_scenario_counterexample :
    (Scenario.cleaveGame.player.x, Scenario.cleaveGame.player.y) = (10, 10) ∧
    (Scenario.cleaveGame.enemies.map fun e => (e.x, e.y, e.isAlive, e.health)) =
      [(11, 11, true, 30), (12, 12, true, 30), (8, 10, true, 30)] ∧
    (Scenario.cleaveGame.useAbility 0).2 = AbilityOutcome.cleaved 3 ∧
    (Scenario.cleaveGame.useAbility 0).2 ≠ AbilityOutcome.cleaved 1 ∧
    ((Scenario.cleaveGame.useAbility 0).1.enemies.map fun e => (e.x, e.y, e.health)) =
      [(11, 11, 2), (12, 12, 2), (8, 10, 2)] := by
  decide

/-- C5 (as amended): with the player at (10,10) and three alive enemies at (11,11),
(12,12) and (8,10), a successful Cleave hits all three (each loses health) and reports a
count of 3, because all of them satisfy `|dx| ≤ 2` and `|dy| ≤ 2`. -/
theorem cleave_scenario (g : Game) (i : Nat) (a : Ability) (e1 e2 e3 : Enemy)
    (hget : g.player.abilities[i]? = some a) (htype : a.type = AbilityType.CLEAVE)
    (hready : a.currentCooldown = 0) (hmana : a.manaCost ≤ g.player.mana)
    (hp : g.player.x = 10 ∧ g.player.y = 10) (hes : g.enemies = [e1, e2, e3])
    (h1 : e1.isAlive = true ∧ e1.x = 11 ∧ e1.y = 11)
    (h2 : e2.isAlive = true ∧ e2.x = 12 ∧ e2.y = 12)
    (h3 : e3.isAlive = true ∧ e3.x = 8 ∧ e3.y = 10) :
    (g.useAbility i).2 = AbilityOutcome.cleaved 3 ∧
    ∃ f1 f2 f3 : Enemy, (g.useAbility i).1.enemies = [f1, f2, f3] ∧
      f1.health < e1.health ∧ f2.health < e2.health ∧ f3.health < e3.health ∧
      (f1.x, f1.y) = (11, 11) ∧ (f2.x, f2.y) = (12, 12) ∧ (f3.x, f3.y) = (8, 10) := by
  obtain ⟨hc, hF⟩ := Game.cleave_result g i a hget htype hready hmana
  have w1 : Enemy.aliveWithin 2 g.player.x g.player.y e1 := by
    refine ⟨h1.1, ?_, ?_⟩
    · rw [hp.1, h1.2.1]; decide
    · rw [hp.2, h1.2.2]; decide
  have w2 : Enemy.aliveWithin 2 g.player.x g.player.y e2 := by
    refine ⟨h2.1, ?_, ?_⟩
    · rw [hp.1, h2.2.1]; decide
    · rw [hp.2, h2.2.2]; decide
  have w3 : Enemy.aliveWithin 2 g.player.x g.player.y e3 := by
    refine ⟨h3.1, ?_, ?_⟩
    · rw [hp.1, h3.2.1]; decide
    · rw [hp.2, h3.2.2]; decide
  constructor
  · rw [hc, hes]
    simp [List.filter_cons, w1, w2, w3]
  · generalize (g.useAbility i).1.enemies = L at hF
    rw [hes] at hF
    rcases List.forall₂_cons_left_iff.mp hF with ⟨f1, L1, r1, t1, rfl⟩
    rcases List.forall₂_cons_left_iff.mp t1 with ⟨f2, L2, r2, t2, rfl⟩
    rcases List.forall₂_cons_left_iff.mp t2 with ⟨f3, L3, r3, t3, rfl⟩
    have hnil : L3 = [] := by simpa using t3
    subst hnil
    refine ⟨f1, f2, f3, rfl, r1.2.1 w1, r2.2.1 w2, r3.2.1 w3, ?_, ?_, ?_⟩
    · rw [r1.1]; show (e1.x, e1.y) = _; rw [h1.2.1, h1.2.2]
    · rw [r2.1]; show (e2.x, e2.y) = _; rw [h2.2.1, h2.2.2]
    · rw [r3.1]; show (e3.x, e3.y) = _; rw [h3.2.1, h3.2.2]

/-- Witness for `cleave_scenario`: the fresh hero and three fresh goblins. -/
theorem cleave_scenario_witness :
    (Scenario.cleaveGame.player.x = 10 ∧ Scenario.cleaveGame.player.y = 10) ∧
    Scenario.cleaveGame.enemies = [Enemy.goblin.setPosition 11 11,
      Enemy.goblin.setPosition 12 12, Enemy.goblin.setPosition 8 10] ∧
    (Scenario.cleaveGame.useAbility 0).2 = AbilityOutcome.cleaved 3 :=
  ⟨⟨rfl, rfl⟩, rfl,
    (cleave_scenario Scenario.cleaveGame 0 (Ability.mk0 "Cleave" AbilityType.CLEAVE 3 15)
      (Enemy.goblin.setPosition 11 11) (Enemy.goblin.setPosition 12 12)
      (Enemy.goblin.setPosition 8 10) rfl rfl rfl (by decide) ⟨rfl, rfl⟩ rfl
      ⟨rfl, rfl, rfl⟩ ⟨rfl, rfl, rfl⟩ ⟨rfl, rfl, rfl⟩).1⟩

/-! ## Melee attack -/

/-- The attack loop passes over enemies that are dead or out of melee reach. -/
theorem Game.playerAttackBody_none (p : Player) (e : Enemy)
    (h : ¬ Enemy.aliveWithin 1 p.x p.y e) : Game.playerAttackBody p e = none := by
  unfold Game.playerAttackBody Enemy.aliveWithin at *
  simp only [stdAbs_eq_abs]
  by_cases ha : e.isAlive = true
  · have hr : ¬ (|p.x - e.x| ≤ 1 ∧ |p.y - e.y| ≤ 1) := fun hr => h ⟨ha, hr.1, hr.2⟩
    simp [ha, hr]
  · simp [ha]

/-- The attack loop stops at an enemy that is alive and within melee reach. -/
theorem Game.playerAttackBody_some (p : Player) (e : Enemy)
    (h : Enemy.aliveWithin 1 p.x p.y e) :
    Game.playerAttackBody p e =
      some (if (e.takeDamage p.attack).health = 0 then p.gainExperience e.expValue else p,
        e.takeDamage p.attack) := by
  obtain ⟨ha, hx, hy⟩ := h
  have hnn : 0 ≤ (e.takeDamage p.attack).health := by
    rw [(Enemy.takeDamage_health_lt e p.attack ha).2]
    omega
  unfold Game.playerAttackBody
  simp only [stdAbs_eq_abs, Entity.dealDamage]
  by_cases hd : (e.takeDamage p.attack).health = 0
  · have hdead : (e.takeDamage p.attack).isAlive = false := by
      simp [Entity.isAlive, hd]
    simp [ha, hx, hy, hd, hdead]
    rfl
  · have halive : (e.takeDamage p.attack).isAlive = true := by
      simp only [Entity.isAlive, decide_eq_true_eq]
      omega
    simp [ha, hx, hy, hd, halive]

theorem Game.playerAttackLoop_none (p : Player) :
    ∀ es : List Enemy, (∀ e ∈ es, ¬ Enemy.aliveWithin 1 p.x p.y e) →
      Game.playerAttackLoop p es = none := by
  intro es
  induction es with
  | nil => intro _; rfl
  | cons e rest ih =>
    intro h
    simp only [Game.playerAttackLoop]
    rw [Game.playerAttackBody_none p e (h e (List.mem_cons_self _ _)),
      ih (fun e1 he1 => h e1 (List.mem_cons_of_mem _ he1))]

theorem Game.playerAttackLoop_first (p : Player) (e : Enemy) (post : List Enemy)
    (he : Enemy.aliveWithin 1 p.x p.y e) :
    ∀ pre : List Enemy, (∀ e1 ∈ pre, ¬ Enemy.aliveWithin 1 p.x p.y e1) →
      Game.playerAttackLoop p (pre ++ e :: post) =
        some (if (e.takeDamage p.attack).health = 0 then p.gainExperience e.expValue else p,
          pre ++ e.takeDamage p.attack :: post) := by
  intro pre
  induction pre with
  | nil =>
    intro _
    simp only [List.nil_append, Game.playerAttackLoop]
    rw [Game.playerAttackBody_some p e he]
  | cons e0 rest ih =>
    intro h
    have hrest := ih (fun e1 he1 => h e1 (List.mem_cons_of_mem _ he1))
    rw [List.cons_append, Game.playerAttackLoop,
      Game.playerAttackBody_none p e0 (h e0 (List.mem_cons_self _ _)), hrest]
    rfl

/-- C9: `playerAttack` changes nothing when no enemy is alive within `|dx| ≤ 1`, `|dy| ≤ 1`;
otherwise only the first such enemy in collection order is touched: its health becomes
`max(0, h - max(1, attack - defense))`, and exactly when that is 0 the player gains the
enemy's experience value.  Concretely the hero (attack 15) needs three hits for a fresh
goblin (30 health, defense 2): 17, then 4, then 0 with 25 experience gained, while a dead
goblin and a distant one listed before it and an adjacent one listed after it are left
alone. -/
theorem playerAttack_spec (g : Game) :
    ((∀ e ∈ g.enemies,
        ¬ (e.isAlive = true ∧ |g.player.x - e.x| ≤ 1 ∧ |g.player.y - e.y| ≤ 1)) →
      g.playerAttack = g) ∧
    (∀ (pre : List Enemy) (e : Enemy) (post : List Enemy),
      g.enemies = pre ++ e :: post →
      (∀ e1 ∈ pre,
        ¬ (e1.isAlive = true ∧ |g.player.x - e1.x| ≤ 1 ∧ |g.player.y - e1.y| ≤ 1)) →
      (e.isAlive = true ∧ |g.player.x - e.x| ≤ 1 ∧ |g.player.y - e.y| ≤ 1) →
      (e.takeDamage g.player.attack).health =
        max 0 (e.health - max 1 (g.player.attack - e.defense)) ∧
      g.playerAttack =
        { g with
          player := if (e.takeDamage g.player.attack).health = 0
            then g.player.gainExperience e.expValue else g.player
          enemies := pre ++ e.takeDamage g.player.attack :: post }) ∧
    ((Scenario.meleeGame.enemies.map fun e => e.health) = [0, 30, 30, 30] ∧
      (Scenario.meleeGame.playerAttack.enemies.map fun e => e.health) = [0, 30, 17, 30] ∧
      (Scenario.meleeGame.playerAttack.playerAttack.enemies.map fun e => e.health) =
        [0, 30, 4, 30] ∧
      (Scenario.meleeGame.playerAttack.playerAttack.playerAttack.enemies.map
        fun e => e.health) = [0, 30, 0, 30] ∧
      Scenario.meleeGame.playerAttack.playerAttack.player.experience = 0 ∧
      Scenario.meleeGame.playerAttack.playerAttack.playerAttack.player.experience = 25) := by
  refine ⟨?_, ?_, ?_⟩
  · intro h
    unfold Game.playerAttack
    rw [Game.playerAttackLoop_none g.player g.enemies h]
  · intro pre e post hes hpre he
    refine ⟨(Enemy.takeDamage_health_lt e _ he.1).2, ?_⟩
    unfold Game.playerAttack
    rw [hes, Game.playerAttackLoop_first g.player e post he pre hpre]
  · simp [Game.playerAttack, Game.playerAttackLoop, Game.playerAttackBody,
      Scenario.meleeGame, Player.new, Player.setPosition,
      Entity.setPosition, Entity.mk0, Ability.mk0, Enemy.goblin, Enemy.setPosition,
      Enemy.takeDamage, Entity.takeDamage, Entity.isAlive, Entity.dealDamage, stdAbs,
      Player.gainExperience, Player.levelLoop, Player.levelUp]

/-- Witness for `playerAttack_spec`: in `Scenario.meleeGame` the dead goblin and the goblin
two cells away are passed over, the goblin at (11,10) drops to 17 health, the adjacent
goblin listed after it is not touched and the hero gains nothing. -/
theorem playerAttack_spec_witness :
    Scenario.meleeGame.enemies =
      [{ Enemy.goblin.setPosition 11 10 with health := 0 }, Enemy.goblin.setPosition 12 10] ++
        Enemy.goblin.setPosition 11 10 :: [Enemy.goblin.setPosition 10 11] ∧
    Scenario.meleeGame.playerAttack =
      { Scenario.meleeGame with
        enemies :=
          [{ Enemy.goblin.setPosition 11 10 with health := 0 }, Enemy.goblin.setPosition 12 10] ++
            { Enemy.goblin.setPosition 11 10 with health := 17 } ::
              [Enemy.goblin.setPosition 10 11] } := by
  have h := ((playerAttack_spec Scenario.meleeGame).2.1
    [{ Enemy.goblin.setPosition 11 10 with health := 0 }, Enemy.goblin.setPosition 12 10]
    (Enemy.goblin.setPosition 11 10) [Enemy.goblin.setPosition 10 11] rfl
    (by
      intro e1 he1
      simp only [List.mem_cons, List.mem_singleton, List.not_mem_nil, or_false] at he1
      rcases he1 with rfl | rfl <;> decide)
    (by decide)).2
  exact ⟨rfl, h.trans rfl⟩

/-! ## Enemy AI -/

/-- C15 fails as stated: a fresh Dragon at distance 3 whose 40% roll succeeds (`rand()`
returns 0) breathes on the fresh hero (health 100, defense 5); the hero is left with 80
health, not `100 - 25 = 75`, because the 25 goes through `takeDamage`. -/
theorem dragon_breath_counterexample :
    (Enemy.dragon.aiAction Player.new 3 (fun _ => 0)).event = AiEvent.breath 25 ∧
    Player.new.health = 100 ∧ Player.new.defense = 5 ∧
    (Enemy.dragon.aiAction Player.new 3 (fun _ => 0)).player.health = 80 ∧
    (Enemy.dragon.aiAction Player.new 3 (fun _ => 0)).player.health ≠ max 0 (100 - 25) ∧
    (Enemy.dragon.aiAction Player.new 3 (fun _ => 0)).enemy.kind = EnemyKind.Dragon 3 := by
  decide

/-- C15 (as amended): whenever a Dragon's fire breath triggers (distance at most 3, breath
cooldown 0 after the per-turn decrement, roll below 40), the player receives
`takeDamage(25)`: health becomes `max(0, health - max(1, 25 - defense))`, so the player's
defense does reduce the 25; nothing else of the player changes, the breath cooldown is set
to 3 and the Dragon is otherwise unchanged. -/
theorem dragon_breath (e : Enemy) (cd : Int) (player : Player) (distance : Int) (rng : Rand)
    (hkind : e.kind = EnemyKind.Dragon cd) (hdist : distance ≤ 3)
    (hcd : (if cd > 0 then cd - 1 else cd) = 0) (hroll : (rng 0 : Int) % 100 < 40) :
    (e.aiAction player distance rng).event = AiEvent.breath 25 ∧
    (e.aiAction player distance rng).player =
      { player with health := max 0 (player.health - max 1 (25 - player.defense)) } ∧
    (e.aiAction player distance rng).enemy = { e with kind := EnemyKind.Dragon 3 } := by
  have hp : player.takeDamage 25 =
      { player with health := max 0 (player.health - max 1 (25 - player.defense)) } := by
    have h := Entity.takeDamage_health player.toEntity 25
    simp only [Player.takeDamage, Entity.takeDamage] at h ⊢
    rw [h]
  unfold Enemy.aiAction
  simp only [hkind, hcd, Rand.next]
  rw [if_pos ⟨hdist, trivial⟩, if_pos hroll]
  exact ⟨rfl, hp, rfl⟩

/-- Witness for `dragon_breath`: a Dragon with cooldown 1 breathes on a hero whose defense
is 30 and takes just 1 health. -/
theorem dragon_breath_witness :
    ({ Enemy.dragon with kind := EnemyKind.Dragon 1 } : Enemy).kind = EnemyKind.Dragon 1 ∧
    (Enemy.aiAction { Enemy.dragon with kind := EnemyKind.Dragon 1 }
      { Player.new with defense := 30 } 2 (fun _ => 139)).player.health = 99 := by
  have h := dragon_breath { Enemy.dragon with kind := EnemyKind.Dragon 1 } 1
    { Player.new with defense := 30 } 2 (fun _ => 139) rfl (by decide) (by decide) (by decide)
  refine ⟨rfl, ?_⟩
  rw [h.2.1]
  decide

/-- An `aiAction` call leaves the enemy's entity fields and experience value alone, and the
player is either untouched or received one `takeDamage`. -/
theorem Enemy.aiAction_frame (e : Enemy) (player : Player) (distance : Int) (rng : Rand) :
    (e.aiAction player distance rng).enemy.toEntity = e.toEntity ∧
    (e.aiAction player distance rng).enemy.expValue = e.expValue ∧
    ((e.aiAction player distance rng).player = player ∨
      ∃ d, (e.aiAction player distance rng).player = player.takeDamage d) := by
  unfold Enemy.aiAction
  cases hk : e.kind with
  | Goblin =>
    simp only
    by_cases h1 : distance ≤ 1
    · by_cases h2 : rng.next.1 % 100 < 70
      · rw [if_pos h1, if_pos h2]
        exact ⟨rfl, rfl, Or.inr ⟨_, rfl⟩⟩
      · rw [if_pos h1, if_neg h2]
        exact ⟨rfl, rfl, Or.inl rfl⟩
    · rw [if_neg h1]
      exact ⟨rfl, rfl, Or.inl rfl⟩
  | Orc =>
    simp only
    by_cases h1 : distance ≤ 1
    · by_cases h2 : rng.next.1 % 100 < 60
      · rw [if_pos h1, if_pos h2]
        exact ⟨rfl, rfl, Or.inr ⟨_, rfl⟩⟩
      · rw [if_pos h1, if_neg h2]
        exact ⟨rfl, rfl, Or.inl rfl⟩
    · rw [if_neg h1]
      exact ⟨rfl, rfl, Or.inl rfl⟩
  | Dragon cd =>
    simp only
    generalize (if cd > 0 then cd - 1 else cd) = c
    by_cases h1 : distance ≤ 3 ∧ c = 0
    · by_cases h2 : rng.next.1 % 100 < 40
      · rw [if_pos h1, if_pos h2]
        exact ⟨rfl, rfl, Or.inr ⟨_, rfl⟩⟩
      · by_cases h3 : distance ≤ 1
        · rw [if_pos h1, if_neg h2, if_pos h3]
          exact ⟨rfl, rfl, Or.inr ⟨_, rfl⟩⟩
        · rw [if_pos h1, if_neg h2, if_neg h3]
          exact ⟨rfl, rfl, Or.inl rfl⟩
    · by_cases h3 : distance ≤ 1
      · rw [if_neg h1, if_pos h3]
        exact ⟨rfl, rfl, Or.inr ⟨_, rfl⟩⟩
      · rw [if_neg h1, if_neg h3]
        exact ⟨rfl, rfl, Or.inl rfl⟩

/-- One Dragon call, by cases: either it breathes (possible only with the decremented
cooldown at 0 and distance at most 3; cooldown becomes 3, damage 25), or it claws, or it
does nothing; without a breath the cooldown is the decremented one. -/
theorem Enemy.aiAction_dragon (e : Enemy) (cd : Int) (player : Player) (distance : Int)
    (rng : Rand) (hkind : e.kind = EnemyKind.Dragon cd) :
    ((e.aiAction player distance rng).event = AiEvent.breath 25 ∧
      (if cd > 0 then cd - 1 else cd) = 0 ∧ distance ≤ 3 ∧
      (e.aiAction player distance rng).enemy.kind = EnemyKind.Dragon 3 ∧
      (e.aiAction player distance rng).player = player.takeDamage 25) ∨
    ((e.aiAction player distance rng).event = AiEvent.claw e.attack ∧
      (e.aiAction player distance rng).enemy.kind =
        EnemyKind.Dragon (if cd > 0 then cd - 1 else cd) ∧
      (e.aiAction player distance rng).player = player.takeDamage e.attack) ∨
    ((e.aiAction player distance rng).event = AiEvent.idle ∧
      (e.aiAction player distance rng).enemy.kind =
        EnemyKind.Dragon (if cd > 0 then cd - 1 else cd) ∧
      (e.aiAction player distance rng).player = player) := by
  unfold Enemy.aiAction
  simp only [hkind]
  generalize (if cd > 0 then cd - 1 else cd) = c
  by_cases h1 : distance ≤ 3 ∧ c = 0
  · by_cases h2 : rng.next.1 % 100 < 40
    · rw [if_pos h1, if_pos h2]
      exact Or.inl ⟨rfl, h1.2, h1.1, rfl, rfl⟩
    · by_cases h3 : distance ≤ 1
      · rw [if_pos h1, if_neg h2, if_pos h3]
        exact Or.inr (Or.inl ⟨rfl, rfl, rfl⟩)
      · rw [if_pos h1, if_neg h2, if_neg h3]
        exact Or.inr (Or.inr ⟨rfl, rfl, rfl⟩)
  · by_cases h3 : distance ≤ 1
    · rw [if_neg h1, if_pos h3]
      exact Or.inr (Or.inl ⟨rfl, rfl, rfl⟩)
    · rw [if_neg h1, if_neg h3]
      exact Or.inr (Or.inr ⟨rfl, rfl, rfl⟩)

/-- A Dragon whose cooldown is `c` in `[0,3]`: along any sequence of calls the cooldown
stays in `[0,3]`, the first `c - 1` calls cannot breathe, and no call among the two that
follow a breath breathes. -/
theorem Enemy.aiTrace_dragon (calls : List (Player × Int × Rand)) :
    ∀ (e : Enemy) (c : Int), e.kind = EnemyKind.Dragon c → 0 ≤ c → c ≤ 3 →
      (∀ r ∈ e.aiTrace calls, ∃ cd, r.enemy.kind = EnemyKind.Dragon cd ∧ 0 ≤ cd ∧ cd ≤ 3) ∧
      (∀ (j : Nat) (r : AiResult), (e.aiTrace calls)[j]? = some r → (j : Int) + 1 < c →
        ∀ d, r.event ≠ AiEvent.breath d) ∧
      (∀ (i : Nat) (r : AiResult), (e.aiTrace calls)[i]? = some r →
        (∃ d, r.event = AiEvent.breath d) →
        ∀ (k : Nat) (r1 : AiResult), (k = 1 ∨ k = 2) → (e.aiTrace calls)[i + k]? = some r1 →
          ∀ d, r1.event ≠ AiEvent.breath d) := by
  induction calls with
  | nil =>
    intro e c _ _ _
    simp [Enemy.aiTrace]
  | cons call rest ih =>
    intro e c hk h0 h3
    simp only [Enemy.aiTrace]
    -- the first call
    have hfirst := Enemy.aiAction_dragon e c call.1 call.2.1 call.2.2 hk
    -- the cooldown after it, and what it allows
    obtain ⟨c1, hk1, hc0, hc3, hnb, hb⟩ :
        ∃ c1, (e.aiAction call.1 call.2.1 call.2.2).enemy.kind = EnemyKind.Dragon c1 ∧
          0 ≤ c1 ∧ c1 ≤ 3 ∧
          ((∀ d, (e.aiAction call.1 call.2.1 call.2.2).event ≠ AiEvent.breath d) →
            c1 + 1 ≥ c) ∧
          ((∃ d, (e.aiAction call.1 call.2.1 call.2.2).event = AiEvent.breath d) →
            c1 = 3 ∧ c ≤ 1) := by
      rcases hfirst with ⟨h1, h2, -, h4, -⟩ | ⟨h1, h2, -⟩ | ⟨h1, h2, -⟩
      · refine ⟨3, h4, by omega, by omega, ?_, ?_⟩
        · intro hn; exact absurd h1 (hn 25)
        · intro _
          refine ⟨rfl, ?_⟩
          split at h2 <;> omega
      · refine ⟨_, h2, ?_, ?_, ?_, ?_⟩
        · split <;> omega
        · split <;> omega
        · intro _; split <;> omega
        · rintro ⟨d, hd⟩; rw [h1] at hd; cases hd
      · refine ⟨_, h2, ?_, ?_, ?_, ?_⟩
        · split <;> omega
        · split <;> omega
        · intro _; split <;> omega
        · rintro ⟨d, hd⟩; rw [h1] at hd; cases hd
    obtain ⟨ih1, ih2, ih3⟩ := ih _ c1 hk1 hc0 hc3
    have hfirst_nb : 1 < c → ∀ d, (e.aiAction call.1 call.2.1 call.2.2).event ≠
        AiEvent.breath d := by
      intro hc d hd
      have := (hb ⟨d, hd⟩).2
      omega
    refine ⟨?_, ?_, ?_⟩
    · intro r hr
      rcases List.mem_cons.mp hr with rfl | hr
      · exact ⟨c1, hk1, hc0, hc3⟩
      · exact ih1 r hr
    · intro j r hj hjc
      cases j with
      | zero =>
        simp only [List.getElem?_cons_zero, Option.some.injEq] at hj
        subst hj
        exact hfirst_nb (by omega)
      | succ j =>
        simp only [List.getElem?_cons_succ] at hj
        have hc1 := hnb (hfirst_nb (by omega))
        exact ih2 j r hj (by push_cast at hjc; omega)
    · intro i r hi hbr k r1 hk12 hik
      cases i with
      | zero =>
        simp only [List.getElem?_cons_zero, Option.some.injEq] at hi
        subst hi
        have hc13 := (hb hbr).1
        rcases hk12 with rfl | rfl
        · simp only [zero_add, List.getElem?_cons_succ] at hik
          exact ih2 0 r1 hik (by rw [hc13]; decide)
        · simp only [zero_add, List.getElem?_cons_succ] at hik
          exact ih2 1 r1 hik (by rw [hc13]; decide)
      | succ i =>
        simp only [List.getElem?_cons_succ] at hi
        have hik1 : (Enemy.aiTrace (e.aiAction call.1 call.2.1 call.2.2).enemy rest)[i + k]? =
            some r1 := by
          have : i + 1 + k = (i + k) + 1 := by omega
          rw [this, List.getElem?_cons_succ] at hik
          exact hik
        exact ih3 i r hi hbr k r1 hk12 hik1

/-- C19: along every sequence of `aiAction` calls of a fresh Dragon (any players, distances
and random values) `breathCooldown` stays in `[0,3]`; none of the two calls that follow a
fire breath breathes; and each single call, from any cooldown, either breathes (then the
decremented cooldown was 0, the distance at most 3, and the player received exactly one
`takeDamage(25)`), or claws (exactly one `takeDamage(attack)`), or leaves the player
untouched.  Example: four calls on a fresh Dragon whose rolls all succeed give breath,
nothing, claw, breath. -/
theorem dragon_cooldown (calls : List (Player × Int × Rand)) :
    (∀ r ∈ Enemy.dragon.aiTrace calls,
      ∃ cd, r.enemy.kind = EnemyKind.Dragon cd ∧ 0 ≤ cd ∧ cd ≤ 3) ∧
    (∀ (i : Nat) (r : AiResult), (Enemy.dragon.aiTrace calls)[i]? = some r →
      (∃ d, r.event = AiEvent.breath d) →
      ∀ (k : Nat) (r1 : AiResult), (k = 1 ∨ k = 2) →
        (Enemy.dragon.aiTrace calls)[i + k]? = some r1 → ∀ d, r1.event ≠ AiEvent.breath d) ∧
    (∀ (e : Enemy) (cd : Int) (player : Player) (distance : Int) (rng : Rand),
      e.kind = EnemyKind.Dragon cd →
      ((e.aiAction player distance rng).event = AiEvent.breath 25 ∧
        (if cd > 0 then cd - 1 else cd) = 0 ∧ distance ≤ 3 ∧
        (e.aiAction player distance rng).enemy.kind = EnemyKind.Dragon 3 ∧
        (e.aiAction player distance rng).player = player.takeDamage 25) ∨
      ((e.aiAction player distance rng).event = AiEvent.claw e.attack ∧
        (e.aiAction player distance rng).enemy.kind =
          EnemyKind.Dragon (if cd > 0 then cd - 1 else cd) ∧
        (e.aiAction player distance rng).player = player.takeDamage e.attack) ∨
      ((e.aiAction player distance rng).event = AiEvent.idle ∧
        (e.aiAction player distance rng).enemy.kind =
          EnemyKind.Dragon (if cd > 0 then cd - 1 else cd) ∧
        (e.aiAction player distance rng).player = player)) ∧
    ((Enemy.dragon.aiTrace
        [(Player.new, 3, fun _ => 0), (Player.new, 3, fun _ => 0), (Player.new, 1, fun _ => 0),
          (Player.new, 3, fun _ => 0)]).map fun r => (r.event, r.enemy.kind)) =
      [(AiEvent.breath 25, EnemyKind.Dragon 3), (AiEvent.idle, EnemyKind.Dragon 2),
        (AiEvent.claw 20, EnemyKind.Dragon 1), (AiEvent.breath 25, EnemyKind.Dragon 3)] := by
  obtain ⟨h1, -, h3⟩ := Enemy.aiTrace_dragon calls Enemy.dragon 0 rfl (le_refl _) (by decide)
  exact ⟨h1, h3, fun e cd player distance rng hk =>
    Enemy.aiAction_dragon e cd player distance rng hk, by decide⟩

/-! ## The enemy pass -/

theorem Game.occupied_eq_false_iff (l : List Enemy) (x y : Int) :
    Game.occupied l x y = false ↔
      ∀ (j : Nat) (o : Enemy), l[j]? = some o → o.isAlive = true → ¬ (o.x = x ∧ o.y = y) := by
  unfold Game.occupied
  rw [List.any_eq_false]
  constructor
  · intro h j o hj ha hxy
    have hmem : o ∈ l := List.getElem?_mem hj
    have := h o hmem
    simp [ha, hxy.1, hxy.2] at this
  · intro h o ho
    obtain ⟨j, hj⟩ := List.getElem?_of_mem ho
    by_cases ha : o.isAlive = true
    · have := h j o hj ha
      simp only [ha, Bool.true_and, Bool.and_eq_true, decide_eq_true_eq]
      exact this
    · simp [ha]

/-- Replacing an enemy by one with the same entity fields does not change `occupied`. -/
theorem Game.occupied_set (l : List Enemy) (i : Nat) (e e1 : Enemy) (x y : Int)
    (hget : l[i]? = some e) (h : e1.toEntity = e.toEntity) :
    Game.occupied (l.set i e1) x y = Game.occupied l x y := by
  have hlt : i < l.length := by
    rcases Nat.lt_or_ge i l.length with h | h
    · exact h
    · rw [List.getElem?_eq_none h] at hget; cases hget
  have hA : e1.isAlive = e.isAlive := by simp only [Entity.isAlive, h]
  have hX : e1.x = e.x := by rw [h]
  have hY : e1.y = e.y := by rw [h]
  cases hb : Game.occupied l x y with
  | false =>
    rw [Game.occupied_eq_false_iff] at hb ⊢
    intro j o hj ha hxy
    rw [List.getElem?_set] at hj
    by_cases hij : i = j
    · rw [if_pos hij, if_pos hlt] at hj
      cases hj
      exact hb i e hget (hA ▸ ha) ⟨hX ▸ hxy.1, hY ▸ hxy.2⟩
    · rw [if_neg hij] at hj
      exact hb j o hj ha hxy
  | true =>
    by_contra hne
    have hf : Game.occupied (l.set i e1) x y = false := by
      cases h1 : Game.occupied (l.set i e1) x y
      · rfl
      · exact absurd h1 hne
    have : Game.occupied l x y = false := by
      rw [Game.occupied_eq_false_iff] at hf ⊢
      intro j o hj ha hxy
      by_cases hij : i = j
      · subst hij
        rw [hget] at hj
        cases hj
        exact hf i e1 (by rw [List.getElem?_set, if_pos rfl, if_pos hlt])
          (hA.symm ▸ ha) ⟨hX.symm ▸ hxy.1, hY.symm ▸ hxy.2⟩
      · exact hf j o (by rw [List.getElem?_set, if_neg hij]; exact hj) ha hxy
    rw [this] at hb
    cases hb

/-- One round of the `handleCombat` loop, for the enemy at index `i`: only that enemy is
replaced, it keeps everything but (possibly) its position and its private cooldown, the
player receives at most one `takeDamage`, and the enemy moves only under the conditions
tested by the code. -/
theorem Game.handleCombatBody_step (dungeon : DungeonMap) (s : Game.CombatState) (i : Nat)
    (enemy : Enemy) (hget : s.enemies[i]? = some enemy) :
    ∃ e1 : Enemy,
      (Game.handleCombatBody dungeon s i).enemies = s.enemies.set i e1 ∧
      e1.toEntity = { enemy.toEntity with x := e1.x, y := e1.y } ∧
      e1.expValue = enemy.expValue ∧
      ((Game.handleCombatBody dungeon s i).player = s.player ∨
        ∃ d, (Game.handleCombatBody dungeon s i).player = s.player.takeDamage d) ∧
      (enemy.isAlive = false → e1 = enemy ∧ Game.handleCombatBody dungeon s i = s) ∧
      ((e1.x = enemy.x ∧ e1.y = enemy.y) ∨
        (enemy.isAlive = true ∧
          1 < stdAbs (s.player.x - enemy.x) + stdAbs (s.player.y - enemy.y) ∧
          (e1.x, e1.y) =
            Game.stepToward (s.player.x - enemy.x) (s.player.y - enemy.y) enemy.x enemy.y ∧
          dungeon.isWalkable e1.x e1.y = true ∧
          Game.occupied s.enemies e1.x e1.y = false ∧
          ¬ (e1.x = s.player.x ∧ e1.y = s.player.y))) := by
  have hlt : i < s.enemies.length := by
    rcases Nat.lt_or_ge i s.enemies.length with h | h
    · exact h
    · rw [List.getElem?_eq_none h] at hget; cases hget
  have hself : s.enemies.set i enemy = s.enemies := by
    apply List.ext_getElem?
    intro j
    rw [List.getElem?_set]
    by_cases hij : i = j
    · rw [if_pos hij, if_pos hlt, ← hij, hget]
    · rw [if_neg hij]
  unfold Game.handleCombatBody
  simp only [hget]
  by_cases ha : enemy.isAlive = true
  · -- the enemy acts
    obtain ⟨hE, hV, hP⟩ := Enemy.aiAction_frame enemy s.player
      (stdAbs (s.player.x - enemy.x) + stdAbs (s.player.y - enemy.y)) s.rng
    generalize enemy.aiAction s.player
      (stdAbs (s.player.x - enemy.x) + stdAbs (s.player.y - enemy.y)) s.rng = a at hE hV hP
    have hX : a.enemy.x = enemy.x := by rw [hE]
    have hY : a.enemy.y = enemy.y := by rw [hE]
    have hPx : a.player.x = s.player.x := by
      rcases hP with h | ⟨d, h⟩
      · rw [h]
      · rw [h]; rfl
    have hPy : a.player.y = s.player.y := by
      rcases hP with h | ⟨d, h⟩
      · rw [h]
      · rw [h]; rfl
    have hstay : a.enemy.toEntity = { enemy.toEntity with x := a.enemy.x, y := a.enemy.y } := by
      rw [hE]
    have hna : ¬ (enemy.isAlive = false) := by simp [ha]
    have hnot : ¬ ((!enemy.isAlive) = true) := by simp [ha]
    rw [if_neg hnot]
    by_cases hd : stdAbs (s.player.x - enemy.x) + stdAbs (s.player.y - enemy.y) > 1
    · rw [if_pos hd]
      by_cases hr : a.rng.next.1 % 100 < 70
      · rw [if_pos hr]
        by_cases hw : dungeon.isWalkable
            (Game.stepToward (s.player.x - enemy.x) (s.player.y - enemy.y)
              a.enemy.x a.enemy.y).1
            (Game.stepToward (s.player.x - enemy.x) (s.player.y - enemy.y)
              a.enemy.x a.enemy.y).2 = true
        · rw [if_pos hw]
          by_cases hb : (!Game.occupied (s.enemies.set i a.enemy)
              (Game.stepToward (s.player.x - enemy.x) (s.player.y - enemy.y)
                a.enemy.x a.enemy.y).1
              (Game.stepToward (s.player.x - enemy.x) (s.player.y - enemy.y)
                a.enemy.x a.enemy.y).2) = true ∧
              ¬ ((Game.stepToward (s.player.x - enemy.x) (s.player.y - enemy.y)
                a.enemy.x a.enemy.y).1 = a.player.x ∧
                (Game.stepToward (s.player.x - enemy.x) (s.player.y - enemy.y)
                a.enemy.x a.enemy.y).2 = a.player.y)
          · rw [if_pos hb]
            refine ⟨a.enemy.setPosition _ _, rfl, ?_, hV, hP, fun h => absurd h hna,
              Or.inr ⟨ha, hd, ?_, ?_, ?_, ?_⟩⟩
            · show ({ a.enemy.toEntity with x := _, y := _ } : Entity) = _
              rw [hE]
              rfl
            · show (_, _) = _
              rw [hX, hY]
              rfl
            · exact hw
            · have h1 := hb.1
              rw [Game.occupied_set s.enemies i enemy a.enemy _ _ hget hE] at h1
              simpa using h1
            · have h2 := hb.2
              rw [hPx, hPy] at h2
              exact h2
          · rw [if_neg hb]
            exact ⟨a.enemy, rfl, hstay, hV, hP, fun h => absurd h hna, Or.inl ⟨hX, hY⟩⟩
        · rw [if_neg hw]
          exact ⟨a.enemy, rfl, hstay, hV, hP, fun h => absurd h hna, Or.inl ⟨hX, hY⟩⟩
      · rw [if_neg hr]
        exact ⟨a.enemy, rfl, hstay, hV, hP, fun h => absurd h hna, Or.inl ⟨hX, hY⟩⟩
    · rw [if_neg hd]
      exact ⟨a.enemy, rfl, hstay, hV, hP, fun h => absurd h hna, Or.inl ⟨hX, hY⟩⟩
  · have hf : enemy.isAlive = false := by simpa using ha
    rw [if_pos (by simp [hf])]
    exact ⟨enemy, hself.symm, rfl, rfl, Or.inl rfl, fun _ => ⟨rfl, rfl⟩, Or.inl ⟨rfl, rfl⟩⟩

/-- Replacing enemy `i` by one that kept its cell, or moved to a cell that no alive enemy
occupies and that is not the player's, keeps the collection free of overlaps. -/
theorem Game.NoOverlap_set (p p1 : Player) (l : List Enemy) (i : Nat) (enemy e1 : Enemy)
    (hget : l[i]? = some enemy) (hpx : p1.x = p.x) (hpy : p1.y = p.y)
    (hent : e1.toEntity = { enemy.toEntity with x := e1.x, y := e1.y })
    (hmove : (e1.x = enemy.x ∧ e1.y = enemy.y) ∨
      (Game.occupied l e1.x e1.y = false ∧ ¬ (e1.x = p.x ∧ e1.y = p.y)))
    (h : Game.NoOverlap p l) : Game.NoOverlap p1 (l.set i e1) := by
  have hlt : i < l.length := by
    rcases Nat.lt_or_ge i l.length with h | h
    · exact h
    · rw [List.getElem?_eq_none h] at hget; cases hget
  have hA : e1.isAlive = enemy.isAlive := by
    simp only [Entity.isAlive]
    rw [hent]
  obtain ⟨h1, h2⟩ := h
  -- the new enemy against any other alive enemy of the old collection
  have hnew : ∀ (j : Nat) (b : Enemy), i ≠ j → l[j]? = some b → e1.isAlive = true →
      b.isAlive = true → ¬ (e1.x = b.x ∧ e1.y = b.y) := by
    intro j b hij hb ha1 hab hxy
    rcases hmove with hm | hm
    · exact h1 i j enemy b hij hget hb (hA ▸ ha1) hab ⟨hm.1 ▸ hxy.1, hm.2 ▸ hxy.2⟩
    · exact (Game.occupied_eq_false_iff l e1.x e1.y).mp hm.1 j b hb hab
        ⟨hxy.1.symm, hxy.2.symm⟩
  constructor
  · intro a b x y hab hx hy hxa hya hxy
    rw [List.getElem?_set] at hx hy
    by_cases hia : i = a
    · rw [if_pos hia, if_pos hlt] at hx
      cases hx
      have hib : i ≠ b := fun hb => hab (hia.symm.trans hb)
      rw [if_neg hib] at hy
      exact hnew b y hib hy hxa hya hxy
    · rw [if_neg hia] at hx
      by_cases hib : i = b
      · rw [if_pos hib, if_pos hlt] at hy
        cases hy
        exact hnew a x hia hx hya hxa ⟨hxy.1.symm, hxy.2.symm⟩
      · rw [if_neg hib] at hy
        exact h1 a b x y hab hx hy hxa hya hxy
  · intro a x hx hxa hxy
    rw [hpx, hpy] at hxy
    rw [List.getElem?_set] at hx
    by_cases hia : i = a
    · rw [if_pos hia, if_pos hlt] at hx
      cases hx
      rcases hmove with hm | hm
      · exact h2 i enemy hget (hA ▸ hxa) ⟨hm.1 ▸ hxy.1, hm.2 ▸ hxy.2⟩
      · exact hm.2 hxy
    · rw [if_neg hia] at hx
      exact h2 a x hx hxa hxy

/-- The state of `handleCombat` after its first `n` rounds, compared with the state `s0`
at the start of the pass. -/
theorem Game.handleCombat_fold (dungeon : DungeonMap) (s0 : Game.CombatState) (n : Nat)
    (hn : n ≤ s0.enemies.length) :
    ((List.range n).foldl (Game.handleCombatBody dungeon) s0).enemies.length =
      s0.enemies.length ∧
    (∀ j, n ≤ j →
      ((List.range n).foldl (Game.handleCombatBody dungeon) s0).enemies[j]? =
        s0.enemies[j]?) ∧
    ((List.range n).foldl (Game.handleCombatBody dungeon) s0).player =
      { s0.player with
        health := ((List.range n).foldl (Game.handleCombatBody dungeon) s0).player.health } ∧
    (∀ (j : Nat) (e e1 : Enemy), s0.enemies[j]? = some e →
      ((List.range n).foldl (Game.handleCombatBody dungeon) s0).enemies[j]? = some e1 →
      e1.toEntity = { e.toEntity with x := e1.x, y := e1.y } ∧ e1.expValue = e.expValue ∧
      ((e1.x = e.x ∧ e1.y = e.y) ∨
        (e.isAlive = true ∧
          1 < stdAbs (s0.player.x - e.x) + stdAbs (s0.player.y - e.y) ∧
          (e1.x, e1.y) = Game.stepToward (s0.player.x - e.x) (s0.player.y - e.y) e.x e.y ∧
          dungeon.isWalkable e1.x e1.y = true ∧
          ¬ (e1.x = s0.player.x ∧ e1.y = s0.player.y)))) ∧
    (Game.NoOverlap s0.player s0.enemies →
      Game.NoOverlap ((List.range n).foldl (Game.handleCombatBody dungeon) s0).player
        ((List.range n).foldl (Game.handleCombatBody dungeon) s0).enemies) := by
  induction n with
  | zero =>
    rw [List.range_zero, List.foldl_nil]
    refine ⟨rfl, fun _ _ => rfl, rfl, ?_, fun h => h⟩
    intro j e e1 h0 h1
    rw [h0] at h1
    cases h1
    exact ⟨rfl, rfl, Or.inl ⟨rfl, rfl⟩⟩
  | succ n ih =>
    obtain ⟨iA, iB, iC, iD, iE⟩ := ih (by omega)
    rw [List.range_succ, List.foldl_append]
    simp only [List.foldl_cons, List.foldl_nil]
    generalize (List.range n).foldl (Game.handleCombatBody dungeon) s0 = s at iA iB iC iD iE
    have hlt : n < s0.enemies.length := by omega
    have hget0 : s0.enemies[n]? = some s0.enemies[n] := List.getElem?_eq_getElem hlt
    have hget : s.enemies[n]? = some s0.enemies[n] := by rw [iB n (le_refl _), hget0]
    obtain ⟨e1, s1, s2, s3, s4, -, s6⟩ :=
      Game.handleCombatBody_step dungeon s n s0.enemies[n] hget
    have hpx : s.player.x = s0.player.x := by rw [iC]
    have hpy : s.player.y = s0.player.y := by rw [iC]
    have hp1 : (Game.handleCombatBody dungeon s n).player =
        { s.player with health := (Game.handleCombatBody dungeon s n).player.health } := by
      rcases s4 with h | ⟨d, h⟩
      · rw [h]
      · rw [h]; rfl
    have hp1x : (Game.handleCombatBody dungeon s n).player.x = s.player.x := by rw [hp1]
    have hp1y : (Game.handleCombatBody dungeon s n).player.y = s.player.y := by rw [hp1]
    refine ⟨?_, ?_, ?_, ?_, ?_⟩
    · rw [s1, List.length_set, iA]
    · intro j hj
      rw [s1, List.getElem?_set, if_neg (by omega)]
      exact iB j (by omega)
    · rw [hp1, iC]
    · intro j e e2 h0 h2
      rw [s1, List.getElem?_set] at h2
      by_cases hnj : n = j
      · rw [if_pos hnj, if_pos (by omega)] at h2
        cases h2
        subst hnj
        rw [hget0] at h0
        cases h0
        refine ⟨s2, s3, ?_⟩
        rcases s6 with h | ⟨m1, m2, m3, m4, -, m6⟩
        · exact Or.inl h
        · rw [hpx, hpy] at m2 m3 m6
          exact Or.inr ⟨m1, m2, m3, m4, m6⟩
      · rw [if_neg hnj] at h2
        exact iD j e e2 h0 h2
    · intro h
      rw [s1]
      refine Game.NoOverlap_set s.player _ s.enemies n s0.enemies[n] e1 hget hp1x hp1y s2 ?_
        (iE h)
      rcases s6 with h | ⟨-, -, -, -, m5, m6⟩
      · exact Or.inl h
      · exact Or.inr ⟨m5, m6⟩

/-- Geometry of the tentative step: from Manhattan distance above 1 it lands on a
neighbouring cell, one closer to the player, which is not the player's cell. -/
theorem Game.stepToward_toward (px py ex ey : Int)
    (h : 1 < stdAbs (px - ex) + stdAbs (py - ey)) :
    stdAbs (px - (Game.stepToward (px - ex) (py - ey) ex ey).1) +
        stdAbs (py - (Game.stepToward (px - ex) (py - ey) ex ey).2) =
      stdAbs (px - ex) + stdAbs (py - ey) - 1 ∧
    stdAbs ((Game.stepToward (px - ex) (py - ey) ex ey).1 - ex) +
        stdAbs ((Game.stepToward (px - ex) (py - ey) ex ey).2 - ey) = 1 ∧
    ¬ ((Game.stepToward (px - ex) (py - ey) ex ey).1 = px ∧
      (Game.stepToward (px - ex) (py - ey) ex ey).2 = py) ∧
    (stdAbs (px - ex) ≤ stdAbs (py - ey) → py - ey ≠ 0) := by
  unfold Game.stepToward stdAbs at *
  refine ⟨?_, ?_, ?_, ?_⟩
  · split_ifs at h ⊢ <;> simp only [] <;> omega
  · split_ifs at h ⊢ <;> simp only [] <;> omega
  · split_ifs at h ⊢ <;> simp only [] <;> omega
  · split_ifs at h ⊢ <;> omega

/-- The enemy pass at game level: what `handleCombat` leaves of the player and of each
enemy, and that it keeps the collection free of overlaps. -/
theorem Game.handleCombat_pass (g : Game) (rng : Rand) :
    (g.handleCombat rng).1.player =
      { g.player with health := (g.handleCombat rng).1.player.health } ∧
    (g.handleCombat rng).1.dungeon = g.dungeon ∧
    (g.handleCombat rng).1.enemies.length = g.enemies.length ∧
    (∀ (j : Nat) (e e1 : Enemy), g.enemies[j]? = some e →
      (g.handleCombat rng).1.enemies[j]? = some e1 →
      e1.toEntity = { e.toEntity with x := e1.x, y := e1.y } ∧ e1.expValue = e.expValue ∧
      ((e1.x = e.x ∧ e1.y = e.y) ∨
        (e.isAlive = true ∧
          1 < stdAbs (g.player.x - e.x) + stdAbs (g.player.y - e.y) ∧
          (e1.x, e1.y) = Game.stepToward (g.player.x - e.x) (g.player.y - e.y) e.x e.y ∧
          g.dungeon.isWalkable e1.x e1.y = true ∧
          ¬ (e1.x = g.player.x ∧ e1.y = g.player.y)))) ∧
    (Game.NoOverlap g.player g.enemies →
      Game.NoOverlap (g.handleCombat rng).1.player (g.handleCombat rng).1.enemies) := by
  obtain ⟨h1, -, h3, h4, h5⟩ := Game.handleCombat_fold g.dungeon
    { player := g.player, enemies := g.enemies, rng := rng } g.enemies.length (le_refl _)
  exact ⟨h3, rfl, h1, h4, h5⟩

/-- C17: in a `handleCombat` pass the player's position never changes; an enemy's position
changes only if the enemy is alive and at Manhattan distance above 1 from the player, and
then to a neighbouring cell that is walkable and not the player's cell; if before the pass
no two alive enemies share a cell and none stands on the player's cell, the same holds
after it.  Round by round: the enemy at index `i` moves only to a cell on which, at that
moment, no other alive enemy of the collection stands. -/
theorem handleCombat_positions (g : Game) (rng : Rand) :
    ((g.handleCombat rng).1.player.x = g.player.x ∧
      (g.handleCombat rng).1.player.y = g.player.y) ∧
    (g.handleCombat rng).1.enemies.length = g.enemies.length ∧
    (∀ (j : Nat) (e e1 : Enemy), g.enemies[j]? = some e →
      (g.handleCombat rng).1.enemies[j]? = some e1 →
      (e1.x = e.x ∧ e1.y = e.y) ∨
        (e.isAlive = true ∧ 1 < |g.player.x - e.x| + |g.player.y - e.y| ∧
          |e1.x - e.x| + |e1.y - e.y| = 1 ∧
          g.dungeon.isWalkable e1.x e1.y = true ∧
          ¬ (e1.x = g.player.x ∧ e1.y = g.player.y))) ∧
    (Game.NoOverlap g.player g.enemies →
      Game.NoOverlap (g.handleCombat rng).1.player (g.handleCombat rng).1.enemies) ∧
    (∀ (s : Game.CombatState) (i : Nat) (enemy : Enemy), s.enemies[i]? = some enemy →
      ∃ e1 : Enemy, (Game.handleCombatBody g.dungeon s i).enemies = s.enemies.set i e1 ∧
        ((e1.x = enemy.x ∧ e1.y = enemy.y) ∨
          (enemy.isAlive = true ∧ 1 < |s.player.x - enemy.x| + |s.player.y - enemy.y| ∧
            |e1.x - enemy.x| + |e1.y - enemy.y| = 1 ∧
            g.dungeon.isWalkable e1.x e1.y = true ∧
            (∀ (j : Nat) (other : Enemy), j ≠ i → s.enemies[j]? = some other →
              other.isAlive = true → ¬ (other.x = e1.x ∧ other.y = e1.y)) ∧
            ¬ (e1.x = s.player.x ∧ e1.y = s.player.y)))) := by
  obtain ⟨h1, -, h3, h4, h5⟩ := Game.handleCombat_pass g rng
  refine ⟨⟨by rw [h1], by rw [h1]⟩, h3, ?_, h5, ?_⟩
  · intro j e e1 he he1
    rcases (h4 j e e1 he he1).2.2 with h | ⟨m1, m2, m3, m4, m5⟩
    · exact Or.inl h
    · have hg := Game.stepToward_toward g.player.x g.player.y e.x e.y m2
      rw [← m3] at hg
      simp only [stdAbs_eq_abs] at hg m2
      exact Or.inr ⟨m1, m2, hg.2.1, m4, m5⟩
  · intro s i enemy hget
    obtain ⟨e1, s1, -, -, -, -, s6⟩ := Game.handleCombatBody_step g.dungeon s i enemy hget
    refine ⟨e1, s1, ?_⟩
    rcases s6 with h | ⟨m1, m2, m3, m4, m5, m6⟩
    · exact Or.inl h
    · have hg := Game.stepToward_toward s.player.x s.player.y enemy.x enemy.y m2
      rw [← m3] at hg
      simp only [stdAbs_eq_abs] at hg m2
      refine Or.inr ⟨m1, m2, hg.2.1, m4, ?_, m6⟩
      intro j other _ hj ha
      exact (Game.occupied_eq_false_iff s.enemies e1.x e1.y).mp m5 j other hj ha

/-- Witness for `handleCombat_positions`: in `Scenario.chaseGame` (all `rand()` values 0)
the goblin at (13,10) steps onto (12,10), where only a dead goblin lies, the adjacent
goblin stays at (9,10), and the hero stays at (10,10). -/
theorem handleCombat_positions_witness :
    ((Scenario.chaseGame.handleCombat fun _ => 0).1.enemies.map fun e => (e.x, e.y)) =
      [(12, 10), (12, 10), (9, 10)] ∧
    ((Scenario.chaseGame.handleCombat fun _ => 0).1.player.x,
      (Scenario.chaseGame.handleCombat fun _ => 0).1.player.y) = (10, 10) ∧
    (Scenario.chaseGame.handleCombat fun _ => 0).1.enemies.length = 3 :=
  have h := handleCombat_positions Scenario.chaseGame (fun _ => 0)
  ⟨by decide, by rw [h.1.1, h.1.2]; decide, h.2.1⟩

/-- C20: an enemy whose position changes in a `handleCombat` pass ends one cell closer to
the player in Manhattan distance, and still at distance at least 1.  For offsets with
`|dx| + |dy| > 1` the tentative destination is a cell at distance `|dx| + |dy| - 1 ≥ 1`
from the player, so it is never the player's cell, and when `|dx| ≤ |dy|` the offset `dy`
of the chosen axis is not 0. -/
theorem handleCombat_closer (g : Game) (rng : Rand) :
    (∀ (j : Nat) (e e1 : Enemy), g.enemies[j]? = some e →
      (g.handleCombat rng).1.enemies[j]? = some e1 → ¬ (e1.x = e.x ∧ e1.y = e.y) →
      |(g.handleCombat rng).1.player.x - e1.x| + |(g.handleCombat rng).1.player.y - e1.y| =
        |g.player.x - e.x| + |g.player.y - e.y| - 1 ∧
      1 ≤ |(g.handleCombat rng).1.player.x - e1.x| +
        |(g.handleCombat rng).1.player.y - e1.y|) ∧
    (∀ px py ex ey : Int, 1 < |px - ex| + |py - ey| →
      |px - (Game.stepToward (px - ex) (py - ey) ex ey).1| +
          |py - (Game.stepToward (px - ex) (py - ey) ex ey).2| =
        |px - ex| + |py - ey| - 1 ∧
      ¬ ((Game.stepToward (px - ex) (py - ey) ex ey).1 = px ∧
        (Game.stepToward (px - ex) (py - ey) ex ey).2 = py) ∧
      (|px - ex| ≤ |py - ey| → py - ey ≠ 0)) := by
  obtain ⟨h1, -, -, h4, -⟩ := Game.handleCombat_pass g rng
  constructor
  · intro j e e1 he he1 hmoved
    rcases (h4 j e e1 he he1).2.2 with h | ⟨-, m2, m3, -, -⟩
    · exact absurd h hmoved
    · have hg := Game.stepToward_toward g.player.x g.player.y e.x e.y m2
      rw [← m3] at hg
      simp only [stdAbs_eq_abs] at hg m2
      have hx : (g.handleCombat rng).1.player.x = g.player.x := by rw [h1]
      have hy : (g.handleCombat rng).1.player.y = g.player.y := by rw [h1]
      rw [hx, hy]
      exact ⟨hg.1, by rw [hg.1]; omega⟩
  · intro px py ex ey h
    have h' : 1 < stdAbs (px - ex) + stdAbs (py - ey) := by
      simpa only [stdAbs_eq_abs] using h
    have hg := Game.stepToward_toward px py ex ey h'
    simp only [stdAbs_eq_abs] at hg
    exact ⟨hg.1, hg.2.2.1, hg.2.2.2⟩

/-- Witness for `handleCombat_closer`: the goblin of `Scenario.chaseGame` that moves from
(13,10) to (12,10) goes from distance 3 to distance 2. -/
theorem handleCombat_closer_witness :
    Scenario.chaseGame.enemies[0]? = some (Enemy.goblin.setPosition 13 10) ∧
    (Scenario.chaseGame.handleCombat fun _ => 0).1.enemies[0]? =
      some (Enemy.goblin.setPosition 12 10) ∧
    |(Scenario.chaseGame.handleCombat fun _ => 0).1.player.x -
        (Enemy.goblin.setPosition 12 10).x| +
      |(Scenario.chaseGame.handleCombat fun _ => 0).1.player.y -
        (Enemy.goblin.setPosition 12 10).y| = 3 - 1 :=
  have h := (handleCombat_closer Scenario.chaseGame (fun _ => 0)).1 0
    (Enemy.goblin.setPosition 13 10) (Enemy.goblin.setPosition 12 10) rfl (by decide)
    (by decide)
  ⟨rfl, by decide, h.1⟩

/-- C16 fails as stated: with equal offsets `dx = dy = 2` an enemy at (0,0) tries (0,1),
a step along y, not the step (1,0) along x. -/
theorem step_tie_counterexample :
    stdAbs 2 = stdAbs 2 ∧ Game.stepToward 2 2 0 0 = (0, 1) ∧
    Game.stepToward 2 2 0 0 ≠ (0 + 1, 0) := by
  decide

/-- C16 (as amended): for offsets with `|dx| + |dy| > 1` the tentative destination is one
cell toward the player along x exactly when `|dx| > |dy|`, and one cell toward the player
along y when `|dy| ≥ |dx|`; a tie `|dx| = |dy|` is broken toward y.  An enemy that changes
position in a `handleCombat` pass stands on that destination, computed from its offsets
`dx = playerX - enemyX`, `dy = playerY - enemyY`. -/
theorem stepToward_axis (dx dy x y : Int) (hdist : 1 < |dx| + |dy|) :
    (|dy| < |dx| → Game.stepToward dx dy x y = (x + Int.sign dx, y)) ∧
    (|dx| ≤ |dy| → Game.stepToward dx dy x y = (x, y + Int.sign dy)) ∧
    (|dx| = |dy| → Game.stepToward dx dy x y = (x, y + Int.sign dy)) ∧
    (∀ (g : Game) (rng : Rand) (j : Nat) (e e1 : Enemy), g.enemies[j]? = some e →
      (g.handleCombat rng).1.enemies[j]? = some e1 → ¬ (e1.x = e.x ∧ e1.y = e.y) →
      (e1.x, e1.y) = Game.stepToward (g.player.x - e.x) (g.player.y - e.y) e.x e.y) := by
  have hpass : ∀ (g : Game) (rng : Rand) (j : Nat) (e e1 : Enemy), g.enemies[j]? = some e →
      (g.handleCombat rng).1.enemies[j]? = some e1 → ¬ (e1.x = e.x ∧ e1.y = e.y) →
      (e1.x, e1.y) = Game.stepToward (g.player.x - e.x) (g.player.y - e.y) e.x e.y := by
    intro g rng j e e1 he he1 hmoved
    rcases ((Game.handleCombat_pass g rng).2.2.2.1 j e e1 he he1).2.2 with h | h
    · exact absurd h hmoved
    · exact h.2.2.1
  have key : |dx| ≤ |dy| → Game.stepToward dx dy x y = (x, y + Int.sign dy) := by
    intro h
    unfold Game.stepToward
    rw [stdAbs_eq_abs, stdAbs_eq_abs, if_neg (by omega)]
    have hne : dy ≠ 0 := by
      intro h0
      rw [h0, abs_zero] at h hdist
      have := abs_nonneg dx
      omega
    rcases lt_or_gt_of_ne hne with hlt | hgt
    · rw [if_neg (by omega), Int.sign_eq_neg_one_of_neg hlt]
    · rw [if_pos hgt, Int.sign_eq_one_of_pos hgt]
  refine ⟨?_, key, fun h => key (le_of_eq h), hpass⟩
  intro h
  unfold Game.stepToward
  rw [stdAbs_eq_abs, stdAbs_eq_abs, if_pos h]
  have hne : dx ≠ 0 := by
    intro h0
    rw [h0, abs_zero] at h
    have := abs_nonneg dy
    omega
  rcases lt_or_gt_of_ne hne with hlt | hgt
  · rw [if_neg (by omega), Int.sign_eq_neg_one_of_neg hlt]
  · rw [if_pos hgt, Int.sign_eq_one_of_pos hgt]

/-- Witness for `stepToward_axis`: the tie `dx = dy = 2` steps along y. -/
theorem stepToward_axis_witness :
    (1 : Int) < |2| + |2| ∧ Game.stepToward 2 2 0 0 = (0, 0 + Int.sign 2) :=
  ⟨by decide, (stepToward_axis 2 2 0 0 (by decide)).2.2.1 rfl⟩

/-! ## Player movement -/

/-- The end of a turn does not move the player. -/
theorem Game.endOfTurn_position (g : Game) (rng : Rand) :
    (g.endOfTurn rng).1.player.x = g.player.x ∧ (g.endOfTurn rng).1.player.y = g.player.y := by
  obtain ⟨h1, -⟩ :=
    Game.handleCombat_pass ({ g with player := g.player.update } : Game) rng
  have hx : (Game.handleCombat ({ g with player := g.player.update } : Game) rng).1.player.x =
      g.player.x := by rw [h1]; rfl
  have hy : (Game.handleCombat ({ g with player := g.player.update } : Game) rng).1.player.y =
      g.player.y := by rw [h1]; rfl
  unfold Game.endOfTurn
  simp only []
  split
  · exact ⟨hx, hy⟩
  · exact ⟨hx, hy⟩

/-- The `if (playerMoved)` block: the player is placed on the tentative cell exactly when
the cell is walkable and no alive enemy stands on it; nothing else changes. -/
theorem Game.movePlayer_eq (g : Game) (nx ny : Int) :
    ((g.dungeon.isWalkable nx ny = true ∧
        ∀ e ∈ g.enemies, e.isAlive = true → ¬ (e.x = nx ∧ e.y = ny)) →
      g.movePlayer nx ny = { g with player := g.player.setPosition nx ny }) ∧
    (¬ (g.dungeon.isWalkable nx ny = true ∧
        ∀ e ∈ g.enemies, e.isAlive = true → ¬ (e.x = nx ∧ e.y = ny)) →
      g.movePlayer nx ny = g) := by
  have hocc : Game.occupied g.enemies nx ny = false ↔
      ∀ e ∈ g.enemies, e.isAlive = true → ¬ (e.x = nx ∧ e.y = ny) := by
    rw [Game.occupied_eq_false_iff]
    constructor
    · intro h e he
      obtain ⟨j, hj⟩ := List.getElem?_of_mem he
      exact h j e hj
    · intro h j o hj
      exact h o (List.getElem?_mem hj)
  unfold Game.movePlayer
  constructor
  · rintro ⟨hw, hfree⟩
    rw [if_pos hw]
    simp only [hocc.mpr hfree, Bool.not_false, if_true]
  · intro hn
    by_cases hw : g.dungeon.isWalkable nx ny = true
    · rw [if_pos hw]
      have hb : Game.occupied g.enemies nx ny = true := by
        cases hb : Game.occupied g.enemies nx ny
        · exact absurd ⟨hw, hocc.mp hb⟩ hn
        · rfl
      simp only [hb, Bool.not_true, Bool.false_eq_true, if_false]
    · rw [if_neg hw]

/-- C13: a movement command `w`, `s`, `a` or `d` with tentative destination `(nx, ny)`,
read in a round in which some enemy is alive, is consumed, and after the round the player
stands on `(nx, ny)` if and only if `isWalkable(nx, ny)` holds and no alive enemy stands
on `(nx, ny)`; otherwise the player's position is unchanged.  Dead enemies do not block. -/
theorem move_command (fuel : Nat) (g : Game) (c : Char) (rest : List Char) (rng : Rand)
    (nx ny : Int) (halive : g.enemies.all (fun enemy => !enemy.isAlive) = false)
    (hc : (c = 'w' ∧ nx = g.player.x ∧ ny = g.player.y - 1) ∨
      (c = 's' ∧ nx = g.player.x ∧ ny = g.player.y + 1) ∨
      (c = 'a' ∧ nx = g.player.x - 1 ∧ ny = g.player.y) ∨
      (c = 'd' ∧ nx = g.player.x + 1 ∧ ny = g.player.y)) :
    ∃ (g1 : Game) (rng1 : Rand), g.iteration fuel (c :: rest) rng = some (g1, rest, rng1) ∧
      ((g1.player.x = nx ∧ g1.player.y = ny) ↔
        (g.dungeon.isWalkable nx ny = true ∧
          ∀ e ∈ g.enemies, e.isAlive = true → ¬ (e.x = nx ∧ e.y = ny))) ∧
      (¬ (g.dungeon.isWalkable nx ny = true ∧
          ∀ e ∈ g.enemies, e.isAlive = true → ¬ (e.x = nx ∧ e.y = ny)) →
        g1.player.x = g.player.x ∧ g1.player.y = g.player.y) := by
  have hiter : g.iteration fuel (c :: rest) rng =
      some (((g.movePlayer nx ny).endOfTurn rng).1, rest,
        ((g.movePlayer nx ny).endOfTurn rng).2) := by
    unfold Game.iteration
    rw [if_neg (by rw [halive]; decide)]
    rcases hc with ⟨rfl, rfl, rfl⟩ | ⟨rfl, rfl, rfl⟩ | ⟨rfl, rfl, rfl⟩ | ⟨rfl, rfl, rfl⟩
    · rfl
    · rfl
    · rfl
    · rfl
  have hne : ¬ (g.player.x = nx ∧ g.player.y = ny) := by
    rcases hc with ⟨-, h1, h2⟩ | ⟨-, h1, h2⟩ | ⟨-, h1, h2⟩ | ⟨-, h1, h2⟩ <;> omega
  obtain ⟨hx, hy⟩ := Game.endOfTurn_position (g.movePlayer nx ny) rng
  obtain ⟨hm1, hm2⟩ := Game.movePlayer_eq g nx ny
  refine ⟨_, _, hiter, ?_, ?_⟩
  · rw [hx, hy]
    by_cases hcond : g.dungeon.isWalkable nx ny = true ∧
        ∀ e ∈ g.enemies, e.isAlive = true → ¬ (e.x = nx ∧ e.y = ny)
    · rw [hm1 hcond]
      exact ⟨fun _ => hcond, fun _ => ⟨rfl, rfl⟩⟩
    · rw [hm2 hcond]
      exact ⟨fun h => absurd h hne, fun h => absurd h hcond⟩
  · intro hcond
    rw [hx, hy, hm2 hcond]
    exact ⟨rfl, rfl⟩

/-- Witness for `move_command`: in `Scenario.chaseGame` the command `d` puts the hero on
the free floor cell (11,10). -/
theorem move_command_witness :
    Scenario.chaseGame.enemies.all (fun enemy => !enemy.isAlive) = false ∧
    ∃ (g1 : Game) (rng1 : Rand),
      Scenario.chaseGame.iteration 0 ['d', 'q'] (fun _ => 0) = some (g1, ['q'], rng1) ∧
      g1.player.x = 11 ∧ g1.player.y = 10 := by
  obtain ⟨g1, rng1, h1, h2, -⟩ := move_command 0 Scenario.chaseGame 'd' ['q'] (fun _ => 0)
    11 10 (by decide) (Or.inr (Or.inr (Or.inr ⟨rfl, by decide, by decide⟩)))
  exact ⟨by decide, g1, rng1, h1, h2.mpr ⟨by decide, by decide⟩⟩

/-! ## Cleave damage -/

theorem Game.forEnemies_append {σ : Type} (body : σ → Enemy → σ × Enemy) :
    ∀ (pre : List Enemy) (s : σ) (e : Enemy) (post : List Enemy),
      Game.forEnemies body s (pre ++ e :: post) =
        ((Game.forEnemies body (body (Game.forEnemies body s pre).1 e).1 post).1,
          (Game.forEnemies body s pre).2 ++
            (body (Game.forEnemies body s pre).1 e).2 ::
              (Game.forEnemies body (body (Game.forEnemies body s pre).1 e).1 post).2) := by
  intro pre
  induction pre with
  | nil => intro s e post; rfl
  | cons e0 rest ih =>
    intro s e post
    have h := ih (body s e0).1 e post
    rw [List.cons_append, Game.forEnemies, h]
    rfl

theorem Game.forEnemies_length {σ : Type} (body : σ → Enemy → σ × Enemy) :
    ∀ (es : List Enemy) (s : σ), (Game.forEnemies body s es).2.length = es.length := by
  intro es
  induction es with
  | nil => intro s; rfl
  | cons e rest ih =>
    intro s
    simp only [Game.forEnemies, List.length_cons, ih]

/-- An experience gain raises attack by 3 for each level gained. -/
theorem Player.gainExperience_attack (p : Player) (e : Int) :
    ∃ n : Nat, (p.gainExperience e).level = p.level + n ∧
      (p.gainExperience e).attack = p.attack + 3 * n := by
  obtain ⟨n, h1, -, -, -, -, h6, -⟩ :=
    Player.levelLoop_rounds { p with experience := p.experience + e }
  exact ⟨n, h1, h6⟩

/-- Through the Cleave loop the player's attack is the initial one plus 3 per level gained,
and the position is kept. -/
theorem Game.cleave_loop_attack :
    ∀ (es : List Enemy) (s : Player × Int),
      ∃ n : Nat, (Game.forEnemies Game.cleaveBody s es).1.1.level = s.1.level + n ∧
        (Game.forEnemies Game.cleaveBody s es).1.1.attack = s.1.attack + 3 * n ∧
        ((∀ e ∈ es, ¬ Enemy.aliveWithin 2 s.1.x s.1.y e) → n = 0) := by
  intro es
  induction es with
  | nil => intro s; exact ⟨0, by simp [Game.forEnemies], by simp [Game.forEnemies], fun _ => rfl⟩
  | cons e rest ih =>
    intro s
    simp only [Game.forEnemies]
    obtain ⟨b1, -, -, b4, b5⟩ := Game.cleaveBody_step s e
    obtain ⟨n2, i1, i2, i3⟩ := ih (Game.cleaveBody s e).1
    -- the round for `e`
    obtain ⟨n1, j1, j2, j3⟩ : ∃ n1 : Nat,
        (Game.cleaveBody s e).1.1.level = s.1.level + n1 ∧
        (Game.cleaveBody s e).1.1.attack = s.1.attack + 3 * n1 ∧
        (¬ Enemy.aliveWithin 2 s.1.x s.1.y e → n1 = 0) := by
      unfold Game.cleaveBody Enemy.aliveWithin
      simp only [stdAbs_eq_abs]
      by_cases ha : e.isAlive = true
      · by_cases hr : |s.1.x - e.x| ≤ 2 ∧ |s.1.y - e.y| ≤ 2
        · by_cases hd : (e.takeDamage (s.1.attack * 2)).isAlive = true
          · exact ⟨0, by simp [ha, hr, hd], by simp [ha, hr, hd], fun _ => rfl⟩
          · obtain ⟨n, g1, g2⟩ :=
              Player.gainExperience_attack s.1 (e.takeDamage (s.1.attack * 2)).expValue
            refine ⟨n, by simpa [ha, hr, hd] using g1, by simpa [ha, hr, hd] using g2, ?_⟩
            intro hn
            exact absurd ⟨ha, hr.1, hr.2⟩ hn
        · exact ⟨0, by simp [ha, hr], by simp [ha, hr], fun _ => rfl⟩
      · exact ⟨0, by simp [ha], by simp [ha], fun _ => rfl⟩
    refine ⟨n1 + n2, ?_, ?_, ?_⟩
    · rw [i1, j1]; push_cast; ring
    · rw [i2, j2]; push_cast; ring
    · intro hnone
      have h1 := j3 (hnone e (List.mem_cons_self _ _))
      have hx : (Game.cleaveBody s e).1.1.x = s.1.x := b1.2.1
      have hy : (Game.cleaveBody s e).1.1.y = s.1.y := b1.2.2.1
      have h2 := i3 (by
        intro e1 he1
        rw [hx, hy]
        exact hnone e1 (List.mem_cons_of_mem _ he1))
      omega

/-- C18 fails as stated: the hero (attack 15, 80 experience) cleaves a goblin at 4 health
and then a fresh goblin (30 health, defense 2).  The first kill raises the level and the
attack to 18, so the second goblin receives `takeDamage(36)` and drops to 0, not to
`max(0, 30 - max(1, 2*15 - 2)) = 2`. -/
theorem cleave_damage_counterexample :
    Scenario.cleaveLevelGame.player.attack = 15 ∧
    (Scenario.cleaveLevelGame.enemies.map fun e => (e.isAlive, e.health, e.defense)) =
      [(true, 4, 2), (true, 30, 2)] ∧
    ((Scenario.cleaveLevelGame.useAbility 0).1.enemies.map fun e => e.health) = [0, 0] ∧
    (max 0 (30 - max 1 (2 * 15 - 2)) : Int) = 2 ∧
    (Scenario.cleaveLevelGame.useAbility 0).1.player.attack = 18 := by
  refine ⟨rfl, by decide, ?_, by decide, ?_⟩
  · simp [Game.useAbility, Scenario.cleaveLevelGame, Player.new, Player.setPosition,
      Entity.setPosition, Entity.mk0, Ability.mk0, Ability.isReady, Ability.use,
      Player.useMana, Game.forEnemies, Game.cleaveBody, Enemy.goblin, Enemy.setPosition,
      Enemy.takeDamage, Entity.takeDamage, Entity.isAlive, stdAbs, Player.gainExperience,
      Player.levelLoop, Player.levelUp]
  · simp [Game.useAbility, Scenario.cleaveLevelGame, Player.new, Player.setPosition,
      Entity.setPosition, Entity.mk0, Ability.mk0, Ability.isReady, Ability.use,
      Player.useMana, Game.forEnemies, Game.cleaveBody, Enemy.goblin, Enemy.setPosition,
      Enemy.takeDamage, Entity.takeDamage, Entity.isAlive, stdAbs, Player.gainExperience,
      Player.levelLoop, Player.levelUp]

/-- The Cleave loop run by player `p1` over `pre ++ e :: post`, for an enemy `e` that is
alive and in range: the levels `n` gained over `pre`, the damage `e` receives and the
levels gained afterwards. -/
theorem Game.cleave_target (p1 : Player) (pre : List Enemy) (e : Enemy) (post : List Enemy)
    (hin : Enemy.aliveWithin 2 p1.x p1.y e) :
    ∃ n : Nat,
      (Game.forEnemies Game.cleaveBody (p1, 0) pre).1.1.level = p1.level + n ∧
      (Game.forEnemies Game.cleaveBody (p1, 0) pre).1.1.attack = p1.attack + 3 * n ∧
      (Game.forEnemies Game.cleaveBody (p1, 0) (pre ++ e :: post)).2[pre.length]? =
        some (e.takeDamage (2 * (p1.attack + 3 * n))) ∧
      p1.level + n ≤ (Game.forEnemies Game.cleaveBody (p1, 0) (pre ++ e :: post)).1.1.level ∧
      ((∀ e1 ∈ pre, ¬ Enemy.aliveWithin 2 p1.x p1.y e1) → n = 0) := by
  -- the loop over `pre`
  obtain ⟨n, k1, k2, k3⟩ := Game.cleave_loop_attack pre (p1, 0)
  obtain ⟨gf, -, -⟩ := Game.cleave_loop p1 pre (p1, 0) (Player.GainedFrom.refl _)
  -- the round for `e`
  obtain ⟨-, -, -, b4, -⟩ :=
    Game.cleaveBody_step (Game.forEnemies Game.cleaveBody (p1, 0) pre).1 e
  have hw : Enemy.aliveWithin 2 (Game.forEnemies Game.cleaveBody (p1, 0) pre).1.1.x
      (Game.forEnemies Game.cleaveBody (p1, 0) pre).1.1.y e := by
    rw [gf.2.1, gf.2.2.1]
    exact hin
  have hb := b4 hw
  -- levels only grow in the rest of the loop
  obtain ⟨n1, m1, -, -⟩ :=
    Game.cleave_loop_attack [e] (Game.forEnemies Game.cleaveBody (p1, 0) pre).1
  obtain ⟨n2, m2, -, -⟩ := Game.cleave_loop_attack post
    (Game.cleaveBody (Game.forEnemies Game.cleaveBody (p1, 0) pre).1 e).1
  simp only [Game.forEnemies] at m1
  have hdmg : (Game.forEnemies Game.cleaveBody (p1, 0) pre).1.1.attack * 2 =
      2 * (p1.attack + 3 * n) := by
    rw [k2]; ring
  have hfinal : (Game.forEnemies Game.cleaveBody (p1, 0) (pre ++ e :: post)).1.1.level =
      p1.level + n + n1 + n2 := by
    rw [Game.forEnemies_append]
    show (Game.forEnemies Game.cleaveBody _ post).1.1.level = _
    rw [m2, m1, k1]
  refine ⟨n, k1, k2, ?_, ?_, k3⟩
  · rw [Game.forEnemies_append]
    have hlen : (Game.forEnemies Game.cleaveBody (p1, 0) pre).2.length = pre.length :=
      Game.forEnemies_length _ pre _
    show ((Game.forEnemies Game.cleaveBody (p1, 0) pre).2 ++ _ :: _)[pre.length]? = _
    rw [List.getElem?_append_right (by omega), hlen, Nat.sub_self,
      List.getElem?_cons_zero, hb, hdmg]
  · rw [hfinal]
    omega

/-- C18 (as amended): in a successful Cleave by a player whose attack is `A` and whose
level is `L` at invocation, an enemy `e` that is alive and within Chebyshev distance 2
receives `takeDamage(2 * (A + 3 * n))`, so that its health becomes
`max(0, h - max(1, 2 * (A + 3 * n) - defense))`, where `n` is the number of levels the
player gained from kills made earlier in the same Cleave: the same Cleave over only the
enemies standing before `e` in the collection ends at level `L + n` with attack
`A + 3 * n`, which is the attack read when `e` is reached.  `n` is 0, and the damage
`2 * A`, when no enemy before `e` is alive and in range, and whenever the Cleave as a whole
does not raise the player's level. -/
theorem cleave_damage (g : Game) (i : Nat) (a : Ability)
    (hget : g.player.abilities[i]? = some a) (htype : a.type = AbilityType.CLEAVE)
    (hready : a.currentCooldown = 0) (hmana : a.manaCost ≤ g.player.mana)
    (pre : List Enemy) (e : Enemy) (post : List Enemy) (hes : g.enemies = pre ++ e :: post)
    (hin : e.isAlive = true ∧ |g.player.x - e.x| ≤ 2 ∧ |g.player.y - e.y| ≤ 2) :
    ∃ n : Nat,
      (Game.useAbility { g with enemies := pre } i).1.player.level = g.player.level + n ∧
      (Game.useAbility { g with enemies := pre } i).1.player.attack =
        g.player.attack + 3 * n ∧
      (g.useAbility i).1.enemies[pre.length]? =
        some (e.takeDamage (2 * (Game.useAbility { g with enemies := pre } i).1.player.attack)) ∧
      (g.useAbility i).1.enemies[pre.length]? =
        some (e.takeDamage (2 * (g.player.attack + 3 * n))) ∧
      (e.takeDamage (2 * (g.player.attack + 3 * n))).health =
        max 0 (e.health - max 1 (2 * (g.player.attack + 3 * n) - e.defense)) ∧
      g.player.level + n ≤ (g.useAbility i).1.player.level ∧
      ((g.useAbility i).1.player.level = g.player.level → n = 0) ∧
      ((∀ e1 ∈ pre,
          ¬ (e1.isAlive = true ∧ |g.player.x - e1.x| ≤ 2 ∧ |g.player.y - e1.y| ≤ 2)) →
        n = 0) := by
  have hu := Game.useAbility_ready g i a hget hready hmana
  have hpre := Game.useAbility_ready { g with enemies := pre } i a hget hready hmana
  simp only [htype] at hu hpre
  obtain ⟨n, t0, t0a, t1, t2, t3⟩ := Game.cleave_target
    { g.player with mana := g.player.mana - a.manaCost,
                    abilities := g.player.abilities.set i a.use }
    pre e post hin
  have t2' : g.player.level + (n : Int) ≤
      (Game.forEnemies Game.cleaveBody
        ({ g.player with mana := g.player.mana - a.manaCost,
                         abilities := g.player.abilities.set i a.use }, 0)
        (pre ++ e :: post)).1.1.level := t2
  have hlev : (Game.useAbility { g with enemies := pre } i).1.player.level =
      g.player.level + n := by
    rw [hpre]
    exact t0
  have hatk : (Game.useAbility { g with enemies := pre } i).1.player.attack =
      g.player.attack + 3 * n := by
    rw [hpre]
    exact t0a
  have hdmg : (g.useAbility i).1.enemies[pre.length]? =
      some (e.takeDamage (2 * (g.player.attack + 3 * n))) := by
    rw [hu, hes]
    exact t1
  refine ⟨n, hlev, hatk, ?_, hdmg, (Enemy.takeDamage_health_lt e _ hin.1).2, ?_, ?_, t3⟩
  · rw [hatk]
    exact hdmg
  · rw [hu, hes]
    exact t2'
  · intro hl
    rw [hu, hes] at hl
    have hl' : (Game.forEnemies Game.cleaveBody
        ({ g.player with mana := g.player.mana - a.manaCost,
                         abilities := g.player.abilities.set i a.use }, 0)
        (pre ++ e :: post)).1.1.level = g.player.level := hl
    rw [hl'] at t2'
    omega

/-- Witness for `cleave_damage`: in `Scenario.cleaveLevelGame` the fresh goblin is second in
the collection; the kill of the first goblin raises the hero to level 2 (`n = 1`), so the
second one receives `takeDamage(2 * (15 + 3))` and is left with 0 health. -/
theorem cleave_damage_witness :
    Scenario.cleaveLevelGame.enemies =
      [{ Enemy.goblin.setPosition 11 10 with health := 4 }] ++
        Enemy.goblin.setPosition 10 11 :: [] ∧
    Scenario.cleaveLevelGame.player.attack = 15 ∧
    (Scenario.cleaveLevelGame.useAbility 0).1.enemies[1]? =
      some ((Enemy.goblin.setPosition 10 11).takeDamage (2 * (15 + 3 * 1))) ∧
    ((Enemy.goblin.setPosition 10 11).takeDamage (2 * (15 + 3 * 1))).health = 0 := by
  obtain ⟨n, h1, -, -, h4, -⟩ := cleave_damage Scenario.cleaveLevelGame 0
    (Ability.mk0 "Cleave" AbilityType.CLEAVE 3 15) rfl rfl rfl (by decide)
    [{ Enemy.goblin.setPosition 11 10 with health := 4 }] (Enemy.goblin.setPosition 10 11) []
    rfl (by decide)
  have hlevel : (Game.useAbility
      { Scenario.cleaveLevelGame with
        enemies := [{ Enemy.goblin.setPosition 11 10 with health := 4 }] } 0).1.player.level =
      2 := by
    simp [Game.useAbility, Scenario.cleaveLevelGame, Player.new, Player.setPosition,
      Entity.setPosition, Entity.mk0, Ability.mk0, Ability.isReady, Ability.use,
      Player.useMana, Game.forEnemies, Game.cleaveBody, Enemy.goblin, Enemy.setPosition,
      Enemy.takeDamage, Entity.takeDamage, Entity.isAlive, stdAbs, Player.gainExperience,
      Player.levelLoop, Player.levelUp]
  have hn : n = 1 := by
    have h1' : (2 : Int) = 1 + (n : Int) := hlevel.symm.trans h1
    omega
  subst hn
  exact ⟨rfl, rfl, h4, by decide⟩

/-! ## Loops that write tiles -/

/-- A counted loop whose rounds all succeed and keep an invariant succeeds and ends in the
invariant. -/
theorem forLoop_spec {σ : Type} (body : Int → σ → Option σ) (I : Int → σ → Prop) :
    ∀ (n : Nat) (lo : Int) (s : σ), I lo s →
      (∀ i t, lo ≤ i → i < lo + n → I i t → ∃ t1, body i t = some t1 ∧ I (i + 1) t1) →
      ∃ s1, forLoop body n lo s = some s1 ∧ I (lo + n) s1 := by
  intro n
  induction n with
  | zero =>
    intro lo s h0 _
    exact ⟨s, rfl, by simpa using h0⟩
  | succ n ih =>
    intro lo s h0 hstep
    obtain ⟨t1, hb, hI⟩ := hstep lo s (le_refl _) (by push_cast; omega) h0
    obtain ⟨s1, hs1, hI1⟩ := ih (lo + 1) t1 hI (by
      intro i t hi1 hi2 hIt
      exact hstep i t (by omega) (by push_cast; omega) hIt)
    refine ⟨s1, ?_, ?_⟩
    · simp only [forLoop, hb]
      exact hs1
    · have : lo + ((n + 1 : Nat) : Int) = lo + 1 + n := by push_cast; ring
      rw [this]
      exact hI1

theorem forRange_spec {σ : Type} (lo hi : Int) (hle : lo ≤ hi) (body : Int → σ → Option σ)
    (I : Int → σ → Prop) (s : σ) (h0 : I lo s)
    (hstep : ∀ i t, lo ≤ i → i < hi → I i t → ∃ t1, body i t = some t1 ∧ I (i + 1) t1) :
    ∃ s1, forRange lo hi body s = some s1 ∧ I hi s1 := by
  have hn : lo + ((hi - lo).toNat : Int) = hi := by omega
  obtain ⟨s1, h1, h2⟩ := forLoop_spec body I (hi - lo).toNat lo s h0 (by
    intro i t hi1 hi2 hIt
    exact hstep i t hi1 (by omega) hIt)
  rw [hn] at h2
  exact ⟨s1, h1, h2⟩

theorem Painted.refl_of_empty (P : Int → Int → Prop) (c : Char) (t : Nat → Nat → Char)
    (h : ∀ r k, ¬ P r k) : Painted P c t t :=
  fun i j => ⟨fun hp => absurd hp (h i j), fun _ => rfl⟩

theorem Painted.comp {P Q : Int → Int → Prop} {c : Char} {t t1 t2 : Nat → Nat → Char}
    (h1 : Painted P c t t1) (h2 : Painted Q c t1 t2) :
    Painted (fun r k => P r k ∨ Q r k) c t t2 := by
  intro i j
  constructor
  · intro h
    by_cases hq : Q i j
    · exact (h2 i j).1 hq
    · rw [(h2 i j).2 hq]
      rcases h with h | h
      · exact (h1 i j).1 h
      · exact absurd h hq
  · intro h
    have hp : ¬ P i j := fun hp => h (Or.inl hp)
    have hq : ¬ Q i j := fun hq => h (Or.inr hq)
    rw [(h2 i j).2 hq, (h1 i j).2 hp]

theorem Painted.congr {P Q : Int → Int → Prop} {c : Char} {t t1 : Nat → Nat → Char}
    (h : Painted P c t t1) (hPQ : ∀ r k, P r k ↔ Q r k) : Painted Q c t t1 :=
  fun i j => ⟨fun hq => (h i j).1 ((hPQ i j).mpr hq),
    fun hq => (h i j).2 (fun hp => hq ((hPQ i j).mp hp))⟩

/-- One in-bounds tile assignment. -/
theorem setTile_spec (t : Nat → Nat → Char) (row col : Int) (c : Char)
    (hr : 0 ≤ row ∧ row < HEIGHT) (hc : 0 ≤ col ∧ col < WIDTH) :
    ∃ t1, setTile t row col c = some t1 ∧ Painted (fun r k => r = row ∧ k = col) c t t1 := by
  unfold setTile
  rw [if_pos ⟨hr.1, hr.2, hc.1, hc.2⟩]
  refine ⟨_, rfl, ?_⟩
  intro i j
  have hi : (i = row.toNat) ↔ ((i : Int) = row) := by omega
  have hj : (j = col.toNat) ↔ ((j : Int) = col) := by omega
  constructor
  · intro h
    simp only []
    rw [if_pos ⟨hi.mpr h.1, hj.mpr h.2⟩]
  · intro h
    simp only []
    rw [if_neg (fun hh => h ⟨hi.mp hh.1, hj.mp hh.2⟩)]

/-- A loop whose round `i` paints the cells `P i` paints their union. -/
theorem forRange_paint (lo hi : Int) (hle : lo ≤ hi)
    (body : Int → (Nat → Nat → Char) → Option (Nat → Nat → Char)) (c : Char)
    (P : Int → Int → Int → Prop)
    (hbody : ∀ i t, lo ≤ i → i < hi → ∃ t1, body i t = some t1 ∧ Painted (P i) c t t1)
    (t : Nat → Nat → Char) :
    ∃ t1, forRange lo hi body t = some t1 ∧
      Painted (fun r k => ∃ i, lo ≤ i ∧ i < hi ∧ P i r k) c t t1 := by
  obtain ⟨t1, h1, h2⟩ := forRange_spec lo hi hle body
    (fun n u => Painted (fun r k => ∃ i, lo ≤ i ∧ i < n ∧ P i r k) c t u) t
    (Painted.refl_of_empty _ c t (by rintro r k ⟨i, h1, h2, -⟩; omega))
    (by
      intro i u hi1 hi2 hu
      obtain ⟨u1, hb, hp⟩ := hbody i u hi1 hi2
      refine ⟨u1, hb, (hu.comp hp).congr ?_⟩
      intro r k
      constructor
      · rintro (⟨i1, a1, a2, a3⟩ | h)
        · exact ⟨i1, a1, by omega, a3⟩
        · exact ⟨i, hi1, by omega, h⟩
      · rintro ⟨i1, a1, a2, a3⟩
        by_cases hii : i1 = i
        · subst hii; exact Or.inr a3
        · exact Or.inl ⟨i1, a1, by omega, a3⟩)
  exact ⟨t1, h1, h2⟩

/-- A run of assignments along row `y`, columns `a ≤ x < b`. -/
theorem paint_row (t : Nat → Nat → Char) (y a b : Int) (c : Char) (hab : a ≤ b)
    (hy : 0 ≤ y ∧ y < HEIGHT) (ha : 0 ≤ a) (hb : b ≤ WIDTH) :
    ∃ t1, forRange a b (fun x u => setTile u y x c) t = some t1 ∧
      Painted (fun r k => r = y ∧ a ≤ k ∧ k < b) c t t1 := by
  obtain ⟨t1, h1, h2⟩ := forRange_paint a b hab (fun x u => setTile u y x c) c
    (fun x r k => r = y ∧ k = x)
    (fun i u hi1 hi2 => setTile_spec u y i c hy ⟨by omega, by omega⟩) t
  refine ⟨t1, h1, h2.congr ?_⟩
  intro r k
  constructor
  · rintro ⟨i, a1, a2, a3, a4⟩
    exact ⟨a3, by omega, by omega⟩
  · rintro ⟨a1, a2, a3⟩
    exact ⟨k, a2, a3, a1, rfl⟩

/-- A run of assignments along column `x`, rows `a ≤ y < b`. -/
theorem paint_column (t : Nat → Nat → Char) (x a b : Int) (c : Char) (hab : a ≤ b)
    (hx : 0 ≤ x ∧ x < WIDTH) (ha : 0 ≤ a) (hb : b ≤ HEIGHT) :
    ∃ t1, forRange a b (fun y u => setTile u y x c) t = some t1 ∧
      Painted (fun r k => k = x ∧ a ≤ r ∧ r < b) c t t1 := by
  obtain ⟨t1, h1, h2⟩ := forRange_paint a b hab (fun y u => setTile u y x c) c
    (fun y r k => r = y ∧ k = x)
    (fun i u hi1 hi2 => setTile_spec u i x c ⟨by omega, by omega⟩ hx) t
  refine ⟨t1, h1, h2.congr ?_⟩
  intro r k
  constructor
  · rintro ⟨i, a1, a2, a3, a4⟩
    exact ⟨a4, by omega, by omega⟩
  · rintro ⟨a1, a2, a3⟩
    exact ⟨r, a2, a3, rfl, a1⟩

/-- The nested loops over a rectangle of rows `y0 ≤ y < y1` and columns `x0 ≤ x < x1`. -/
theorem paint_rect (t : Nat → Nat → Char) (x0 x1 y0 y1 : Int) (c : Char)
    (hx : 0 ≤ x0 ∧ x0 ≤ x1 ∧ x1 ≤ WIDTH) (hy : 0 ≤ y0 ∧ y0 ≤ y1 ∧ y1 ≤ HEIGHT) :
    ∃ t1, forRange y0 y1 (fun y u => forRange x0 x1 (fun x u1 => setTile u1 y x c) u) t =
        some t1 ∧
      Painted (fun r k => y0 ≤ r ∧ r < y1 ∧ x0 ≤ k ∧ k < x1) c t t1 := by
  obtain ⟨t1, h1, h2⟩ := forRange_paint y0 y1 hy.2.1
    (fun y u => forRange x0 x1 (fun x u1 => setTile u1 y x c) u) c
    (fun y r k => r = y ∧ x0 ≤ k ∧ k < x1)
    (fun i u hi1 hi2 => paint_row u i x0 x1 c hx.2.1 ⟨by omega, by omega⟩ hx.1 hx.2.2) t
  refine ⟨t1, h1, h2.congr ?_⟩
  intro r k
  constructor
  · rintro ⟨i, a1, a2, a3, a4, a5⟩
    exact ⟨by omega, by omega, a4, a5⟩
  · rintro ⟨a1, a2, a3, a4⟩
    exact ⟨r, a1, a2, rfl, a3, a4⟩

/-! ## Dungeon generation -/

theorem Room.center_mem (r : Room) (h : r.Valid) :
    r.Contains r.centerX r.centerY ∧ 1 ≤ r.centerX ∧ r.centerX ≤ WIDTH - 3 ∧
    1 ≤ r.centerY ∧ r.centerY ≤ HEIGHT - 3 := by
  unfold Room.Valid WIDTH HEIGHT at h
  unfold Room.Contains Room.centerX Room.centerY WIDTH HEIGHT
  omega

theorem getElem?_append_last (l : List Room) (x : Room) (h : l ≠ []) :
    (l ++ [x])[l.length - 1]? = l.getLast? := by
  have hlen : 0 < l.length := List.length_pos.mpr h
  rw [List.getElem?_append_left (by omega), List.getLast?_eq_getElem?]

/-- One round of the room loop: a valid room is appended, four random values are used, and
exactly the cells of the room and of the corridor from the previous room become floor. -/
theorem DungeonMap.genRoom_spec (i : Int) (s : GenState)
    (hlen : (s.rooms.length : Int) = i) (hvalid : ∀ r ∈ s.rooms, r.Valid) :
    ∃ (room : Room) (s1 : GenState), DungeonMap.genRoom i s = some s1 ∧ room.Valid ∧
      s1.rooms = s.rooms ++ [room] ∧ s1.rng = (fun k => s.rng (k + 4)) ∧
      Painted (fun r k => room.Contains k r ∨
          ∃ prev, s.rooms.getLast? = some prev ∧ Room.OnCorridor prev room k r)
        '.' s.tiles s1.tiles := by
  obtain ⟨w, hw⟩ : ∃ w : Int, w = 5 + s.rng.next.1 % 8 := ⟨_, rfl⟩
  obtain ⟨h, hh⟩ : ∃ h : Int, h = 4 + s.rng.next.2.next.1 % 6 := ⟨_, rfl⟩
  obtain ⟨x, hx⟩ : ∃ x : Int, x = 1 + s.rng.next.2.next.2.next.1 % (WIDTH - w - 2) := ⟨_, rfl⟩
  obtain ⟨y, hy⟩ : ∃ y : Int, y = 1 + s.rng.next.2.next.2.next.2.next.1 % (HEIGHT - h - 2) :=
    ⟨_, rfl⟩
  have hr1 : 0 ≤ s.rng.next.1 := Int.ofNat_nonneg _
  have hr2 : 0 ≤ s.rng.next.2.next.1 := Int.ofNat_nonneg _
  have hwb : 5 ≤ w ∧ w ≤ 12 := by omega
  have hhb : 4 ≤ h ∧ h ≤ 9 := by omega
  have hxb : 1 ≤ x ∧ x + w ≤ WIDTH - 2 := by
    have hm : 0 < WIDTH - w - 2 := by unfold WIDTH; omega
    have := Int.emod_nonneg s.rng.next.2.next.2.next.1 (ne_of_gt hm)
    have := Int.emod_lt_of_pos s.rng.next.2.next.2.next.1 hm
    omega
  have hyb : 1 ≤ y ∧ y + h ≤ HEIGHT - 2 := by
    have hm : 0 < HEIGHT - h - 2 := by unfold HEIGHT; omega
    have := Int.emod_nonneg s.rng.next.2.next.2.next.2.next.1 (ne_of_gt hm)
    have := Int.emod_lt_of_pos s.rng.next.2.next.2.next.2.next.1 hm
    omega
  have hroom : Room.Valid { x := x, y := y, width := w, height := h } :=
    ⟨hwb.1, hwb.2, hhb.1, hhb.2, hxb.1, hxb.2, hyb.1, hyb.2⟩
  obtain ⟨t1, hcarve, hp1⟩ := paint_rect s.tiles x (x + w) y (y + h) '.'
    ⟨by omega, by omega, by unfold WIDTH at *; omega⟩
    ⟨by omega, by omega, by unfold HEIGHT at *; omega⟩
  have hrng : s.rng.next.2.next.2.next.2.next.2 = fun k => s.rng (k + 4) := rfl
  simp only [DungeonMap.genRoom]
  rw [← hw, ← hh, ← hx, ← hy]
  unfold DungeonMap.carveRoom
  simp only [hcarve]
  by_cases hi : i > 0
  · rw [if_pos hi]
    have hne : s.rooms ≠ [] := by
      intro h0
      rw [h0] at hlen
      simp at hlen
      omega
    have hidx : (i - 1).toNat = s.rooms.length - 1 := by omega
    obtain ⟨prev, hprev⟩ : ∃ prev, s.rooms.getLast? = some prev := by
      cases hl : s.rooms.getLast? with
      | none => exact absurd (List.getLast?_eq_none_iff.mp hl) hne
      | some p => exact ⟨p, rfl⟩
    have hpv : prev.Valid := hvalid prev (List.mem_of_getLast?_eq_some hprev)
    obtain ⟨-, c1, c2, c3, c4⟩ := Room.center_mem prev hpv
    obtain ⟨-, d1, d2, d3, d4⟩ := Room.center_mem _ hroom
    rw [hidx, getElem?_append_last s.rooms _ hne]
    simp only [hprev]
    obtain ⟨t2, hrow, hp2⟩ := paint_row t1 (prev.y + prev.height / 2)
      (min (prev.x + prev.width / 2) (x + w / 2))
      (max (prev.x + prev.width / 2) (x + w / 2) + 1) '.'
      (by omega)
      (by unfold Room.centerY HEIGHT at *; omega)
      (by unfold Room.centerX WIDTH at *; simp only [] at d1; omega)
      (by unfold Room.centerX WIDTH at *; simp only [] at d2; omega)
    obtain ⟨t3, hcol, hp3⟩ := paint_column t2 (x + w / 2)
      (min (prev.y + prev.height / 2) (y + h / 2))
      (max (prev.y + prev.height / 2) (y + h / 2) + 1) '.'
      (by omega)
      (by unfold Room.centerX WIDTH at *; simp only [] at d1 d2; omega)
      (by unfold Room.centerY HEIGHT at *; simp only [] at d3; omega)
      (by unfold Room.centerY HEIGHT at *; simp only [] at d4; omega)
    simp only [hrow, hcol]
    refine ⟨{ x := x, y := y, width := w, height := h }, _, rfl, hroom, rfl, hrng, ?_⟩
    refine ((hp1.comp hp2).comp hp3).congr ?_
    intro r k
    unfold Room.Contains Room.OnCorridor Room.centerX Room.centerY
    simp only []
    constructor
    · rintro ((⟨a1, a2, a3, a4⟩ | ⟨a1, a2, a3⟩) | ⟨a1, a2, a3⟩)
      · exact Or.inl ⟨a3, a4, a1, a2⟩
      · exact Or.inr ⟨prev, rfl, Or.inl ⟨a1, a2, by omega⟩⟩
      · exact Or.inr ⟨prev, rfl, Or.inr ⟨a1, a2, by omega⟩⟩
    · rintro (⟨a1, a2, a3, a4⟩ | ⟨p, hp, hc⟩)
      · exact Or.inl (Or.inl ⟨a3, a4, a1, a2⟩)
      · cases hp
        rcases hc with ⟨a1, a2, a3⟩ | ⟨a1, a2, a3⟩
        · exact Or.inl (Or.inr ⟨a1, a2, by omega⟩)
        · exact Or.inr ⟨a1, a2, by omega⟩
  · rw [if_neg hi]
    have h0 : s.rooms = [] := by
      have : s.rooms.length = 0 := by omega
      exact List.length_eq_zero.mp this
    refine ⟨{ x := x, y := y, width := w, height := h }, _, rfl, hroom, rfl, hrng, ?_⟩
    refine hp1.congr ?_
    intro r k
    unfold Room.Contains
    rw [h0]
    simp only [List.getLast?_nil]
    constructor
    · rintro ⟨a1, a2, a3, a4⟩
      exact Or.inl ⟨a3, a4, a1, a2⟩
    · rintro (⟨a1, a2, a3, a4⟩ | ⟨p, hp, -⟩)
      · exact ⟨a3, a4, a1, a2⟩
      · cases hp

theorem Carved_append (rooms : List Room) (room : Room) (x y : Int) :
    Carved (rooms ++ [room]) x y ↔
      (Carved rooms x y ∨ room.Contains x y ∨
        ∃ prev, rooms.getLast? = some prev ∧ Room.OnCorridor prev room x y) := by
  unfold Carved
  constructor
  · rintro (⟨r, hr, hc⟩ | ⟨k, p, c, hp, hc, hon⟩)
    · rcases List.mem_append.mp hr with h | h
      · exact Or.inl (Or.inl ⟨r, h, hc⟩)
      · rw [List.mem_singleton] at h
        subst h
        exact Or.inr (Or.inl hc)
    · rcases Nat.lt_trichotomy (k + 1) rooms.length with hlt | heq | hgt
      · rw [List.getElem?_append_left (by omega)] at hp hc
        exact Or.inl (Or.inr ⟨k, p, c, hp, hc, hon⟩)
      · rw [List.getElem?_append_left (by omega)] at hp
        rw [List.getElem?_append_right (by omega), heq, Nat.sub_self] at hc
        simp only [List.getElem?_cons_zero, Option.some.injEq] at hc
        subst hc
        refine Or.inr (Or.inr ⟨p, ?_, hon⟩)
        rw [List.getLast?_eq_getElem?]
        have : rooms.length - 1 = k := by omega
        rw [this, hp]
      · rw [List.getElem?_eq_none (by simp; omega)] at hc
        cases hc
  · rintro ((⟨r, hr, hc⟩ | ⟨k, p, c, hp, hc, hon⟩) | hc | ⟨prev, hprev, hon⟩)
    · exact Or.inl ⟨r, List.mem_append_left _ hr, hc⟩
    · have hk : k + 1 < rooms.length := by
        rcases Nat.lt_or_ge (k + 1) rooms.length with h | h
        · exact h
        · rw [List.getElem?_eq_none h] at hc; cases hc
      refine Or.inr ⟨k, p, c, ?_, ?_, hon⟩
      · rw [List.getElem?_append_left (by omega)]; exact hp
      · rw [List.getElem?_append_left hk]; exact hc
    · exact Or.inl ⟨room, List.mem_append_right _ (List.mem_singleton.mpr rfl), hc⟩
    · have hne : rooms ≠ [] := by
        intro h0; rw [h0] at hprev; cases hprev
      have hlen : 0 < rooms.length := List.length_pos.mpr hne
      rw [List.getLast?_eq_getElem?] at hprev
      refine Or.inr ⟨rooms.length - 1, prev, room, ?_, ?_, hon⟩
      · rw [List.getElem?_append_left (by omega)]; exact hprev
      · have : rooms.length - 1 + 1 = rooms.length := by omega
        rw [this, List.getElem?_append_right (le_refl _), Nat.sub_self]
        rfl

/-- Cells of valid rooms and of the corridors between them lie in columns `1..37` and rows
`1..17`. -/
theorem Carved_bounds (rooms : List Room) (hvalid : ∀ r ∈ rooms, r.Valid) (x y : Int)
    (h : Carved rooms x y) : 1 ≤ x ∧ x ≤ WIDTH - 3 ∧ 1 ≤ y ∧ y ≤ HEIGHT - 3 := by
  rcases h with ⟨r, hr, hc⟩ | ⟨k, p, c, hp, hc, hon⟩
  · have hv := hvalid r hr
    unfold Room.Valid at hv
    unfold Room.Contains at hc
    omega
  · obtain ⟨-, p1, p2, p3, p4⟩ := Room.center_mem p (hvalid p (List.getElem?_mem hp))
    obtain ⟨-, c1, c2, c3, c4⟩ := Room.center_mem c (hvalid c (List.getElem?_mem hc))
    unfold Room.OnCorridor at hon
    omega

/-- The fill loops never leave the array and set every cell of the array to `'#'`. -/
theorem DungeonMap.fillWalls_spec (t : Nat → Nat → Char) :
    ∃ t0, DungeonMap.fillWalls t = some t0 ∧
      ∀ a b : Nat, (a : Int) < HEIGHT → (b : Int) < WIDTH → t0 a b = '#' := by
  obtain ⟨t0, h1, h2⟩ := paint_rect t 0 WIDTH 0 HEIGHT '#'
    ⟨le_refl _, by decide, le_refl _⟩ ⟨le_refl _, by decide, le_refl _⟩
  refine ⟨t0, h1, ?_⟩
  intro a b ha hb
  exact (h2 a b).1 ⟨by omega, ha, by omega, hb⟩

/-- `generateDungeon` on a map object without rooms: it never writes outside the array,
places `5 + rand() % 4` valid rooms, uses one random value plus four per room, and its
floor cells are exactly the cells of the rooms and of the corridors between consecutive
rooms. -/
theorem DungeonMap.generateDungeon_spec (t : Nat → Nat → Char) (rng : Rand) :
    ∃ (m : DungeonMap) (rng1 : Rand),
      DungeonMap.generateDungeon { tiles := t, rooms := [] } rng = some (m, rng1) ∧
      (m.rooms.length : Int) = 5 + (rng 0 : Int) % 4 ∧
      (∀ r ∈ m.rooms, r.Valid) ∧
      rng1 = (fun k => rng (k + (1 + 4 * m.rooms.length))) ∧
      (∀ x y : Int, m.isWalkable x y = true ↔ Carved m.rooms x y) ∧
      (∀ a b : Nat, (a : Int) < HEIGHT → (b : Int) < WIDTH →
        m.tiles a b = '.' ∨ m.tiles a b = '#') := by
  obtain ⟨t0, hfill, hwall⟩ := DungeonMap.fillWalls_spec t
  have hn : (0 : Int) ≤ 5 + (rng 0 : Int) % 4 := by omega
  obtain ⟨s, hloop, i1, i2, i3, i4, i5⟩ := forRange_spec 0 (5 + (rng 0 : Int) % 4) hn
    DungeonMap.genRoom
    (fun i s => (s.rooms.length : Int) = i ∧ (∀ r ∈ s.rooms, r.Valid) ∧
      s.rng = (fun k => rng (k + (1 + 4 * s.rooms.length))) ∧
      (∀ a b : Nat, (a : Int) < HEIGHT → (b : Int) < WIDTH →
        (s.tiles a b = '.' ↔ Carved s.rooms b a)) ∧
      ∀ a b : Nat, (a : Int) < HEIGHT → (b : Int) < WIDTH →
        s.tiles a b = '.' ∨ s.tiles a b = '#')
    { tiles := t0, rooms := [], rng := rng.next.2 }
    (by
      refine ⟨rfl, by simp, rfl, ?_, fun a b ha hb => Or.inr (hwall a b ha hb)⟩
      intro a b ha hb
      show t0 a b = '.' ↔ Carved [] b a
      rw [hwall a b ha hb]
      constructor
      · intro h; exact absurd h (by decide)
      · rintro (⟨r, hr, -⟩ | ⟨k, p, c, hp, -, -⟩)
        · cases hr
        · simp at hp)
    (by
      intro i s _ _ ⟨j1, j2, j3, j4, j5⟩
      obtain ⟨room, s1, g1, g2, g3, g4, g5⟩ := DungeonMap.genRoom_spec i s j1 j2
      refine ⟨s1, g1, ?_, ?_, ?_, ?_, ?_⟩
      · rw [g3, List.length_append, List.length_singleton]
        push_cast
        omega
      · intro r hr
        rw [g3] at hr
        rcases List.mem_append.mp hr with h | h
        · exact j2 r h
        · rw [List.mem_singleton] at h
          rw [h]; exact g2
      · rw [g4, j3, g3, List.length_append, List.length_singleton]
        funext k
        show rng (k + 4 + (1 + 4 * s.rooms.length)) = rng (k + (1 + 4 * (s.rooms.length + 1)))
        congr 1
        omega
      · intro a b ha hb
        rw [g3, Carved_append, ← j4 a b ha hb]
        by_cases hP : room.Contains b a ∨
            ∃ prev, s.rooms.getLast? = some prev ∧ Room.OnCorridor prev room b a
        · rw [(g5 a b).1 hP]
          exact ⟨fun _ => Or.inr hP, fun _ => rfl⟩
        · rw [(g5 a b).2 hP]
          constructor
          · intro h; exact Or.inl h
          · rintro (h | h)
            · exact h
            · exact absurd h hP
      · intro a b ha hb
        by_cases hP : room.Contains b a ∨
            ∃ prev, s.rooms.getLast? = some prev ∧ Room.OnCorridor prev room b a
        · exact Or.inl ((g5 a b).1 hP)
        · rw [(g5 a b).2 hP]
          exact j5 a b ha hb)
  refine ⟨{ tiles := s.tiles, rooms := s.rooms }, s.rng, ?_, i1, i2, i3, ?_, i5⟩
  · unfold DungeonMap.generateDungeon
    simp only [hfill]
    have : (rng.next.1 : Int) = (rng 0 : Int) := rfl
    rw [this]
    simp only [hloop]
  · intro x y
    constructor
    · intro h
      have hb := (isWalkable_iff { tiles := s.tiles, rooms := s.rooms } x y).1.mp h
      obtain ⟨b1, b2, b3, b4, b5⟩ := hb
      have := (i4 y.toNat x.toNat (by unfold HEIGHT; omega) (by unfold WIDTH; omega)).mp b5
      have hx : ((x.toNat : Nat) : Int) = x := by omega
      have hy : ((y.toNat : Nat) : Int) = y := by omega
      rw [hx, hy] at this
      exact this
    · intro h
      obtain ⟨b1, b2, b3, b4⟩ := Carved_bounds s.rooms i2 x y h
      unfold WIDTH at b2
      unfold HEIGHT at b4
      apply (isWalkable_iff { tiles := s.tiles, rooms := s.rooms } x y).1.mpr
      refine ⟨by omega, by omega, by omega, by omega, ?_⟩
      apply (i4 y.toNat x.toNat (by unfold HEIGHT; omega) (by unfold WIDTH; omega)).mpr
      have hx : ((x.toNat : Nat) : Int) = x := by omega
      have hy : ((y.toNat : Nat) : Int) = y := by omega
      rw [hx, hy]
      exact h

/-- C11: for every sequence of `rand()` values and whatever the array held before,
`generateDungeon` returns without any tile access outside `tiles[20][40]` (an access
outside would give `none`), places between 5 and 8 rooms of width in `[5,12]` and height in
`[4,9]`, each with a wall margin around it; every floor cell has `1 ≤ x ≤ WIDTH-2` and
`1 ≤ y ≤ HEIGHT-2`, the outermost rows and columns hold `'#'`, and at least one cell is a
floor cell.  The same holds for the constructor `DungeonMap()`. -/
theorem generateDungeon_rooms (t : Nat → Nat → Char) (rng : Rand) :
    (∃ (m : DungeonMap) (rng1 : Rand),
      DungeonMap.generateDungeon { tiles := t, rooms := [] } rng = some (m, rng1) ∧
      5 ≤ m.rooms.length ∧ m.rooms.length ≤ 8 ∧
      (∀ r ∈ m.rooms, 5 ≤ r.width ∧ r.width ≤ 12 ∧ 4 ≤ r.height ∧ r.height ≤ 9 ∧
        1 ≤ r.x ∧ r.x + r.width ≤ WIDTH - 2 ∧ 1 ≤ r.y ∧ r.y + r.height ≤ HEIGHT - 2) ∧
      (∀ x y : Int, m.isWalkable x y = true →
        1 ≤ x ∧ x ≤ WIDTH - 2 ∧ 1 ≤ y ∧ y ≤ HEIGHT - 2) ∧
      (∀ x y : Int, 0 ≤ x → x < WIDTH → 0 ≤ y → y < HEIGHT →
        (x = 0 ∨ x = WIDTH - 1 ∨ y = 0 ∨ y = HEIGHT - 1) → m.tiles y.toNat x.toNat = '#') ∧
      (∃ x y : Int, m.isWalkable x y = true)) ∧
    DungeonMap.new rng =
      DungeonMap.generateDungeon { tiles := fun _ _ => ' ', rooms := [] } rng := by
  refine ⟨?_, rfl⟩
  obtain ⟨m, rng1, h1, h2, h3, -, h5, h6⟩ := DungeonMap.generateDungeon_spec t rng
  have hfloor : ∀ x y : Int, m.isWalkable x y = true →
      1 ≤ x ∧ x ≤ WIDTH - 3 ∧ 1 ≤ y ∧ y ≤ HEIGHT - 3 :=
    fun x y h => Carved_bounds m.rooms h3 x y ((h5 x y).mp h)
  refine ⟨m, rng1, h1, by omega, by omega, h3, ?_, ?_, ?_⟩
  · intro x y h
    have := hfloor x y h
    omega
  · intro x y hx0 hx1 hy0 hy1 hborder
    have hx : ((x.toNat : Nat) : Int) = x := by omega
    have hy : ((y.toNat : Nat) : Int) = y := by omega
    rcases h6 y.toNat x.toNat (by omega) (by omega) with hdot | hwall
    · have hw : m.isWalkable x y = true :=
        (isWalkable_iff m x y).1.mpr
          ⟨hx0, by unfold WIDTH at hx1; exact hx1, hy0, by unfold HEIGHT at hy1; exact hy1,
            hdot⟩
      have := hfloor x y hw
      omega
    · exact hwall
  · have hlen : 0 < m.rooms.length := by omega
    have hmem : m.rooms[0] ∈ m.rooms := List.getElem_mem _
    obtain ⟨hc, -⟩ := Room.center_mem _ (h3 _ hmem)
    exact ⟨_, _, (h5 _ _).mpr (Or.inl ⟨_, hmem, hc⟩)⟩

/-! ## Connectivity of the generated map -/

theorem PathIn.mono {S T : Int → Int → Prop} (h : ∀ x y, S x y → T x y) {a b : Int × Int}
    (hp : PathIn S a b) : PathIn T a b :=
  Relation.ReflTransGen.mono (fun _ _ hpq => ⟨h _ _ hpq.1, h _ _ hpq.2.1, hpq.2.2⟩) hp

theorem PathIn.symm {S : Int → Int → Prop} {a b : Int × Int} (hp : PathIn S a b) :
    PathIn S b a := by
  refine Relation.ReflTransGen.symmetric ?_ hp
  intro p q hpq
  refine ⟨hpq.2.1, hpq.1, ?_⟩
  rw [abs_sub_comm q.1 p.1, abs_sub_comm q.2 p.2]
  exact hpq.2.2

theorem PathIn.concat {S : Int → Int → Prop} {a b c : Int × Int} (h1 : PathIn S a b)
    (h2 : PathIn S b c) : PathIn S a c :=
  Relation.ReflTransGen.trans h1 h2

/-- Along a row whose cells between the two columns all satisfy `S`. -/
theorem PathIn.row (S : Int → Int → Prop) (y x1 x2 : Int)
    (h : ∀ k, min x1 x2 ≤ k → k ≤ max x1 x2 → S k y) : PathIn S (x1, y) (x2, y) := by
  have right : ∀ (n : Nat) (x : Int), (∀ k, x ≤ k → k ≤ x + n → S k y) →
      PathIn S (x, y) (x + n, y) := by
    intro n
    induction n with
    | zero =>
      intro x _
      simp only [Nat.cast_zero, add_zero]
      exact Relation.ReflTransGen.refl
    | succ n ih =>
      intro x hx
      have h1 := ih x (fun k hk1 hk2 => hx k hk1 (by push_cast; omega))
      refine Relation.ReflTransGen.tail h1 ⟨hx _ (by omega) (by push_cast; omega),
        hx _ (by push_cast; omega) (by push_cast; omega), ?_⟩
      simp only [sub_self, abs_zero, add_zero]
      have : x + (n : Int) - (x + ((n + 1 : Nat) : Int)) = -1 := by push_cast; ring
      rw [this]
      decide
  rcases le_total x1 x2 with hle | hle
  · have := right (x2 - x1).toNat x1 (fun k hk1 hk2 => h k (by omega) (by omega))
    have he : x1 + ((x2 - x1).toNat : Int) = x2 := by omega
    rw [he] at this
    exact this
  · have := right (x1 - x2).toNat x2 (fun k hk1 hk2 => h k (by omega) (by omega))
    have he : x2 + ((x1 - x2).toNat : Int) = x1 := by omega
    rw [he] at this
    exact this.symm

/-- Along a column whose cells between the two rows all satisfy `S`. -/
theorem PathIn.column (S : Int → Int → Prop) (x y1 y2 : Int)
    (h : ∀ k, min y1 y2 ≤ k → k ≤ max y1 y2 → S x k) : PathIn S (x, y1) (x, y2) := by
  have up : ∀ (n : Nat) (y : Int), (∀ k, y ≤ k → k ≤ y + n → S x k) →
      PathIn S (x, y) (x, y + n) := by
    intro n
    induction n with
    | zero =>
      intro y _
      simp only [Nat.cast_zero, add_zero]
      exact Relation.ReflTransGen.refl
    | succ n ih =>
      intro y hy
      have h1 := ih y (fun k hk1 hk2 => hy k hk1 (by push_cast; omega))
      refine Relation.ReflTransGen.tail h1 ⟨hy _ (by omega) (by push_cast; omega),
        hy _ (by push_cast; omega) (by push_cast; omega), ?_⟩
      simp only [sub_self, abs_zero, zero_add]
      have : y + (n : Int) - (y + ((n + 1 : Nat) : Int)) = -1 := by push_cast; ring
      rw [this]
      decide
  rcases le_total y1 y2 with hle | hle
  · have := up (y2 - y1).toNat y1 (fun k hk1 hk2 => h k (by omega) (by omega))
    have he : y1 + ((y2 - y1).toNat : Int) = y2 := by omega
    rw [he] at this
    exact this
  · have := up (y1 - y2).toNat y2 (fun k hk1 hk2 => h k (by omega) (by omega))
    have he : y2 + ((y1 - y2).toNat : Int) = y1 := by omega
    rw [he] at this
    exact this.symm

/-- Inside a filled rectangle any cell is joined to any other: along the row, then along
the column. -/
theorem PathIn.room (S : Int → Int → Prop) (r : Room) (hS : ∀ x y, r.Contains x y → S x y)
    (x1 y1 x2 y2 : Int) (h1 : r.Contains x1 y1) (h2 : r.Contains x2 y2) :
    PathIn S (x1, y1) (x2, y2) := by
  unfold Room.Contains at *
  have hrow := PathIn.row S y1 x1 x2 (fun k hk1 hk2 => hS k y1 (by omega))
  have hcol := PathIn.column S x2 y1 y2 (fun k hk1 hk2 => hS x2 k (by omega))
  exact hrow.concat hcol

/-- The corridor joins the centre of `p` to the centre of `c` through corridor cells. -/
theorem PathIn.corridor (p c : Room) :
    PathIn (fun x y => Room.OnCorridor p c x y) (p.centerX, p.centerY)
      (c.centerX, c.centerY) := by
  have hrow := PathIn.row (fun x y => Room.OnCorridor p c x y) p.centerY p.centerX c.centerX
    (fun k hk1 hk2 => Or.inl ⟨rfl, hk1, hk2⟩)
  have hcol := PathIn.column (fun x y => Room.OnCorridor p c x y) c.centerX p.centerY
    c.centerY (fun k hk1 hk2 => Or.inr ⟨rfl, hk1, hk2⟩)
  exact hrow.concat hcol

/-- Every cell carved for a non-empty list of valid rooms is joined, through carved cells,
to the centre of the last room. -/
theorem Carved_joined_last (rooms : List Room) :
    (∀ r ∈ rooms, r.Valid) → ∀ last, rooms.getLast? = some last →
      ∀ x y, Carved rooms x y →
        PathIn (fun u v => Carved rooms u v) (last.centerX, last.centerY) (x, y) := by
  induction rooms using List.reverseRecOn with
  | nil =>
    intro _ last hlast
    cases hlast
  | append_singleton rooms room ih =>
    intro hvalid last hlast x y hxy
    rw [List.getLast?_concat] at hlast
    cases hlast
    have hvroom : room.Valid := hvalid room (List.mem_append_right _ (List.mem_singleton.mpr rfl))
    have hvrooms : ∀ r ∈ rooms, r.Valid := fun r hr => hvalid r (List.mem_append_left _ hr)
    have hcen : room.Contains room.centerX room.centerY := (Room.center_mem room hvroom).1
    -- cells of the new room
    have hroom : ∀ u v, room.Contains u v → Carved (rooms ++ [room]) u v :=
      fun u v h => (Carved_append rooms room u v).mpr (Or.inr (Or.inl h))
    have hold : ∀ u v, Carved rooms u v → Carved (rooms ++ [room]) u v :=
      fun u v h => (Carved_append rooms room u v).mpr (Or.inl h)
    rcases (Carved_append rooms room x y).mp hxy with h | h | ⟨prev, hprev, hon⟩
    · -- an older cell: go to the previous centre through the corridor
      have hne : rooms ≠ [] := by
        intro h0
        rw [h0] at h
        rcases h with ⟨r, hr, -⟩ | ⟨k, p, c, hp, -, -⟩
        · cases hr
        · simp at hp
      obtain ⟨prev, hprev⟩ : ∃ prev, rooms.getLast? = some prev := by
        cases hl : rooms.getLast? with
        | none => exact absurd (List.getLast?_eq_none_iff.mp hl) hne
        | some p => exact ⟨p, rfl⟩
      have hcorr : ∀ u v, Room.OnCorridor prev room u v → Carved (rooms ++ [room]) u v :=
        fun u v h => (Carved_append rooms room u v).mpr (Or.inr (Or.inr ⟨prev, hprev, h⟩))
      have h1 := (PathIn.corridor prev room).mono hcorr
      have h2 := (ih hvrooms prev hprev x y h).mono hold
      exact h1.symm.concat h2
    · exact PathIn.room _ room hroom _ _ _ _ hcen h
    · have hcorr : ∀ u v, Room.OnCorridor prev room u v → Carved (rooms ++ [room]) u v :=
        fun u v h => (Carved_append rooms room u v).mpr (Or.inr (Or.inr ⟨prev, hprev, h⟩))
      have h1 := (PathIn.corridor prev room).mono hcorr
      rcases hon with ⟨a1, a2, a3⟩ | ⟨a1, a2, a3⟩
      · -- on the horizontal run: from the previous centre along its row
        have hrow := PathIn.row (fun u v => Carved (rooms ++ [room]) u v) prev.centerY
          prev.centerX x (fun k hk1 hk2 => hcorr k _ (Or.inl ⟨rfl, by omega, by omega⟩))
        rw [a1]
        exact h1.symm.concat hrow
      · -- on the vertical run: from the new centre along its column
        have hcol := PathIn.column (fun u v => Carved (rooms ++ [room]) u v) room.centerX
          room.centerY y (fun k hk1 hk2 => hcorr _ k (Or.inr ⟨rfl, by omega, by omega⟩))
        rw [a1]
        exact hcol

/-- C12: in every grid produced by `generateDungeon` any two floor cells are joined by a
path of floor cells whose consecutive cells are horizontally or vertically adjacent.
The floor cells are exactly the cells of the rooms, which are filled rectangles, and of
the L-shaped corridors between consecutive rooms (horizontal run on the previous room's
centre row between the two centre columns, vertical run on the current room's centre
column between the two centre rows); each corridor joins the centre of room `i-1` to the
centre of room `i` through its own cells. -/
theorem generateDungeon_connected (t : Nat → Nat → Char) (rng : Rand) :
    ∃ (m : DungeonMap) (rng1 : Rand),
      DungeonMap.generateDungeon { tiles := t, rooms := [] } rng = some (m, rng1) ∧
      (∀ a b : Int × Int, m.isWalkable a.1 a.2 = true → m.isWalkable b.1 b.2 = true →
        m.Joined a b) ∧
      (∀ x y : Int, m.isWalkable x y = true ↔ Carved m.rooms x y) ∧
      (∀ r ∈ m.rooms, ∀ x y : Int, r.Contains x y → m.isWalkable x y = true) ∧
      (∀ (k : Nat) (p c : Room), m.rooms[k]? = some p → m.rooms[k + 1]? = some c →
        (∀ x y : Int, Room.OnCorridor p c x y → m.isWalkable x y = true) ∧
        PathIn (fun x y => Room.OnCorridor p c x y) (p.centerX, p.centerY)
          (c.centerX, c.centerY)) := by
  obtain ⟨m, rng1, h1, h2, h3, -, h5, -⟩ := DungeonMap.generateDungeon_spec t rng
  refine ⟨m, rng1, h1, ?_, h5, ?_, ?_⟩
  · intro a b ha hb
    have hne : m.rooms ≠ [] := by
      intro h0
      rw [h0] at h2
      simp at h2
      omega
    obtain ⟨last, hlast⟩ : ∃ last, m.rooms.getLast? = some last := by
      cases hl : m.rooms.getLast? with
      | none => exact absurd (List.getLast?_eq_none_iff.mp hl) hne
      | some p => exact ⟨p, rfl⟩
    have pa := Carved_joined_last m.rooms h3 last hlast a.1 a.2 ((h5 _ _).mp ha)
    have pb := Carved_joined_last m.rooms h3 last hlast b.1 b.2 ((h5 _ _).mp hb)
    exact (pa.symm.concat pb).mono (fun x y h => (h5 x y).mpr h)
  · intro r hr x y hc
    exact (h5 x y).mpr (Or.inl ⟨r, hr, hc⟩)
  · intro k p c hp hc
    exact ⟨fun x y hon => (h5 x y).mpr (Or.inr ⟨k, p, c, hp, hc, hon⟩), PathIn.corridor p c⟩

/-! ## Spawning and the floor transition -/

/-- A counted loop that returned: an invariant kept by every round that returns holds at
the end. -/
theorem forLoop_some {σ : Type} (body : Int → σ → Option σ) (I : Int → σ → Prop) :
    ∀ (n : Nat) (lo : Int) (s s1 : σ), forLoop body n lo s = some s1 → I lo s →
      (∀ i t t1, lo ≤ i → i < lo + n → I i t → body i t = some t1 → I (i + 1) t1) →
      I (lo + n) s1 := by
  intro n
  induction n with
  | zero =>
    intro lo s s1 h h0 _
    simp only [forLoop, Option.some.injEq] at h
    subst h
    simpa using h0
  | succ n ih =>
    intro lo s s1 h h0 hstep
    simp only [forLoop] at h
    cases hb : body lo s with
    | none => rw [hb] at h; cases h
    | some t1 =>
      rw [hb] at h
      have hI := hstep lo s t1 (le_refl _) (by push_cast; omega) h0 hb
      have := ih (lo + 1) t1 s1 h hI (by
        intro i t t2 hi1 hi2 hIt hbt
        exact hstep i t t2 (by omega) (by push_cast; omega) hIt hbt)
      have he : lo + ((n + 1 : Nat) : Int) = lo + 1 + n := by push_cast; ring
      rw [he]
      exact this

/-- A cell returned by `getRandomFloor` is inside the grid and a floor cell. -/
theorem DungeonMap.getRandomFloor_floor (m : DungeonMap) :
    ∀ (fuel : Nat) (rng : Rand) (pos : Int × Int) (rng1 : Rand),
      m.getRandomFloor fuel rng = some (pos, rng1) → m.isWalkable pos.1 pos.2 = true := by
  intro fuel
  induction fuel with
  | zero => intro rng pos rng1 h; cases h
  | succ fuel ih =>
    intro rng pos rng1 h
    simp only [DungeonMap.getRandomFloor] at h
    split at h
    · rename_i htile
      simp only [Option.some.injEq, Prod.mk.injEq] at h
      obtain ⟨hpos, -⟩ := h
      rw [← hpos]
      have hx0 : 0 ≤ rng.next.1 := Int.ofNat_nonneg _
      have hy0 : 0 ≤ rng.next.2.next.1 := Int.ofNat_nonneg _
      apply (isWalkable_iff m _ _).1.mpr
      unfold WIDTH HEIGHT at *
      refine ⟨by omega, by omega, by omega, by omega, ?_⟩
      simpa using htile
    · exact ih _ pos rng1 h

/-- `getRandomFloor` returns as soon as one of the sampled cells is a floor cell: with the
first floor sample at attempt `k`, every `fuel > k` gives that cell. -/
theorem DungeonMap.getRandomFloor_returns (m : DungeonMap) :
    ∀ (k : Nat) (rng : Rand),
      m.tiles ((rng (2 * k + 1) : Int) % HEIGHT).toNat ((rng (2 * k) : Int) % WIDTH).toNat
        = '.' →
      (∀ j < k, m.tiles ((rng (2 * j + 1) : Int) % HEIGHT).toNat
        ((rng (2 * j) : Int) % WIDTH).toNat ≠ '.') →
      ∀ fuel, k < fuel →
        m.getRandomFloor fuel rng =
          some (((rng (2 * k) : Int) % WIDTH, (rng (2 * k + 1) : Int) % HEIGHT),
            fun i => rng (i + (2 * k + 2))) := by
  intro k
  induction k with
  | zero =>
    intro rng hhit _ fuel hfuel
    obtain ⟨f, rfl⟩ : ∃ f, fuel = f + 1 := ⟨fuel - 1, by omega⟩
    simp only [DungeonMap.getRandomFloor]
    have h1 : (rng.next.1 : Int) = (rng 0 : Int) := rfl
    have h2 : (rng.next.2.next.1 : Int) = (rng 1 : Int) := rfl
    rw [h1, h2]
    simp only [Nat.mul_zero, Nat.zero_add] at hhit
    rw [if_pos (by simpa using hhit)]
    rfl
  | succ k ih =>
    intro rng hhit hmiss fuel hfuel
    obtain ⟨f, rfl⟩ : ∃ f, fuel = f + 1 := ⟨fuel - 1, by omega⟩
    simp only [DungeonMap.getRandomFloor]
    have h1 : (rng.next.1 : Int) = (rng 0 : Int) := rfl
    have h2 : (rng.next.2.next.1 : Int) = (rng 1 : Int) := rfl
    rw [h1, h2]
    have hm0 := hmiss 0 (by omega)
    simp only [Nat.mul_zero, Nat.zero_add] at hm0
    rw [if_neg (by simpa using hm0)]
    have hshift : ∀ i, (rng.next.2.next.2) i = rng (i + 2) := fun i => rfl
    have := ih rng.next.2.next.2
      (by
        rw [hshift, hshift]
        have e1 : 2 * k + 1 + 2 = 2 * (k + 1) + 1 := by omega
        have e2 : 2 * k + 2 = 2 * (k + 1) := by omega
        rw [e1, e2]
        exact hhit)
      (by
        intro j hj
        rw [hshift, hshift]
        have e1 : 2 * j + 1 + 2 = 2 * (j + 1) + 1 := by omega
        have e2 : 2 * j + 2 = 2 * (j + 1) := by omega
        rw [e1, e2]
        exact hmiss (j + 1) (by omega))
      f (by omega)
    rw [this]
    simp only [hshift]
    have e1 : 2 * k + 1 + 2 = 2 * (k + 1) + 1 := by omega
    have e2 : 2 * k + 2 = 2 * (k + 1) := by omega
    rw [e1, e2]
    congr 2

/-- One round of the spawn loop that returns appends one fresh Goblin, Orc or Dragon,
placed on a floor cell. -/
theorem Game.spawnBody_spec (fuel : Nat) (dungeon : DungeonMap) (floor : Int)
    (s s1 : List Enemy × Rand) (h : Game.spawnBody fuel dungeon floor s = some s1) :
    ∃ (fresh : Enemy) (x y : Int),
      (fresh = Enemy.dragon ∨ fresh = Enemy.orc ∨ fresh = Enemy.goblin) ∧
      s1.1 = s.1 ++ [fresh.setPosition x y] ∧ dungeon.isWalkable x y = true := by
  unfold Game.spawnBody at h
  cases hg : dungeon.getRandomFloor fuel s.2 with
  | none => rw [hg] at h; cases h
  | some r =>
    obtain ⟨pos, rng1⟩ := r
    rw [hg] at h
    simp only [Option.some.injEq] at h
    have hw := DungeonMap.getRandomFloor_floor dungeon fuel s.2 pos rng1 hg
    rw [← h]
    refine ⟨_, pos.1, pos.2, ?_, rfl, hw⟩
    split
    · exact Or.inl rfl
    · split
      · exact Or.inr (Or.inl rfl)
      · exact Or.inr (Or.inr rfl)

/-- `spawnEnemies`, when it returns, has appended exactly `3 + floor` fresh enemies, each
on a floor cell, and changed nothing else. -/
theorem Game.spawnEnemies_spec (fuel : Nat) (g : Game) (rng : Rand) (hfloor : 0 ≤ 3 + g.floor)
    (g1 : Game) (rng1 : Rand) (h : g.spawnEnemies fuel rng = some (g1, rng1)) :
    ∃ new : List Enemy, g1 = { g with enemies := g.enemies ++ new } ∧
      (new.length : Int) = 3 + g.floor ∧
      ∀ e ∈ new, ∃ (fresh : Enemy) (x y : Int),
        (fresh = Enemy.dragon ∨ fresh = Enemy.orc ∨ fresh = Enemy.goblin) ∧
        e = fresh.setPosition x y ∧ g.dungeon.isWalkable x y = true := by
  unfold Game.spawnEnemies at h
  simp only [] at h
  cases hl : forRange 0 (3 + g.floor)
      (fun _ s => Game.spawnBody fuel g.dungeon g.floor s) (g.enemies, rng) with
  | none => rw [hl] at h; cases h
  | some s =>
    rw [hl] at h
    simp only [Option.some.injEq, Prod.mk.injEq] at h
    obtain ⟨hg1, -⟩ := h
    have hinv := forLoop_some (fun _ s => Game.spawnBody fuel g.dungeon g.floor s)
      (fun i (s : List Enemy × Rand) => ∃ new : List Enemy, s.1 = g.enemies ++ new ∧
        (new.length : Int) = i ∧
        ∀ e ∈ new, ∃ (fresh : Enemy) (x y : Int),
          (fresh = Enemy.dragon ∨ fresh = Enemy.orc ∨ fresh = Enemy.goblin) ∧
          e = fresh.setPosition x y ∧ g.dungeon.isWalkable x y = true)
      (3 + g.floor - 0).toNat 0 (g.enemies, rng) s hl
      ⟨[], by simp, rfl, by simp⟩
      (by
        intro i t t1 _ _ ⟨new, n1, n2, n3⟩ hb
        obtain ⟨fresh, x, y, f1, f2, f3⟩ := Game.spawnBody_spec fuel g.dungeon g.floor t t1 hb
        refine ⟨new ++ [fresh.setPosition x y], ?_, ?_, ?_⟩
        · rw [f2, n1, List.append_assoc]
        · rw [List.length_append, List.length_singleton]
          push_cast
          omega
        · intro e he
          rcases List.mem_append.mp he with h1 | h1
          · exact n3 e h1
          · rw [List.mem_singleton] at h1
            exact ⟨fresh, x, y, f1, h1, f3⟩)
    obtain ⟨new, n1, n2, n3⟩ := hinv
    refine ⟨new, ?_, by omega, n3⟩
    rw [← hg1, n1]

/-- Allowing `getRandomFloor` more rounds does not change a result it already gave. -/
theorem DungeonMap.getRandomFloor_more (m : DungeonMap) :
    ∀ (fuel : Nat) (rng : Rand) (r : (Int × Int) × Rand),
      m.getRandomFloor fuel rng = some r →
      ∀ fuel1, fuel ≤ fuel1 → m.getRandomFloor fuel1 rng = some r := by
  intro fuel
  induction fuel with
  | zero => intro rng r h; cases h
  | succ fuel ih =>
    intro rng r h fuel1 hle
    obtain ⟨f, rfl⟩ : ∃ f, fuel1 = f + 1 := ⟨fuel1 - 1, by omega⟩
    simp only [DungeonMap.getRandomFloor] at h ⊢
    split
    · rename_i htile
      rw [if_pos htile] at h
      exact h
    · rename_i htile
      rw [if_neg htile] at h
      exact ih _ r h f (by omega)

/-- A counted loop that returned returns the same with any body that agrees with the
original one wherever that returns. -/
theorem forLoop_agree {σ : Type} (body body1 : Int → σ → Option σ)
    (hbody : ∀ i s r, body i s = some r → body1 i s = some r) :
    ∀ (n : Nat) (lo : Int) (s r : σ), forLoop body n lo s = some r →
      forLoop body1 n lo s = some r := by
  intro n
  induction n with
  | zero => intro lo s r h; exact h
  | succ n ih =>
    intro lo s r h
    simp only [forLoop] at h ⊢
    cases hb : body lo s with
    | none => rw [hb] at h; cases h
    | some t =>
      rw [hb] at h
      rw [hbody lo s t hb]
      exact ih (lo + 1) t r h

theorem Game.spawnBody_more (fuel fuel1 : Nat) (hle : fuel ≤ fuel1) (dungeon : DungeonMap)
    (floor : Int) (s r : List Enemy × Rand) (h : Game.spawnBody fuel dungeon floor s = some r) :
    Game.spawnBody fuel1 dungeon floor s = some r := by
  unfold Game.spawnBody at h ⊢
  cases hg : dungeon.getRandomFloor fuel s.2 with
  | none => rw [hg] at h; cases h
  | some p =>
    rw [hg] at h
    rw [DungeonMap.getRandomFloor_more dungeon fuel s.2 p hg fuel1 hle]
    exact h

theorem Game.spawnEnemies_more (fuel fuel1 : Nat) (hle : fuel ≤ fuel1) (g : Game) (rng : Rand)
    (r : Game × Rand) (h : g.spawnEnemies fuel rng = some r) :
    g.spawnEnemies fuel1 rng = some r := by
  unfold Game.spawnEnemies at h ⊢
  simp only [] at h ⊢
  cases hl : forRange 0 (3 + g.floor)
      (fun _ s => Game.spawnBody fuel g.dungeon g.floor s) (g.enemies, rng) with
  | none => rw [hl] at h; cases h
  | some s =>
    rw [hl] at h
    have := forLoop_agree (fun _ s => Game.spawnBody fuel g.dungeon g.floor s)
      (fun _ s => Game.spawnBody fuel1 g.dungeon g.floor s)
      (fun _ s r hs => Game.spawnBody_more fuel fuel1 hle g.dungeon g.floor s r hs)
      _ _ _ _ hl
    unfold forRange
    rw [this]
    exact h

/-- Once the floor-clear step returns, a larger bound on the sampling rounds gives the
same result. -/
theorem Game.floorClear_more (fuel fuel1 : Nat) (hle : fuel ≤ fuel1) (g : Game) (rng : Rand)
    (r : Game × Rand) (h : g.floorClear fuel rng = some r) :
    g.floorClear fuel1 rng = some r := by
  unfold Game.floorClear at h ⊢
  cases hm : DungeonMap.new rng with
  | none => rw [hm] at h; cases h
  | some d =>
    obtain ⟨m, rngA⟩ := d
    rw [hm] at h
    simp only [] at h ⊢
    cases hp : m.getRandomFloor fuel rngA with
    | none => rw [hp] at h; cases h
    | some r2 =>
      obtain ⟨pos, rngB⟩ := r2
      rw [hp] at h
      rw [DungeonMap.getRandomFloor_more m fuel rngA _ hp fuel1 hle]
      simp only [] at h ⊢
      cases hs : Game.spawnEnemies fuel
          { g with floor := g.floor + 1, enemies := [], dungeon := m,
                   player := g.player.setPosition pos.1 pos.2 } rngB with
      | none => rw [hs] at h; cases h
      | some r3 =>
        rw [hs] at h
        rw [Game.spawnEnemies_more fuel fuel1 hle _ rngB r3 hs]
        exact h

/-- The `if (allDead)` branch, when it returns. -/
theorem Game.floorClear_spec (fuel : Nat) (g : Game) (rng : Rand) (hfloor : 0 ≤ 3 + (g.floor + 1))
    (g1 : Game) (rng1 : Rand) (h : g.floorClear fuel rng = some (g1, rng1)) :
    ∃ (m : DungeonMap) (pos : Int × Int) (new : List Enemy),
      m.isWalkable pos.1 pos.2 = true ∧
      g1 = { g with
        floor := g.floor + 1, enemies := new, dungeon := m,
        player := ((g.player.setPosition pos.1 pos.2).heal 30).restoreMana 20 } ∧
      (new.length : Int) = 3 + (g.floor + 1) ∧
      ∀ e ∈ new, ∃ (fresh : Enemy) (x y : Int),
        (fresh = Enemy.dragon ∨ fresh = Enemy.orc ∨ fresh = Enemy.goblin) ∧
        e = fresh.setPosition x y ∧ m.isWalkable x y = true := by
  unfold Game.floorClear at h
  cases hm : DungeonMap.new rng with
  | none => rw [hm] at h; cases h
  | some r =>
    obtain ⟨m, rngA⟩ := r
    rw [hm] at h
    simp only [] at h
    cases hp : m.getRandomFloor fuel rngA with
    | none => rw [hp] at h; cases h
    | some r2 =>
      obtain ⟨pos, rngB⟩ := r2
      rw [hp] at h
      simp only [] at h
      cases hs : Game.spawnEnemies fuel
          { g with floor := g.floor + 1, enemies := [], dungeon := m,
                   player := g.player.setPosition pos.1 pos.2 } rngB with
      | none => rw [hs] at h; cases h
      | some r3 =>
        obtain ⟨g2, rngC⟩ := r3
        rw [hs] at h
        simp only [Option.some.injEq, Prod.mk.injEq] at h
        obtain ⟨hg1, -⟩ := h
        obtain ⟨new, n1, n2, n3⟩ := Game.spawnEnemies_spec fuel _ rngB hfloor g2 rngC hs
        refine ⟨m, pos, new, DungeonMap.getRandomFloor_floor m fuel rngA pos rngB hp, ?_,
          n2, n3⟩
        rw [← hg1, n1]
        rfl

theorem Enemy.fresh_setPosition (fresh : Enemy) (x y : Int)
    (h : fresh = Enemy.dragon ∨ fresh = Enemy.orc ∨ fresh = Enemy.goblin) :
    (fresh.setPosition x y).health = (fresh.setPosition x y).maxHealth ∧
    (fresh.setPosition x y).isAlive = true ∧
    (fresh.setPosition x y).x = x ∧ (fresh.setPosition x y).y = y := by
  rcases h with rfl | rfl | rfl <;> exact ⟨rfl, rfl, rfl, rfl⟩

/-! ## The sampling loops return -/

/-- A stream that keeps naming floor cells still does so after any number of values has
been consumed. -/
theorem Rand.Hits.shift {rng : Rand} {m : DungeonMap} (h : rng.Hits m) (rng1 : Rand)
    (c : Nat) (hc : ∀ i, rng1 i = rng (i + c)) : rng1.Hits m := by
  intro k
  obtain ⟨j, hj⟩ := h (k + c)
  refine ⟨j, ?_⟩
  rw [hc, hc]
  have e1 : k + 2 * j + 1 + c = k + c + 2 * j + 1 := by omega
  have e2 : k + 2 * j + c = k + c + 2 * j := by omega
  rw [e1, e2]
  exact hj

/-- On a stream that keeps naming floor cells `getRandomFloor` returns: after some number
`k` of rejected samples it gives the cell of the next one, whatever the bound above `k`. -/
theorem DungeonMap.getRandomFloor_hits (m : DungeonMap) (rng : Rand) (h : rng.Hits m) :
    ∃ k : Nat, ∀ fuel, k < fuel →
      m.getRandomFloor fuel rng =
        some (((rng (2 * k) : Int) % WIDTH, (rng (2 * k + 1) : Int) % HEIGHT),
          fun i => rng (i + (2 * k + 2))) := by
  classical
  have hex : ∃ j : Nat, m.tiles ((rng (2 * j + 1) : Int) % HEIGHT).toNat
      ((rng (2 * j) : Int) % WIDTH).toNat = '.' := by
    obtain ⟨j, hj⟩ := h 0
    refine ⟨j, ?_⟩
    simpa only [Nat.zero_add] using hj
  refine ⟨Nat.find hex, ?_⟩
  exact DungeonMap.getRandomFloor_returns m (Nat.find hex) rng (Nat.find_spec hex)
    (fun j hj => Nat.find_min hex hj)

/-- On a stream that keeps naming floor cells one round of the spawn loop returns, with
the same result for every large enough bound, and leaves such a stream. -/
theorem Game.spawnBody_hits (dungeon : DungeonMap) (floor : Int) (s : List Enemy × Rand)
    (h : s.2.Hits dungeon) :
    ∃ (fuel0 : Nat) (s1 : List Enemy × Rand),
      (∀ fuel, fuel0 ≤ fuel → Game.spawnBody fuel dungeon floor s = some s1) ∧
      s1.2.Hits dungeon := by
  obtain ⟨k, hk⟩ := DungeonMap.getRandomFloor_hits dungeon s.2 h
  have hsome := hk (k + 1) (by omega)
  cases hb : Game.spawnBody (k + 1) dungeon floor s with
  | none =>
    unfold Game.spawnBody at hb
    rw [hsome] at hb
    cases hb
  | some s1 =>
    refine ⟨k + 1, s1, fun fuel hfuel => Game.spawnBody_more (k + 1) fuel hfuel _ _ _ _ hb, ?_⟩
    unfold Game.spawnBody at hb
    rw [hsome] at hb
    simp only [Option.some.injEq] at hb
    rw [← hb]
    exact h.shift _ (1 + (2 * k + 2)) (fun i => by
      show s.2 (i + 1 + (2 * k + 2)) = s.2 (i + (1 + (2 * k + 2)))
      rw [Nat.add_assoc])

/-- On a stream that keeps naming floor cells the spawn loop returns, with the same result
for every large enough bound. -/
theorem Game.spawnLoop_hits (dungeon : DungeonMap) (floor : Int) :
    ∀ (n : Nat) (lo : Int) (s : List Enemy × Rand), s.2.Hits dungeon →
      ∃ (fuel0 : Nat) (s1 : List Enemy × Rand),
        (∀ fuel, fuel0 ≤ fuel →
          forLoop (fun _ s => Game.spawnBody fuel dungeon floor s) n lo s = some s1) ∧
        s1.2.Hits dungeon := by
  intro n
  induction n with
  | zero => intro lo s h; exact ⟨0, s, fun _ _ => rfl, h⟩
  | succ n ih =>
    intro lo s h
    obtain ⟨fa, t, ha, ht⟩ := Game.spawnBody_hits dungeon floor s h
    obtain ⟨fb, s1, hb, hs1⟩ := ih (lo + 1) t ht
    refine ⟨max fa fb, s1, ?_, hs1⟩
    intro fuel hfuel
    simp only [forLoop]
    rw [ha fuel (le_trans (le_max_left _ _) hfuel)]
    exact hb fuel (le_trans (le_max_right _ _) hfuel)

/-- On a stream that keeps naming floor cells of the game's map `spawnEnemies` returns. -/
theorem Game.spawnEnemies_hits (g : Game) (rng : Rand) (h : rng.Hits g.dungeon) :
    ∃ (fuel0 : Nat) (g1 : Game) (rng1 : Rand),
      (∀ fuel, fuel0 ≤ fuel → g.spawnEnemies fuel rng = some (g1, rng1)) ∧
      rng1.Hits g.dungeon := by
  obtain ⟨f0, s1, hs, hh⟩ := Game.spawnLoop_hits g.dungeon g.floor
    (3 + g.floor - 0).toNat 0 (g.enemies, rng) h
  refine ⟨f0, { g with enemies := s1.1 }, s1.2, ?_, hh⟩
  intro fuel hfuel
  unfold Game.spawnEnemies forRange
  simp only []
  rw [hs fuel hfuel]

/-- The floor transition returns when the stream keeps naming floor cells of the map
generated from it. -/
theorem Game.floorClear_hits (g : Game) (rng : Rand)
    (h : ∀ m rngA, DungeonMap.new rng = some (m, rngA) → rng.Hits m) :
    ∃ (fuel0 : Nat) (g1 : Game) (rng1 : Rand),
      ∀ fuel, fuel0 ≤ fuel → g.floorClear fuel rng = some (g1, rng1) := by
  obtain ⟨m, rngA, hgen, -, -, hshift, -⟩ := DungeonMap.generateDungeon_spec (fun _ _ => ' ') rng
  have hm : DungeonMap.new rng = some (m, rngA) := hgen
  have hA : rngA.Hits m := (h m rngA hm).shift rngA _ (fun i => by rw [hshift])
  obtain ⟨k, hk⟩ := DungeonMap.getRandomFloor_hits m rngA hA
  have hB : Rand.Hits (fun i => rngA (i + (2 * k + 2))) m := hA.shift _ _ (fun _ => rfl)
  obtain ⟨f1, g2, rngC, hs, -⟩ := Game.spawnEnemies_hits
    ({ g with floor := g.floor + 1, enemies := [], dungeon := m,
              player := g.player.setPosition ((rngA (2 * k) : Int) % WIDTH)
                ((rngA (2 * k + 1) : Int) % HEIGHT) } : Game)
    (fun i => rngA (i + (2 * k + 2))) hB
  refine ⟨max (k + 1) f1, { g2 with player := (g2.player.heal 30).restoreMana 20 }, rngC, ?_⟩
  intro fuel hfuel
  unfold Game.floorClear
  rw [hm]
  simp only []
  rw [hk fuel (by have := le_max_left (k + 1) f1; omega)]
  simp only []
  rw [hs fuel (le_trans (le_max_right _ _) hfuel)]

/-- The constructor returns when the seeded stream keeps naming floor cells of the first
map. -/
theorem Game.new_hits (rng seeded : Rand)
    (h : ∀ m rngA, DungeonMap.new rng = some (m, rngA) → seeded.Hits m) :
    ∃ (fuel0 : Nat) (g1 : Game) (rng1 : Rand),
      ∀ fuel, fuel0 ≤ fuel → Game.new fuel rng seeded = some (g1, rng1) := by
  obtain ⟨m, rngA, hgen, -⟩ := DungeonMap.generateDungeon_spec (fun _ _ => ' ') rng
  have hm : DungeonMap.new rng = some (m, rngA) := hgen
  have hA : seeded.Hits m := h m rngA hm
  obtain ⟨k, hk⟩ := DungeonMap.getRandomFloor_hits m seeded hA
  have hB : Rand.Hits (fun i => seeded (i + (2 * k + 2))) m := hA.shift _ _ (fun _ => rfl)
  obtain ⟨f1, g2, rngC, hs, -⟩ := Game.spawnEnemies_hits
    ({ player := Player.new.setPosition ((seeded (2 * k) : Int) % WIDTH)
                ((seeded (2 * k + 1) : Int) % HEIGHT),
       enemies := [], dungeon := m, floor := 1, running := true } : Game)
    (fun i => seeded (i + (2 * k + 2))) hB
  refine ⟨max (k + 1) f1, g2, rngC, ?_⟩
  intro fuel hfuel
  unfold Game.new
  rw [hm]
  simp only []
  rw [hk fuel (by have := le_max_left (k + 1) f1; omega)]
  simp only []
  exact hs fuel (le_trans (le_max_right _ _) hfuel)

/-- With `rand()` always 0 the sampling never ends: every sample is the corner cell
`(0,0)`, a wall of every generated map, so the floor transition does not return within any
bound. -/
theorem Game.floorClear_zero_stream (g : Game) (fuel : Nat) :
    g.floorClear fuel (fun _ => 0) = none := by
  obtain ⟨⟨m, rngA, hgen, -, -, -, -, hborder, -⟩, hnew⟩ :=
    generateDungeon_rooms (fun _ _ => ' ') (fun _ => 0)
  obtain ⟨m1, rngB, hgen1, -, -, hshift, -⟩ :=
    DungeonMap.generateDungeon_spec (fun _ _ => ' ') (fun _ => 0)
  rw [hgen] at hgen1
  simp only [Option.some.injEq, Prod.mk.injEq] at hgen1
  obtain ⟨rfl, rfl⟩ := hgen1
  have hzero : rngA = fun _ => 0 := hshift
  subst hzero
  have hwall : m.tiles 0 0 = '#' :=
    hborder 0 0 (by decide) (by decide) (by decide) (by decide) (Or.inl rfl)
  have hnone : ∀ f : Nat, m.getRandomFloor f (fun _ => 0) = none := by
    intro f
    induction f with
    | zero => rfl
    | succ f ih =>
      simp only [DungeonMap.getRandomFloor]
      have h1 : ((Rand.next (fun _ => 0)).1 : Int) = 0 := rfl
      have h2 : ((Rand.next (Rand.next (fun _ => 0)).2).1 : Int) = 0 := rfl
      have h3 : (Rand.next (Rand.next (fun _ => 0)).2).2 = fun _ => 0 := rfl
      rw [h1, h2, h3, ih]
      have : ¬ ((m.tiles ((0 : Int) % HEIGHT).toNat ((0 : Int) % WIDTH).toNat == '.') = true) := by
        show ¬ ((m.tiles 0 0 == '.') = true)
        rw [hwall]
        decide
      rw [if_neg this]
  unfold Game.floorClear
  rw [hnew, hgen]
  simp only []
  rw [hnone fuel]

/-- C14: in a round entered on floor `f ≥ 1` with no enemy alive, on a `rand()` stream that
keeps naming floor cells of the map generated from it, the floor-clear step returns (for
every large enough bound on the sampling rounds, and with no other result under a smaller
one) and is the whole round: it reads no command, sets the floor to `f + 1`, replaces the
collection by exactly `3 + (f + 1)` fresh enemies at full health on floor cells of the new
map, puts the player on a floor cell with health `min(maxHealth, health + 30)` and mana
`min(maxMana, mana + 20)`, and keeps level, experience, attack, defense, the maxima and the
abilities with their cooldowns.  Likewise the constructor returns, on floor 1 with exactly
4 fresh enemies and the fresh hero, when the seeded stream keeps naming floor cells of the
first map. -/
theorem floor_clear (g : Game) (input : List Char) (rng : Rand)
    (hdead : g.enemies.all (fun enemy => !enemy.isAlive) = true) (hfloor : 1 ≤ g.floor)
    (hhit : ∀ m rngA, DungeonMap.new rng = some (m, rngA) → rng.Hits m) :
    (∃ (fuel0 : Nat) (g1 : Game) (rng1 : Rand),
      (∀ fuel, fuel0 ≤ fuel → g.iteration fuel input rng = some (g1, input, rng1)) ∧
      (∀ fuel r, g.iteration fuel input rng = some r → r = (g1, input, rng1)) ∧
      g1.floor = g.floor + 1 ∧
      (g1.enemies.length : Int) = 3 + (g.floor + 1) ∧
      (∀ e ∈ g1.enemies, e.health = e.maxHealth ∧ e.isAlive = true ∧
        g1.dungeon.isWalkable e.x e.y = true ∧
        ∃ (fresh : Enemy) (x y : Int),
          (fresh = Enemy.dragon ∨ fresh = Enemy.orc ∨ fresh = Enemy.goblin) ∧
          e = fresh.setPosition x y) ∧
      g1.player.health = min g.player.maxHealth (g.player.health + 30) ∧
      g1.player.mana = min g.player.maxMana (g.player.mana + 20) ∧
      g1.player.level = g.player.level ∧ g1.player.experience = g.player.experience ∧
      g1.player.attack = g.player.attack ∧ g1.player.defense = g.player.defense ∧
      g1.player.maxHealth = g.player.maxHealth ∧ g1.player.maxMana = g.player.maxMana ∧
      g1.player.abilities = g.player.abilities ∧
      g1.dungeon.isWalkable g1.player.x g1.player.y = true ∧
      g1.running = g.running) ∧
    (∀ rng0 seeded : Rand,
      (∀ m rngA, DungeonMap.new rng0 = some (m, rngA) → seeded.Hits m) →
      ∃ (fuel0 : Nat) (g1 : Game) (rng1 : Rand),
        (∀ fuel, fuel0 ≤ fuel → Game.new fuel rng0 seeded = some (g1, rng1)) ∧
        g1.floor = 1 ∧ g1.enemies.length = 4 ∧
        (∀ e ∈ g1.enemies, e.health = e.maxHealth ∧ e.isAlive = true ∧
          ∃ (fresh : Enemy) (x y : Int),
            (fresh = Enemy.dragon ∨ fresh = Enemy.orc ∨ fresh = Enemy.goblin) ∧
            e = fresh.setPosition x y) ∧
        g1.running = true ∧
        ∃ x y, g1.player = Player.new.setPosition x y) := by
  refine ⟨?_, ?_⟩
  · obtain ⟨fuel0, g1, rng1, hret⟩ := Game.floorClear_hits g rng hhit
    have h := hret fuel0 (le_refl _)
    obtain ⟨m, pos, new, c1, c2, c3, c4⟩ :=
      Game.floorClear_spec fuel0 g rng (by omega) g1 rng1 h
    refine ⟨fuel0, g1, rng1, ?_, ?_, by rw [c2], by rw [c2]; exact c3, ?_, by rw [c2]; rfl,
      by rw [c2]; rfl, by rw [c2]; rfl, by rw [c2]; rfl, by rw [c2]; rfl, by rw [c2]; rfl,
      by rw [c2]; rfl, by rw [c2]; rfl, by rw [c2]; rfl, by rw [c2]; exact c1, by rw [c2]⟩
    · intro fuel hfuel
      unfold Game.iteration
      rw [if_pos hdead, hret fuel hfuel]
    · intro fuel r hr
      unfold Game.iteration at hr
      rw [if_pos hdead] at hr
      cases hf : g.floorClear fuel rng with
      | none => rw [hf] at hr; cases hr
      | some r1 =>
        rw [hf] at hr
        simp only [Option.some.injEq] at hr
        have h1 := Game.floorClear_more fuel (max fuel fuel0) (le_max_left _ _) g rng r1 hf
        rw [hret _ (le_max_right _ _)] at h1
        simp only [Option.some.injEq] at h1
        rw [← hr, ← h1]
    · intro e he
      rw [c2] at he
      obtain ⟨fresh, x, y, f1, f2, f3⟩ := c4 e he
      obtain ⟨q1, q2, q3, q4⟩ := Enemy.fresh_setPosition fresh x y f1
      rw [c2, f2]
      refine ⟨q1, q2, ?_, fresh, x, y, f1, rfl⟩
      show m.isWalkable (fresh.setPosition x y).x (fresh.setPosition x y).y = true
      rw [q3, q4]
      exact f3
  · intro rng0 seeded hseed
    obtain ⟨fuel0, g1, rng1, hret⟩ := Game.new_hits rng0 seeded hseed
    refine ⟨fuel0, g1, rng1, hret, ?_⟩
    have h := hret fuel0 (le_refl _)
    unfold Game.new at h
    cases hm : DungeonMap.new rng0 with
    | none => rw [hm] at h; cases h
    | some r =>
      obtain ⟨m, rngA⟩ := r
      rw [hm] at h
      simp only [] at h
      cases hp : m.getRandomFloor fuel0 seeded with
      | none => rw [hp] at h; cases h
      | some r2 =>
        obtain ⟨pos, rngB⟩ := r2
        rw [hp] at h
        simp only [] at h
        obtain ⟨new, n1, n2, n3⟩ := Game.spawnEnemies_spec fuel0 _ rngB
          (by show (0 : Int) ≤ 3 + 1; decide) g1 rng1 h
        rw [n1]
        refine ⟨rfl, ?_, ?_, rfl, pos.1, pos.2, rfl⟩
        · show ([] ++ new).length = 4
          rw [List.nil_append]
          have : (new.length : Int) = 3 + 1 := n2
          omega
        · intro e he
          have he1 : e ∈ new := by
            have : e ∈ [] ++ new := he
            rwa [List.nil_append] at this
          obtain ⟨fresh, x, y, f1, f2, -⟩ := n3 e he1
          obtain ⟨q1, q2, -, -⟩ := Enemy.fresh_setPosition fresh x y f1
          rw [f2]
          exact ⟨q1, q2, fresh, x, y, f1, rfl⟩

/-- The stream `Scenario.lowRand` keeps naming the floor cell (1,1) of the map generated
from it, and so does the constant stream 1. -/
theorem Scenario.lowRand_hits (m : DungeonMap) (rngA : Rand)
    (h : DungeonMap.new Scenario.lowRand = some (m, rngA)) :
    Scenario.lowRand.Hits m ∧ Rand.Hits (fun _ => 1) m := by
  have hv : (DungeonMap.new Scenario.lowRand).map (fun r => r.1.tiles 1 1) = some '.' := by
    set_option maxRecDepth 100000 in decide
  rw [h] at hv
  simp only [Option.map_some', Option.some.injEq] at hv
  constructor
  · intro k
    refine ⟨11, ?_⟩
    have h1 : Scenario.lowRand (k + 2 * 11 + 1) = 1 := by
      unfold Scenario.lowRand
      rw [if_neg (by omega)]
    have h2 : Scenario.lowRand (k + 2 * 11) = 1 := by
      unfold Scenario.lowRand
      rw [if_neg (by omega)]
    rw [h1, h2]
    exact hv
  · intro k
    exact ⟨0, hv⟩

/-- Witness for `floor_clear`: `Scenario.clearedGame` (floor 1, health 50 of 100, mana 20
of 50) with `Scenario.lowRand` goes to floor 2 with 5 enemies, 80 health and 40 mana; and
the constructor with `Scenario.lowRand` and the seeded stream 1 starts with 4 enemies. -/
theorem floor_clear_witness :
    Scenario.clearedGame.enemies.all (fun enemy => !enemy.isAlive) = true ∧
    (1 : Int) ≤ Scenario.clearedGame.floor ∧
    (∃ (fuel0 : Nat) (g1 : Game) (rng1 : Rand),
      (∀ fuel, fuel0 ≤ fuel →
        Scenario.clearedGame.iteration fuel ['w'] Scenario.lowRand = some (g1, ['w'], rng1)) ∧
      g1.floor = 2 ∧ (g1.enemies.length : Int) = 5 ∧ g1.player.health = 80 ∧
      g1.player.mana = 40) ∧
    (∃ (fuel0 : Nat) (g1 : Game) (rng1 : Rand),
      (∀ fuel, fuel0 ≤ fuel → Game.new fuel Scenario.lowRand (fun _ => 1) = some (g1, rng1)) ∧
      g1.floor = 1 ∧ g1.enemies.length = 4) := by
  have h := floor_clear Scenario.clearedGame ['w'] Scenario.lowRand (by decide) (by decide)
    (fun m rngA hm => (Scenario.lowRand_hits m rngA hm).1)
  obtain ⟨⟨fuel0, g1, rng1, a1, -, a3, a4, -, a6, a7, -⟩, hnew⟩ := h
  obtain ⟨fuel1, g2, rng2, b1, b2, b3, -⟩ := hnew Scenario.lowRand (fun _ => 1)
    (fun m rngA hm => (Scenario.lowRand_hits m rngA hm).2)
  exact ⟨by decide, by decide, ⟨fuel0, g1, rng1, a1, a3, a4, a6.trans (by decide),
    a7.trans (by decide)⟩, ⟨fuel1, g2, rng2, b1, b2, b3⟩⟩

/-! ## Positions stay on floor cells -/

/-- A loop over the enemies whose body keeps a property of the loop state and the position
of the enemy it handles: every enemy of the result stands where an enemy stood before. -/
theorem Game.forEnemies_positions {σ : Type} (body : σ → Enemy → σ × Enemy) (P : σ → Prop)
    (hbody : ∀ s e, P s → P (body s e).1 ∧ (body s e).2.x = e.x ∧ (body s e).2.y = e.y) :
    ∀ (es : List Enemy) (s : σ), P s →
      P (Game.forEnemies body s es).1 ∧
      ∀ e1 ∈ (Game.forEnemies body s es).2, ∃ e ∈ es, e1.x = e.x ∧ e1.y = e.y := by
  intro es
  induction es with
  | nil =>
    intro s hs
    exact ⟨hs, fun e1 he1 => by cases he1⟩
  | cons e rest ih =>
    intro s hs
    obtain ⟨b1, b2, b3⟩ := hbody s e hs
    obtain ⟨i1, i2⟩ := ih (body s e).1 b1
    simp only [Game.forEnemies]
    refine ⟨i1, ?_⟩
    intro e1 he1
    rcases List.mem_cons.mp he1 with h | h
    · exact ⟨e, List.mem_cons_self _ _, by rw [h]; exact ⟨b2, b3⟩⟩
    · obtain ⟨e0, h0, h1⟩ := i2 e1 h
      exact ⟨e0, List.mem_cons_of_mem _ h0, h1⟩

theorem Player.gainExperience_position (p : Player) (e : Int) :
    (p.gainExperience e).x = p.x ∧ (p.gainExperience e).y = p.y :=
  ⟨(Player.gainExperience_gainedFrom p e).2.1, (Player.gainExperience_gainedFrom p e).2.2.1⟩

theorem Game.cleaveBody_position (px py : Int) (s : Player × Int) (e : Enemy)
    (hs : s.1.x = px ∧ s.1.y = py) :
    ((Game.cleaveBody s e).1.1.x = px ∧ (Game.cleaveBody s e).1.1.y = py) ∧
    (Game.cleaveBody s e).2.x = e.x ∧ (Game.cleaveBody s e).2.y = e.y := by
  obtain ⟨b1, -, b3, -, -⟩ := Game.cleaveBody_step s e
  refine ⟨⟨by rw [b1.2.1]; exact hs.1, by rw [b1.2.2.1]; exact hs.2⟩, ?_, ?_⟩
  · rw [b3]
  · rw [b3]

theorem Game.fireBlastBody_position (px py : Int) (p : Player) (e : Enemy)
    (hp : p.x = px ∧ p.y = py) :
    ((Game.fireBlastBody p e).1.x = px ∧ (Game.fireBlastBody p e).1.y = py) ∧
    (Game.fireBlastBody p e).2.x = e.x ∧ (Game.fireBlastBody p e).2.y = e.y := by
  have b1 := Game.fireBlastBody_step p e
  refine ⟨⟨by rw [b1.2.1]; exact hp.1, by rw [b1.2.2.1]; exact hp.2⟩, ?_⟩
  simp only [Game.fireBlastBody]
  split
  · exact ⟨rfl, rfl⟩
  · split
    · split
      · exact ⟨rfl, rfl⟩
      · exact ⟨rfl, rfl⟩
    · exact ⟨rfl, rfl⟩

/-- `playerAttack`, when it hits, leaves the player in place and every enemy where an enemy
stood before. -/
theorem Game.playerAttackLoop_positions (p : Player) :
    ∀ (es : List Enemy) (r : Player × List Enemy), Game.playerAttackLoop p es = some r →
      r.1.x = p.x ∧ r.1.y = p.y ∧ ∀ e1 ∈ r.2, ∃ e ∈ es, e1.x = e.x ∧ e1.y = e.y := by
  intro es
  induction es with
  | nil => intro r h; cases h
  | cons e rest ih =>
    intro r h
    simp only [Game.playerAttackLoop] at h
    cases hb : Game.playerAttackBody p e with
    | some b =>
      obtain ⟨p1, e1⟩ := b
      rw [hb] at h
      simp only [Option.some.injEq] at h
      -- the body hit `e`
      have hbody : p1.x = p.x ∧ p1.y = p.y ∧ e1.x = e.x ∧ e1.y = e.y := by
        unfold Game.playerAttackBody at hb
        split at hb
        · cases hb
        · simp only [] at hb
          split at hb
          · split at hb
            · simp only [Option.some.injEq, Prod.mk.injEq] at hb
              obtain ⟨h1, h2⟩ := hb
              rw [← h1, ← h2]
              exact ⟨(Player.gainExperience_position p _).1,
                (Player.gainExperience_position p _).2, rfl, rfl⟩
            · simp only [Option.some.injEq, Prod.mk.injEq] at hb
              obtain ⟨h1, h2⟩ := hb
              rw [← h1, ← h2]
              exact ⟨rfl, rfl, rfl, rfl⟩
          · cases hb
      rw [← h]
      refine ⟨hbody.1, hbody.2.1, ?_⟩
      intro e2 he2
      rcases List.mem_cons.mp he2 with h2 | h2
      · exact ⟨e, List.mem_cons_self _ _, by rw [h2]; exact hbody.2.2⟩
      · exact ⟨e2, List.mem_cons_of_mem _ h2, rfl, rfl⟩
    | none =>
      rw [hb] at h
      simp only [] at h
      cases hl : Game.playerAttackLoop p rest with
      | none => rw [hl] at h; cases h
      | some r1 =>
        obtain ⟨p1, rest1⟩ := r1
        rw [hl] at h
        simp only [Option.some.injEq] at h
        obtain ⟨i1, i2, i3⟩ := ih (p1, rest1) hl
        rw [← h]
        refine ⟨i1, i2, ?_⟩
        intro e2 he2
        rcases List.mem_cons.mp he2 with h2 | h2
        · exact ⟨e, List.mem_cons_self _ _, by rw [h2]; exact ⟨rfl, rfl⟩⟩
        · obtain ⟨e0, h0, h1⟩ := i3 e2 h2
          exact ⟨e0, List.mem_cons_of_mem _ h0, h1⟩

/-- A state with the same map, the same player position and enemies only where enemies
stood before is on floor cells if the earlier state was. -/
theorem Game.OnFloor.of_positions {g g1 : Game} (h : g.OnFloor) (hd : g1.dungeon = g.dungeon)
    (hx : g1.player.x = g.player.x) (hy : g1.player.y = g.player.y)
    (he : ∀ e1 ∈ g1.enemies, ∃ e ∈ g.enemies, e1.x = e.x ∧ e1.y = e.y) : g1.OnFloor := by
  refine ⟨by rw [hd, hx, hy]; exact h.1, ?_⟩
  intro e1 he1
  obtain ⟨e, hmem, h1, h2⟩ := he e1 he1
  rw [hd, h1, h2]
  exact h.2 e hmem

/-- The melee attack keeps everyone on floor cells. -/
theorem Game.playerAttack_onFloor (g : Game) (h : g.OnFloor) : g.playerAttack.OnFloor := by
  unfold Game.playerAttack
  cases hl : Game.playerAttackLoop g.player g.enemies with
  | none => exact h
  | some r =>
    obtain ⟨p1, es1⟩ := r
    obtain ⟨a1, a2, a3⟩ := Game.playerAttackLoop_positions g.player g.enemies (p1, es1) hl
    exact h.of_positions rfl a1 a2 a3

/-- The abilities keep everyone on floor cells, whether the call succeeds or not. -/
theorem Game.useAbility_onFloor (g : Game) (index : Int) (h : g.OnFloor) :
    (g.useAbility index).1.OnFloor := by
  have hsame : ∀ e1 ∈ g.enemies, ∃ e ∈ g.enemies, e1.x = e.x ∧ e1.y = e.y :=
    fun e1 he1 => ⟨e1, he1, rfl, rfl⟩
  unfold Game.useAbility
  by_cases hidx : index < 0 ∨ index ≥ g.player.abilities.length
  · rw [if_pos hidx]
    exact h
  rw [if_neg hidx]
  cases hab : g.player.abilities[index.toNat]? with
  | none => exact h
  | some ability =>
    simp only []
    by_cases hready : (!ability.isReady) = true
    · rw [if_pos hready]
      exact h
    rw [if_neg hready]
    have hpx : (g.player.useMana ability.manaCost).1.x = g.player.x := by
      unfold Player.useMana
      split <;> rfl
    have hpy : (g.player.useMana ability.manaCost).1.y = g.player.y := by
      unfold Player.useMana
      split <;> rfl
    by_cases hmana : (!(g.player.useMana ability.manaCost).2) = true
    · rw [if_pos hmana]
      exact h.of_positions rfl hpx hpy hsame
    rw [if_neg hmana]
    split
    · obtain ⟨c1, c2⟩ := Game.forEnemies_positions Game.cleaveBody
        (fun s => s.1.x = g.player.x ∧ s.1.y = g.player.y)
        (fun s e hs => by
          obtain ⟨q1, q2, q3⟩ := Game.cleaveBody_position g.player.x g.player.y s e hs
          exact ⟨q1, q2, q3⟩)
        g.enemies
        (({ (g.player.useMana ability.manaCost).1 with
            abilities := (g.player.useMana ability.manaCost).1.abilities.set
              index.toNat ability.use } : Player), 0)
        ⟨hpx, hpy⟩
      exact h.of_positions rfl c1.1 c1.2 c2
    · exact h.of_positions rfl hpx hpy hsame
    · obtain ⟨c1, c2⟩ := Game.forEnemies_positions Game.fireBlastBody
        (fun p => p.x = g.player.x ∧ p.y = g.player.y)
        (fun p e hp => by
          obtain ⟨q1, q2, q3⟩ := Game.fireBlastBody_position g.player.x g.player.y p e hp
          exact ⟨q1, q2, q3⟩)
        g.enemies
        ({ (g.player.useMana ability.manaCost).1 with
            abilities := (g.player.useMana ability.manaCost).1.abilities.set
              index.toNat ability.use } : Player)
        ⟨hpx, hpy⟩
      exact h.of_positions rfl c1.1 c1.2 c2
    · exact h.of_positions rfl hpx hpy hsame

/-- A player move ends on the old cell or on a walkable one. -/
theorem Game.movePlayer_onFloor (g : Game) (nx ny : Int) (h : g.OnFloor) :
    (g.movePlayer nx ny).OnFloor := by
  obtain ⟨m1, m2⟩ := Game.movePlayer_eq g nx ny
  by_cases hc : g.dungeon.isWalkable nx ny = true ∧
      ∀ e ∈ g.enemies, e.isAlive = true → ¬ (e.x = nx ∧ e.y = ny)
  · rw [m1 hc]
    exact ⟨hc.1, h.2⟩
  · rw [m2 hc]
    exact h

/-- The enemy pass moves enemies only onto walkable cells. -/
theorem Game.handleCombat_onFloor (g : Game) (rng : Rand) (h : g.OnFloor) :
    (g.handleCombat rng).1.OnFloor := by
  obtain ⟨p1, p2, p3, p4, -⟩ := Game.handleCombat_pass g rng
  refine ⟨?_, ?_⟩
  · rw [p2, p1]
    exact h.1
  · intro e1 he1
    obtain ⟨j, hj⟩ := List.getElem?_of_mem he1
    have hlt : j < g.enemies.length := by
      rcases Nat.lt_or_ge j (g.handleCombat rng).1.enemies.length with hh | hh
      · omega
      · rw [List.getElem?_eq_none hh] at hj; cases hj
    have hget : g.enemies[j]? = some g.enemies[j] := List.getElem?_eq_getElem hlt
    rcases (p4 j g.enemies[j] e1 hget hj).2.2 with hs | hm
    · rw [p2, hs.1, hs.2]
      exact h.2 _ (List.getElem_mem _)
    · rw [p2]
      exact hm.2.2.2.1

/-- The end of a turn keeps everyone on floor cells. -/
theorem Game.endOfTurn_onFloor (g : Game) (rng : Rand) (h : g.OnFloor) :
    (g.endOfTurn rng).1.OnFloor := by
  have h1 : Game.OnFloor ({ g with player := g.player.update } : Game) := ⟨h.1, h.2⟩
  have h2 := Game.handleCombat_onFloor _ rng h1
  unfold Game.endOfTurn
  simp only []
  split
  · exact ⟨h2.1, h2.2⟩
  · exact ⟨h2.1, h2.2⟩

/-- Spawning, when it returns, keeps the map and the player and adds enemies on floor
cells only. -/
theorem Game.spawnEnemies_onFloor (fuel : Nat) (g : Game) (rng : Rand) (g1 : Game)
    (rng1 : Rand) (h : g.spawnEnemies fuel rng = some (g1, rng1)) (hg : g.OnFloor) :
    g1.OnFloor := by
  unfold Game.spawnEnemies forRange at h
  simp only [] at h
  cases hl : forLoop (fun _ s => Game.spawnBody fuel g.dungeon g.floor s)
      (3 + g.floor - 0).toNat 0 (g.enemies, rng) with
  | none => rw [hl] at h; cases h
  | some s =>
    rw [hl] at h
    simp only [Option.some.injEq, Prod.mk.injEq] at h
    have hI := forLoop_some (fun _ s => Game.spawnBody fuel g.dungeon g.floor s)
      (fun _ t => ∀ e ∈ t.1, g.dungeon.isWalkable e.x e.y = true)
      (3 + g.floor - 0).toNat 0 (g.enemies, rng) s hl hg.2 (by
        intro i t t1 _ _ ht hb
        simp only [Game.spawnBody] at hb
        cases hp : g.dungeon.getRandomFloor fuel t.2 with
        | none => rw [hp] at hb; cases hb
        | some r =>
          obtain ⟨pos, rngA⟩ := r
          rw [hp] at hb
          simp only [Option.some.injEq] at hb
          have hw := DungeonMap.getRandomFloor_floor g.dungeon fuel t.2 pos rngA hp
          rw [← hb]
          intro e he
          rcases List.mem_append.1 he with he1 | he1
          · exact ht e he1
          · rw [List.mem_singleton] at he1
            rw [he1]
            exact hw)
    rw [← h.1]
    exact ⟨hg.1, hI⟩

/-- The floor transition, when it returns, puts everyone on floor cells of the new map. -/
theorem Game.floorClear_onFloor (fuel : Nat) (g : Game) (rng : Rand) (g1 : Game) (rng1 : Rand)
    (h : g.floorClear fuel rng = some (g1, rng1)) : g1.OnFloor := by
  unfold Game.floorClear at h
  cases hm : DungeonMap.new rng with
  | none => rw [hm] at h; cases h
  | some d =>
    obtain ⟨m, rngA⟩ := d
    rw [hm] at h
    simp only [] at h
    cases hp : m.getRandomFloor fuel rngA with
    | none => rw [hp] at h; cases h
    | some r2 =>
      obtain ⟨pos, rngB⟩ := r2
      rw [hp] at h
      simp only [] at h
      have hw := DungeonMap.getRandomFloor_floor m fuel rngA pos rngB hp
      cases hs : Game.spawnEnemies fuel
          ({ g with floor := g.floor + 1, enemies := [], dungeon := m,
                    player := g.player.setPosition pos.1 pos.2 } : Game) rngB with
      | none => rw [hs] at h; cases h
      | some r3 =>
        obtain ⟨g2, rngC⟩ := r3
        rw [hs] at h
        simp only [Option.some.injEq, Prod.mk.injEq] at h
        have h2 := Game.spawnEnemies_onFloor fuel _ rngB g2 rngC hs
          ⟨hw, fun e he => by cases he⟩
        rw [← h.1]
        exact ⟨h2.1, h2.2⟩

/-- The constructor, when it returns, puts everyone on floor cells. -/
theorem Game.new_onFloor (fuel : Nat) (rng seeded : Rand) (g : Game) (rng1 : Rand)
    (h : Game.new fuel rng seeded = some (g, rng1)) : g.OnFloor := by
  unfold Game.new at h
  cases hm : DungeonMap.new rng with
  | none => rw [hm] at h; cases h
  | some d =>
    obtain ⟨m, rngA⟩ := d
    rw [hm] at h
    simp only [] at h
    cases hp : m.getRandomFloor fuel seeded with
    | none => rw [hp] at h; cases h
    | some r2 =>
      obtain ⟨pos, rngB⟩ := r2
      rw [hp] at h
      simp only [] at h
      have hw := DungeonMap.getRandomFloor_floor m fuel seeded pos rngB hp
      exact Game.spawnEnemies_onFloor fuel _ rngB g rng1 h ⟨hw, fun e he => by cases he⟩

/-- One round of the loop keeps everyone on floor cells. -/
theorem Game.iteration_onFloor (fuel : Nat) (g : Game) (input : List Char) (rng : Rand)
    (g1 : Game) (input1 : List Char) (rng1 : Rand)
    (h : g.iteration fuel input rng = some (g1, input1, rng1)) (hg : g.OnFloor) :
    g1.OnFloor := by
  unfold Game.iteration at h
  by_cases hall : g.enemies.all (fun enemy => !enemy.isAlive) = true
  · rw [if_pos hall] at h
    cases hf : g.floorClear fuel rng with
    | none => rw [hf] at h; cases h
    | some r =>
      obtain ⟨g2, rng2⟩ := r
      rw [hf] at h
      simp only [Option.some.injEq, Prod.mk.injEq] at h
      rw [← h.1]
      exact Game.floorClear_onFloor fuel g rng g2 rng2 hf
  · rw [if_neg hall] at h
    cases input with
    | nil => cases h
    | cons c rest =>
      have hmove : ∀ nx ny, ((g.movePlayer nx ny).endOfTurn rng).1.OnFloor := fun nx ny =>
        Game.endOfTurn_onFloor _ rng (Game.movePlayer_onFloor g nx ny hg)
      have hab : ∀ index, ((g.useAbility index).1.endOfTurn rng).1.OnFloor := fun index =>
        Game.endOfTurn_onFloor _ rng (Game.useAbility_onFloor g index hg)
      simp only [] at h
      split_ifs at h <;> simp only [Option.some.injEq, Prod.mk.injEq] at h <;> rw [← h.1]
      · exact hmove _ _
      · exact hmove _ _
      · exact hmove _ _
      · exact hmove _ _
      · exact Game.endOfTurn_onFloor _ rng (Game.playerAttack_onFloor g hg)
      · exact hab _
      · exact hab _
      · exact hab _
      · exact ⟨hg.1, hg.2⟩
      · exact hg

/-- Every state of a session is on floor cells. -/
theorem Game.Reachable.onFloor {g : Game} (h : Game.Reachable g) : g.OnFloor := by
  induction h with
  | start fuel rng seeded g rng1 hnew => exact Game.new_onFloor fuel rng seeded g rng1 hnew
  | round fuel g input rng g1 input1 rng1 _ _ hit ih =>
    exact Game.iteration_onFloor fuel g input rng g1 input1 rng1 hit ih

/-- The rounds of the loop lead from session states to session states. -/
theorem Game.rounds_reachable (fuel : Nat) : ∀ (n : Nat) (g : Game) (input : List Char)
    (rng : Rand) (g1 : Game) (input1 : List Char) (rng1 : Rand),
    g.rounds fuel n input rng = some (g1, input1, rng1) → Game.Reachable g →
    Game.Reachable g1 := by
  intro n
  induction n with
  | zero =>
    intro g input rng g1 input1 rng1 h hg
    simp only [Game.rounds, Option.some.injEq, Prod.mk.injEq] at h
    rw [← h.1]
    exact hg
  | succ n ih =>
    intro g input rng g1 input1 rng1 h hg
    simp only [Game.rounds] at h
    by_cases hrun : g.running = true
    · rw [if_pos hrun] at h
      cases hit : g.iteration fuel input rng with
      | none => rw [hit] at h; cases h
      | some r =>
        obtain ⟨g2, input2, rng2⟩ := r
        rw [hit] at h
        exact ih g2 input2 rng2 g1 input1 rng1 h
          (Game.Reachable.round fuel g input rng g2 input2 rng2 hg hrun hit)
    · rw [if_neg hrun] at h
      simp only [Option.some.injEq, Prod.mk.injEq] at h
      rw [← h.1]
      exact hg

/-- The state a run of the program is in after any number of rounds is a session state. -/
theorem Game.session_reachable (fuel n : Nat) (rng seeded : Rand) (input : List Char)
    (g : Game) (input1 : List Char) (rng1 : Rand)
    (h : Game.session fuel n rng seeded input = some (g, input1, rng1)) :
    Game.Reachable g := by
  unfold Game.session at h
  cases hnew : Game.new fuel rng seeded with
  | none => rw [hnew] at h; cases h
  | some r =>
    obtain ⟨g0, rng0⟩ := r
    rw [hnew] at h
    exact Game.rounds_reachable fuel n g0 input rng0 g input1 rng1 h
      (Game.Reachable.start fuel rng seeded g0 rng0 hnew)

/-- C21: the player and every enemy of the collection, alive or dead, stand on cells for
which `isWalkable` holds (a) in every state reachable from the constructor by rounds of
`run`, whatever the commands, the random values and the number of samples after which the
sampling loops return; this rests on (b) the constructor, whenever it returns, producing
such a state, and (c) each of a player move, the enemy pass, an ability, a melee attack,
the end of a turn and a floor transition (whenever it returns) leading from such a state
to such a state. -/
theorem reachable_on_floor :
    (∀ g : Game, Game.Reachable g →
      g.dungeon.isWalkable g.player.x g.player.y = true ∧
      ∀ e ∈ g.enemies, g.dungeon.isWalkable e.x e.y = true) ∧
    (∀ (fuel : Nat) (rng seeded : Rand) (g : Game) (rng1 : Rand),
      Game.new fuel rng seeded = some (g, rng1) → g.OnFloor) ∧
    (∀ g : Game, g.OnFloor →
      (∀ newX newY : Int, (g.movePlayer newX newY).OnFloor) ∧
      (∀ rng : Rand, (g.handleCombat rng).1.OnFloor) ∧
      (∀ index : Int, (g.useAbility index).1.OnFloor) ∧
      g.playerAttack.OnFloor ∧
      (∀ rng : Rand, (g.endOfTurn rng).1.OnFloor)) ∧
    (∀ (fuel : Nat) (g : Game) (rng : Rand) (g1 : Game) (rng1 : Rand),
      g.floorClear fuel rng = some (g1, rng1) → g1.OnFloor) :=
  ⟨fun _ h => h.onFloor,
   Game.new_onFloor,
   fun g hg => ⟨fun newX newY => Game.movePlayer_onFloor g newX newY hg,
     fun rng => Game.handleCombat_onFloor g rng hg,
     fun index => Game.useAbility_onFloor g index hg,
     Game.playerAttack_onFloor g hg,
     fun rng => Game.endOfTurn_onFloor g rng hg⟩,
   Game.floorClear_onFloor⟩

/-- Witness for `reachable_on_floor`: with `Scenario.lowRand` for the map, the constant 1
for the seeded values and the commands `d d d s s 3`, six rounds lead to a state with the
player at (4,3) and the first enemy at (3,3), and everyone stands on a floor cell. -/
theorem reachable_on_floor_witness :
    ∃ (g : Game) (input1 : List Char) (rng1 : Rand),
      Game.session 1 6 Scenario.lowRand (fun _ => 1) ['d', 'd', 'd', 's', 's', '3'] =
        some (g, input1, rng1) ∧
      (g.player.x, g.player.y) = (4, 3) ∧
      g.enemies.map (fun e => (e.x, e.y)) = [(3, 3), (3, 2), (2, 2), (2, 1)] ∧
      Game.Reachable g ∧
      g.dungeon.isWalkable g.player.x g.player.y = true ∧
      ∀ e ∈ g.enemies, g.dungeon.isWalkable e.x e.y = true := by
  have hval : (Game.session 1 6 Scenario.lowRand (fun _ => 1)
      ['d', 'd', 'd', 's', 's', '3']).map
        (fun r => ((r.1.player.x, r.1.player.y), r.1.enemies.map (fun e => (e.x, e.y)))) =
      some ((4, 3), [(3, 3), (3, 2), (2, 2), (2, 1)]) := by
    set_option maxRecDepth 1000000 in decide
  cases hr : Game.session 1 6 Scenario.lowRand (fun _ => 1)
      ['d', 'd', 'd', 's', 's', '3'] with
  | none => rw [hr] at hval; cases hval
  | some r =>
    obtain ⟨g, input1, rng1⟩ := r
    rw [hr] at hval
    simp only [Option.map_some', Option.some.injEq, Prod.mk.injEq] at hval
    have hreach := Game.session_reachable 1 6 Scenario.lowRand (fun _ => 1)
      ['d', 'd', 'd', 's', 's', '3'] g input1 rng1 hr
    have hfloor := reachable_on_floor.1 g hreach
    exact ⟨g, input1, rng1, rfl, Prod.ext hval.1.1 hval.1.2, hval.2, hreach, hfloor.1,
      hfloor.2⟩

/-! ## Health and defense stay non-negative -/

theorem Entity.takeDamage_nonneg (e : Entity) (d : Int) (h : e.NonNeg) :
    (e.takeDamage d).NonNeg := by
  obtain ⟨-, h2, h3⟩ := h
  refine ⟨?_, h2, h3⟩
  rw [Entity.takeDamage_health]
  exact le_max_left _ _

theorem Entity.heal_nonneg (e : Entity) (amount : Int) (ha : 0 ≤ amount) (h : e.NonNeg) :
    (e.heal amount).NonNeg := by
  obtain ⟨h1, h2, h3⟩ := h
  refine ⟨?_, h2, h3⟩
  show 0 ≤ min e.maxHealth (e.health + amount)
  omega

theorem Player.gainExperience_nonneg (p : Player) (e : Int) (h : p.toEntity.NonNeg) :
    (p.gainExperience e).toEntity.NonNeg := by
  obtain ⟨h1, h2, h3⟩ := h
  obtain ⟨n, -, -, -, -, r5, -, r7, -, r9, r10, -⟩ :=
    Player.levelLoop_rounds { p with experience := p.experience + e }
  have hmh : (p.gainExperience e).maxHealth = p.maxHealth + 20 * n := r5
  have hdf : (p.gainExperience e).defense = p.defense + 2 * n := r7
  have hn : (0 : Int) ≤ n := Int.ofNat_nonneg n
  refine ⟨?_, by rw [hmh]; omega, by rw [hdf]; omega⟩
  rcases Nat.eq_zero_or_pos n with h0 | h0
  · have := r9 h0
    unfold Player.gainExperience
    rw [this]
    exact h1
  · have hh : (p.gainExperience e).health = (p.gainExperience e).maxHealth := (r10 h0).1
    rw [hh, hmh]
    omega

/-- A loop over the enemies whose body keeps a property of the loop state and a property
of the enemy it handles keeps both. -/
theorem Game.forEnemies_inv {σ : Type} (body : σ → Enemy → σ × Enemy) (P : σ → Prop)
    (Q : Enemy → Prop) (hbody : ∀ s e, P s → Q e → P (body s e).1 ∧ Q (body s e).2) :
    ∀ (es : List Enemy) (s : σ), P s → (∀ e ∈ es, Q e) →
      P (Game.forEnemies body s es).1 ∧ ∀ e ∈ (Game.forEnemies body s es).2, Q e := by
  intro es
  induction es with
  | nil =>
    intro s hs _
    exact ⟨hs, fun e he => by cases he⟩
  | cons e rest ih =>
    intro s hs hes
    obtain ⟨b1, b2⟩ := hbody s e hs (hes e (List.mem_cons_self _ _))
    obtain ⟨i1, i2⟩ := ih (body s e).1 b1 (fun e1 he1 => hes e1 (List.mem_cons_of_mem _ he1))
    simp only [Game.forEnemies]
    refine ⟨i1, ?_⟩
    intro e1 he1
    rcases List.mem_cons.mp he1 with h | h
    · rw [h]; exact b2
    · exact i2 e1 h

theorem Game.cleaveBody_nonneg (s : Player × Int) (e : Enemy) (hs : s.1.toEntity.NonNeg)
    (he : e.toEntity.NonNeg) :
    (Game.cleaveBody s e).1.1.toEntity.NonNeg ∧ (Game.cleaveBody s e).2.toEntity.NonNeg := by
  unfold Game.cleaveBody
  split
  · exact ⟨hs, he⟩
  · simp only []
    split
    · split
      · exact ⟨Player.gainExperience_nonneg _ _ hs, Entity.takeDamage_nonneg _ _ he⟩
      · exact ⟨hs, Entity.takeDamage_nonneg _ _ he⟩
    · exact ⟨hs, he⟩

theorem Game.fireBlastBody_nonneg (p : Player) (e : Enemy) (hp : p.toEntity.NonNeg)
    (he : e.toEntity.NonNeg) :
    (Game.fireBlastBody p e).1.toEntity.NonNeg ∧ (Game.fireBlastBody p e).2.toEntity.NonNeg := by
  unfold Game.fireBlastBody
  split
  · exact ⟨hp, he⟩
  · simp only []
    split
    · split
      · exact ⟨Player.gainExperience_nonneg _ _ hp, Entity.takeDamage_nonneg _ _ he⟩
      · exact ⟨hp, Entity.takeDamage_nonneg _ _ he⟩
    · exact ⟨hp, he⟩

theorem Game.playerAttackLoop_nonneg (p : Player) (hp : p.toEntity.NonNeg) :
    ∀ (es : List Enemy) (r : Player × List Enemy), Game.playerAttackLoop p es = some r →
      (∀ e ∈ es, e.toEntity.NonNeg) →
      r.1.toEntity.NonNeg ∧ ∀ e ∈ r.2, e.toEntity.NonNeg := by
  intro es
  induction es with
  | nil => intro r h; cases h
  | cons e rest ih =>
    intro r h hes
    have he := hes e (List.mem_cons_self _ _)
    have hrest : ∀ e1 ∈ rest, e1.toEntity.NonNeg :=
      fun e1 he1 => hes e1 (List.mem_cons_of_mem _ he1)
    simp only [Game.playerAttackLoop] at h
    cases hb : Game.playerAttackBody p e with
    | some b =>
      obtain ⟨p1, e1⟩ := b
      rw [hb] at h
      simp only [Option.some.injEq] at h
      have hbody : p1.toEntity.NonNeg ∧ e1.toEntity.NonNeg := by
        unfold Game.playerAttackBody at hb
        split at hb
        · cases hb
        · simp only [] at hb
          split at hb
          · split at hb
            · simp only [Option.some.injEq, Prod.mk.injEq] at hb
              obtain ⟨h1, h2⟩ := hb
              rw [← h1, ← h2]
              exact ⟨Player.gainExperience_nonneg _ _ hp, Entity.takeDamage_nonneg _ _ he⟩
            · simp only [Option.some.injEq, Prod.mk.injEq] at hb
              obtain ⟨h1, h2⟩ := hb
              rw [← h1, ← h2]
              exact ⟨hp, Entity.takeDamage_nonneg _ _ he⟩
          · cases hb
      rw [← h]
      refine ⟨hbody.1, ?_⟩
      intro e2 he2
      rcases List.mem_cons.mp he2 with h2 | h2
      · rw [h2]; exact hbody.2
      · exact hrest e2 h2
    | none =>
      rw [hb] at h
      simp only [] at h
      cases hl : Game.playerAttackLoop p rest with
      | none => rw [hl] at h; cases h
      | some r1 =>
        obtain ⟨p1, rest1⟩ := r1
        rw [hl] at h
        simp only [Option.some.injEq] at h
        obtain ⟨i1, i2⟩ := ih (p1, rest1) hl hrest
        rw [← h]
        refine ⟨i1, ?_⟩
        intro e2 he2
        rcases List.mem_cons.mp he2 with h2 | h2
        · rw [h2]; exact he
        · exact i2 e2 h2

theorem Game.playerAttack_nonneg (g : Game) (h : g.NonNeg) : g.playerAttack.NonNeg := by
  unfold Game.playerAttack
  cases hl : Game.playerAttackLoop g.player g.enemies with
  | none => exact h
  | some r =>
    obtain ⟨p1, es1⟩ := r
    exact Game.playerAttackLoop_nonneg g.player h.1 g.enemies (p1, es1) hl h.2

theorem Game.useAbility_nonneg (g : Game) (index : Int) (h : g.NonNeg) :
    (g.useAbility index).1.NonNeg := by
  unfold Game.useAbility
  by_cases hidx : index < 0 ∨ index ≥ g.player.abilities.length
  · rw [if_pos hidx]
    exact h
  rw [if_neg hidx]
  cases hab : g.player.abilities[index.toNat]? with
  | none => exact h
  | some ability =>
    simp only []
    by_cases hready : (!ability.isReady) = true
    · rw [if_pos hready]
      exact h
    rw [if_neg hready]
    have hp : (g.player.useMana ability.manaCost).1.toEntity.NonNeg := by
      unfold Player.useMana
      split
      · exact h.1
      · exact h.1
    by_cases hmana : (!(g.player.useMana ability.manaCost).2) = true
    · rw [if_pos hmana]
      exact ⟨hp, h.2⟩
    rw [if_neg hmana]
    split
    · exact Game.forEnemies_inv Game.cleaveBody (fun s => s.1.toEntity.NonNeg)
        (fun e => e.toEntity.NonNeg) (fun s e hs he => Game.cleaveBody_nonneg s e hs he)
        g.enemies _ hp h.2
    · exact ⟨Entity.heal_nonneg _ 40 (by decide) hp, h.2⟩
    · exact Game.forEnemies_inv Game.fireBlastBody (fun p => p.toEntity.NonNeg)
        (fun e => e.toEntity.NonNeg) (fun p e hp he => Game.fireBlastBody_nonneg p e hp he)
        g.enemies _ hp h.2
    · exact ⟨hp, h.2⟩

theorem Game.movePlayer_nonneg (g : Game) (nx ny : Int) (h : g.NonNeg) :
    (g.movePlayer nx ny).NonNeg := by
  unfold Game.movePlayer
  split
  · simp only []
    split
    · exact ⟨h.1, h.2⟩
    · exact h
  · exact h

/-- The player's health stays non-negative through the rounds of the enemy pass. -/
theorem Game.handleCombat_health (dungeon : DungeonMap) (s0 : Game.CombatState)
    (h0 : 0 ≤ s0.player.health) (n : Nat) :
    0 ≤ ((List.range n).foldl (Game.handleCombatBody dungeon) s0).player.health := by
  induction n with
  | zero => rw [List.range_zero, List.foldl_nil]; exact h0
  | succ n ih =>
    rw [List.range_succ, List.foldl_append, List.foldl_cons, List.foldl_nil]
    generalize (List.range n).foldl (Game.handleCombatBody dungeon) s0 = s at ih ⊢
    cases hget : s.enemies[n]? with
    | none =>
      have : Game.handleCombatBody dungeon s n = s := by
        unfold Game.handleCombatBody
        simp only [hget]
      rw [this]
      exact ih
    | some enemy =>
      obtain ⟨e1, -, -, -, hp, -⟩ := Game.handleCombatBody_step dungeon s n enemy hget
      rcases hp with hp | ⟨d, hp⟩
      · rw [hp]; exact ih
      · rw [hp]
        show 0 ≤ (s.player.toEntity.takeDamage d).health
        rw [Entity.takeDamage_health]
        exact le_max_left _ _

theorem Game.handleCombat_nonneg (g : Game) (rng : Rand) (h : g.NonNeg) :
    (g.handleCombat rng).1.NonNeg := by
  obtain ⟨p1, -, p3, p4, -⟩ := Game.handleCombat_pass g rng
  have hh : 0 ≤ (g.handleCombat rng).1.player.health :=
    Game.handleCombat_health g.dungeon { player := g.player, enemies := g.enemies, rng := rng }
      h.1.1 g.enemies.length
  refine ⟨⟨hh, ?_, ?_⟩, ?_⟩
  · rw [p1]; exact h.1.2.1
  · rw [p1]; exact h.1.2.2
  · intro e1 he1
    obtain ⟨j, hj⟩ := List.getElem?_of_mem he1
    have hlt : j < g.enemies.length := by
      rcases Nat.lt_or_ge j (g.handleCombat rng).1.enemies.length with hh | hh
      · omega
      · rw [List.getElem?_eq_none hh] at hj; cases hj
    have hget : g.enemies[j]? = some g.enemies[j] := List.getElem?_eq_getElem hlt
    have hq := (p4 j g.enemies[j] e1 hget hj).1
    have hold := h.2 _ (List.getElem_mem hlt)
    rw [hq]
    exact hold

theorem Game.endOfTurn_nonneg (g : Game) (rng : Rand) (h : g.NonNeg) :
    (g.endOfTurn rng).1.NonNeg := by
  have h1 : Game.NonNeg ({ g with player := g.player.update } : Game) := ⟨h.1, h.2⟩
  have h2 := Game.handleCombat_nonneg _ rng h1
  unfold Game.endOfTurn
  simp only []
  split
  · exact ⟨h2.1, h2.2⟩
  · exact ⟨h2.1, h2.2⟩

theorem Enemy.fresh_nonneg (fresh : Enemy) (x y : Int)
    (h : fresh = Enemy.dragon ∨ fresh = Enemy.orc ∨ fresh = Enemy.goblin) :
    (fresh.setPosition x y).toEntity.NonNeg := by
  rcases h with rfl | rfl | rfl
  · exact ⟨by show (0 : Int) ≤ 120; decide, by show (0 : Int) ≤ 120; decide,
      by show (0 : Int) ≤ 8; decide⟩
  · exact ⟨by show (0 : Int) ≤ 50; decide, by show (0 : Int) ≤ 50; decide,
      by show (0 : Int) ≤ 4; decide⟩
  · exact ⟨by show (0 : Int) ≤ 30; decide, by show (0 : Int) ≤ 30; decide,
      by show (0 : Int) ≤ 2; decide⟩

theorem Game.spawnEnemies_nonneg (fuel : Nat) (g : Game) (rng : Rand) (g1 : Game)
    (rng1 : Rand) (h : g.spawnEnemies fuel rng = some (g1, rng1)) (hg : g.NonNeg) :
    g1.NonNeg := by
  unfold Game.spawnEnemies forRange at h
  simp only [] at h
  cases hl : forLoop (fun _ s => Game.spawnBody fuel g.dungeon g.floor s)
      (3 + g.floor - 0).toNat 0 (g.enemies, rng) with
  | none => rw [hl] at h; cases h
  | some s =>
    rw [hl] at h
    simp only [Option.some.injEq, Prod.mk.injEq] at h
    have hI := forLoop_some (fun _ s => Game.spawnBody fuel g.dungeon g.floor s)
      (fun _ t => ∀ e ∈ t.1, e.toEntity.NonNeg)
      (3 + g.floor - 0).toNat 0 (g.enemies, rng) s hl hg.2 (by
        intro i t t1 _ _ ht hb
        obtain ⟨fresh, x, y, f1, f2, -⟩ := Game.spawnBody_spec fuel g.dungeon g.floor t t1 hb
        rw [f2]
        intro e he
        rcases List.mem_append.1 he with he1 | he1
        · exact ht e he1
        · rw [List.mem_singleton] at he1
          rw [he1]
          exact Enemy.fresh_nonneg fresh x y f1)
    rw [← h.1]
    exact ⟨hg.1, hI⟩

theorem Game.floorClear_nonneg (fuel : Nat) (g : Game) (rng : Rand) (g1 : Game) (rng1 : Rand)
    (h : g.floorClear fuel rng = some (g1, rng1)) (hg : g.NonNeg) : g1.NonNeg := by
  unfold Game.floorClear at h
  cases hm : DungeonMap.new rng with
  | none => rw [hm] at h; cases h
  | some d =>
    obtain ⟨m, rngA⟩ := d
    rw [hm] at h
    simp only [] at h
    cases hp : m.getRandomFloor fuel rngA with
    | none => rw [hp] at h; cases h
    | some r2 =>
      obtain ⟨pos, rngB⟩ := r2
      rw [hp] at h
      simp only [] at h
      cases hs : Game.spawnEnemies fuel
          ({ g with floor := g.floor + 1, enemies := [], dungeon := m,
                    player := g.player.setPosition pos.1 pos.2 } : Game) rngB with
      | none => rw [hs] at h; cases h
      | some r3 =>
        obtain ⟨g2, rngC⟩ := r3
        rw [hs] at h
        simp only [Option.some.injEq, Prod.mk.injEq] at h
        have h2 := Game.spawnEnemies_nonneg fuel _ rngB g2 rngC hs
          ⟨hg.1, fun e he => by cases he⟩
        rw [← h.1]
        exact ⟨Entity.heal_nonneg _ 30 (by decide) h2.1, h2.2⟩

theorem Game.new_nonneg (fuel : Nat) (rng seeded : Rand) (g : Game) (rng1 : Rand)
    (h : Game.new fuel rng seeded = some (g, rng1)) : g.NonNeg := by
  unfold Game.new at h
  cases hm : DungeonMap.new rng with
  | none => rw [hm] at h; cases h
  | some d =>
    obtain ⟨m, rngA⟩ := d
    rw [hm] at h
    simp only [] at h
    cases hp : m.getRandomFloor fuel seeded with
    | none => rw [hp] at h; cases h
    | some r2 =>
      obtain ⟨pos, rngB⟩ := r2
      rw [hp] at h
      simp only [] at h
      exact Game.spawnEnemies_nonneg fuel _ rngB g rng1 h
        ⟨⟨by show (0 : Int) ≤ 100; decide, by show (0 : Int) ≤ 100; decide,
          by show (0 : Int) ≤ 5; decide⟩, fun e he => by cases he⟩

theorem Game.iteration_nonneg (fuel : Nat) (g : Game) (input : List Char) (rng : Rand)
    (g1 : Game) (input1 : List Char) (rng1 : Rand)
    (h : g.iteration fuel input rng = some (g1, input1, rng1)) (hg : g.NonNeg) :
    g1.NonNeg := by
  unfold Game.iteration at h
  by_cases hall : g.enemies.all (fun enemy => !enemy.isAlive) = true
  · rw [if_pos hall] at h
    cases hf : g.floorClear fuel rng with
    | none => rw [hf] at h; cases h
    | some r =>
      obtain ⟨g2, rng2⟩ := r
      rw [hf] at h
      simp only [Option.some.injEq, Prod.mk.injEq] at h
      rw [← h.1]
      exact Game.floorClear_nonneg fuel g rng g2 rng2 hf hg
  · rw [if_neg hall] at h
    cases input with
    | nil => cases h
    | cons c rest =>
      have hmove : ∀ nx ny, ((g.movePlayer nx ny).endOfTurn rng).1.NonNeg := fun nx ny =>
        Game.endOfTurn_nonneg _ rng (Game.movePlayer_nonneg g nx ny hg)
      have hab : ∀ index, ((g.useAbility index).1.endOfTurn rng).1.NonNeg := fun index =>
        Game.endOfTurn_nonneg _ rng (Game.useAbility_nonneg g index hg)
      simp only [] at h
      split_ifs at h <;> simp only [Option.some.injEq, Prod.mk.injEq] at h <;> rw [← h.1]
      · exact hmove _ _
      · exact hmove _ _
      · exact hmove _ _
      · exact hmove _ _
      · exact Game.endOfTurn_nonneg _ rng (Game.playerAttack_nonneg g hg)
      · exact hab _
      · exact hab _
      · exact hab _
      · exact ⟨hg.1, hg.2⟩
      · exact hg

/-- In every state of a session the health, maximal health and defense of the player and
of every enemy are non-negative. -/
theorem Game.Reachable.nonneg {g : Game} (h : Game.Reachable g) : g.NonNeg := by
  induction h with
  | start fuel rng seeded g rng1 hnew => exact Game.new_nonneg fuel rng seeded g rng1 hnew
  | round fuel g input rng g1 input1 rng1 _ _ hit ih =>
    exact Game.iteration_nonneg fuel g input rng g1 input1 rng1 hit ih

/-- C1: for every damage `d` with `0 ≤ d ≤ 2^31 - 1` and every entity whose health and
defense are non-negative `int` values, `takeDamage(d)`, computed on `int`, leaves health at
`max(0, h - max(1, d - def))` and changes no other field; the same holds for a player and
an enemy.  Health and defense are non-negative for the player and every enemy of every
state a session reaches.  More generally the equation holds for every `d` and entity for
which neither `d - def` nor `h - max(1, d - def)` leaves the `int` range, and there the
32-bit function agrees with the exact one. -/
theorem takeDamage_spec (d : Int) (hd : 0 ≤ d ∧ d ≤ 2147483647) :
    (∀ e : Entity, 0 ≤ e.health ∧ e.health ≤ 2147483647 →
      0 ≤ e.defense ∧ e.defense ≤ 2147483647 →
      Machine.Entity.takeDamage e d =
        { e with health := max 0 (e.health - max 1 (d - e.defense)) }) ∧
    (∀ p : Player, 0 ≤ p.health ∧ p.health ≤ 2147483647 →
      0 ≤ p.defense ∧ p.defense ≤ 2147483647 →
      Machine.Player.takeDamage p d =
        { p with health := max 0 (p.health - max 1 (d - p.defense)) }) ∧
    (∀ n : Enemy, 0 ≤ n.health ∧ n.health ≤ 2147483647 →
      0 ≤ n.defense ∧ n.defense ≤ 2147483647 →
      Machine.Enemy.takeDamage n d =
        { n with health := max 0 (n.health - max 1 (d - n.defense)) }) ∧
    (∀ g : Game, Game.Reachable g →
      (0 ≤ g.player.health ∧ 0 ≤ g.player.defense) ∧
      ∀ n ∈ g.enemies, 0 ≤ n.health ∧ 0 ≤ n.defense) ∧
    (∀ (e : Entity) (d1 : Int), e.DamageFits d1 →
      Machine.Entity.takeDamage e d1 =
        { e with health := max 0 (e.health - max 1 (d1 - e.defense)) } ∧
      Machine.Entity.takeDamage e d1 = e.takeDamage d1) := by
  have gen : ∀ (e : Entity) (d1 : Int), e.DamageFits d1 →
      Machine.Entity.takeDamage e d1 =
        { e with health := max 0 (e.health - max 1 (d1 - e.defense)) } := by
    intro e d1 h
    rw [Entity.takeDamage_machine e d1 h]
    have hh := Entity.takeDamage_health e d1
    simp only [Entity.takeDamage] at hh ⊢
    rw [hh]
  have fits : ∀ e : Entity, 0 ≤ e.health ∧ e.health ≤ 2147483647 →
      0 ≤ e.defense ∧ e.defense ≤ 2147483647 → e.DamageFits d := by
    intro e hh hdef
    unfold Entity.DamageFits IsInt
    omega
  refine ⟨fun e hh hdef => gen e d (fits e hh hdef), ?_, ?_, ?_,
    fun e d1 h => ⟨gen e d1 h, Entity.takeDamage_machine e d1 h⟩⟩
  · intro p hh hdef
    simp only [Machine.Player.takeDamage, gen p.toEntity d (fits p.toEntity hh hdef)]
  · intro n hh hdef
    simp only [Machine.Enemy.takeDamage, gen n.toEntity d (fits n.toEntity hh hdef)]
  · intro g hg
    have h := hg.nonneg
    exact ⟨⟨h.1.1, h.1.2.2⟩, fun n hn => ⟨(h.2 n hn).1, (h.2 n hn).2.2⟩⟩

/-- Witness for `takeDamage_spec`: the fresh hero (health 100, defense 5) hit by 20 is left
with 85 health, a fresh goblin (health 30, defense 2) with 12. -/
theorem takeDamage_spec_witness :
    ((0 : Int) ≤ 20 ∧ (20 : Int) ≤ 2147483647) ∧
    Machine.Player.takeDamage Player.new 20 = { Player.new with health := 85 } ∧
    Machine.Enemy.takeDamage Enemy.goblin 20 = { Enemy.goblin with health := 12 } :=
  have h := takeDamage_spec 20 ⟨by decide, by decide⟩
  ⟨⟨by decide, by decide⟩,
    (h.2.1 Player.new ⟨by decide, by decide⟩ ⟨by decide, by decide⟩).trans rfl,
    (h.2.2.1 Enemy.goblin ⟨by decide, by decide⟩ ⟨by decide, by decide⟩).trans rfl⟩

end Dungeon
